import Mathlib

/-! ASPECT simulator core: time stepping, linear tolerances, checkpoint policy.

A shallow embedding of functions of `source/simulator/helper_functions.cc` and
`source/simulator/checkpoint_restart.cc`.

Modelling conventions.

* A C++ `double` is an element of a linearly ordered field `α` (exact
  arithmetic); rounding, infinities and NaN are not modelled.  The definitions
  are computable for `α = ℚ`; statements that need `std::pow` with an
  irrational exponent are made for `α = ℝ`.
* `std::sqrt` and `std::pow` are not field operations, so they come in through
  a `MathOps` record; over `ℝ` they are `Real.sqrt` and `Real.rpow`.
* `std::min`, `std::max`, `std::fabs` are `min`, `max` and `|·|`.
* Loops over containers are left folds over lists.
-/

namespace Aspect

/-- The two `<cmath>` functions used by the simulator that are not field operations. -/
structure MathOps (α : Type) where
  /-- The function `std::sqrt`. -/
  sqrt : α → α
  /-- The function `std::pow`. -/
  pow : α → α → α

/-- The part of `NewtonHandler::parameters` that `helper_functions.cc` reads. -/
structure NewtonHandlerParameters (α : Type) where
  /-- The run-time parameter `Maximum linear Stokes solver tolerance`. -/
  maximum_linear_stokes_solver_tolerance : α

/-- The function `Simulator<dim>::compute_Eisenstat_Walker_linear_tolerance`
(`helper_functions.cc`, lines 2081-2132).  It is a member function: besides its
six arguments it can read the simulator, of which it uses
`newton_handler->parameters`. -/
def compute_Eisenstat_Walker_linear_tolerance {α : Type} [LinearOrderedField α]
    (ops : MathOps α) (newton_handler_parameters : NewtonHandlerParameters α)
    (EisenstatWalkerChoiceOne : Bool)
    (maximum_linear_stokes_solver_tolerance linear_stokes_solver_tolerance
      stokes_residual newton_residual newton_residual_old : α) : α :=
  if EisenstatWalkerChoiceOne then
    let powerterm : α := (1 + ops.sqrt 5) * 0.5
    if ops.pow linear_stokes_solver_tolerance powerterm ≤ 0.1 then
      min maximum_linear_stokes_solver_tolerance
        (|newton_residual - stokes_residual| / newton_residual_old)
    else
      min maximum_linear_stokes_solver_tolerance
        (max (|newton_residual - stokes_residual| / newton_residual_old)
          (ops.pow linear_stokes_solver_tolerance powerterm))
  else
    if 0.9 * linear_stokes_solver_tolerance * linear_stokes_solver_tolerance ≤ 0.1 then
      min maximum_linear_stokes_solver_tolerance
        (0.9 * |newton_residual * newton_residual| / (newton_residual_old * newton_residual_old))
    else
      min newton_handler_parameters.maximum_linear_stokes_solver_tolerance
        (max (0.9 * |newton_residual * newton_residual|
            / (newton_residual_old * newton_residual_old))
          (0.9 * linear_stokes_solver_tolerance * linear_stokes_solver_tolerance))

/-! ## Time-step controller -/

/-- The constant `std::numeric_limits<double>::max()`, that is `(2^53 - 1) * 2^971`. -/
def numeric_limits_double_max {α : Type} [LinearOrderedField α] : α := 2 ^ 1024 - 2 ^ 971

/-- The run-time parameters (`Simulator::parameters`) read by the functions below. -/
structure Parameters (α : Type) where
  /-- Parameter `Use conduction timestep`. -/
  use_conduction_timestep : Bool
  /-- Parameter `Include melt transport`. -/
  include_melt_transport : Bool
  /-- Parameter `CFL number`. -/
  CFL_number : α
  /-- Polynomial degree of the temperature element (an `unsigned int`). -/
  temperature_degree : ℕ
  /-- Parameter `Maximum time step`. -/
  maximum_time_step : α
  /-- Parameter `Maximum relative increase in time step`. -/
  maximum_relative_increase_time_step : α
  /-- Parameter `Time between checkpoint` (an `int`, in seconds). -/
  checkpoint_time_secs : ℤ
  /-- Parameter `Steps between checkpoint` (an `int`). -/
  checkpoint_steps : ℤ

/-- What `compute_time_step` reads at one quadrature point `q` of a cell: the
norms `velocity_values[q].norm()` and `fluid_velocity_values[q].norm()` of the
finite-element solution, and the material model outputs
`out.thermal_conductivities[q]`, `out.densities[q]`, `out.specific_heat[q]`. -/
structure QuadraturePoint (α : Type) where
  /-- The value `velocity_values[q].norm()`. -/
  velocity_norm : α
  /-- The value `fluid_velocity_values[q].norm()` (read only with melt transport). -/
  fluid_velocity_norm : α
  /-- The value `out.thermal_conductivities[q]`. -/
  thermal_conductivity : α
  /-- The value `out.densities[q]`. -/
  density : α
  /-- The value `out.specific_heat[q]`. -/
  specific_heat : α

/-- What `compute_time_step` reads of one active cell of the mesh. -/
structure Cell (α : Type) where
  /-- The flag `cell->is_locally_owned()`. -/
  is_locally_owned : Bool
  /-- The length `cell->minimum_vertex_distance()`. -/
  minimum_vertex_distance : α
  /-- The `n_q_points` quadrature points of the cell. -/
  quadrature_points : List (QuadraturePoint α)

section TimeStep

variable {α : Type} [LinearOrderedField α]

/-- The local variable `max_local_velocity` of `compute_time_step` once the
loops over the quadrature points of `cell` are done (lines 534-547). -/
def max_local_velocity (parameters : Parameters α) (cell : Cell α) : α :=
  let max_local_velocity : α :=
    cell.quadrature_points.foldl (fun m q => max m q.velocity_norm) 0
  if parameters.include_melt_transport then
    cell.quadrature_points.foldl (fun m q => max m q.fluid_velocity_norm) max_local_velocity
  else
    max_local_velocity

/-- The loop over the quadrature points of `cell` that updates
`min_local_conduction_timestep` (lines 565-582).  The `Assert (rho * c_p > 0)`
is a debug-mode check and leaves the value untouched. -/
def conduction_timestep_loop (parameters : Parameters α) (cell : Cell α)
    (min_local_conduction_timestep : α) : α :=
  cell.quadrature_points.foldl
    (fun m q =>
      let k := q.thermal_conductivity
      let rho := q.density
      let c_p := q.specific_heat
      let thermal_diffusivity := k / (rho * c_p)
      if thermal_diffusivity > 0 then
        min m (parameters.CFL_number * cell.minimum_vertex_distance ^ 2 / thermal_diffusivity)
      else m)
    min_local_conduction_timestep

/-- One pass through the body of the loop over the cells (lines 526-584); the
state is the pair `(max_local_speed_over_meshsize, min_local_conduction_timestep)`. -/
def cell_loop_body (parameters : Parameters α) (acc : α × α) (cell : Cell α) : α × α :=
  if cell.is_locally_owned then
    (max acc.1 (max_local_velocity parameters cell / cell.minimum_vertex_distance),
     if parameters.use_conduction_timestep then
       conduction_timestep_loop parameters cell acc.2
     else acc.2)
  else acc

/-- The pair `(max_local_speed_over_meshsize, min_local_conduction_timestep)`
one process has after its loop over its cells. -/
def cell_loop (parameters : Parameters α) (cells : List (Cell α)) : α × α :=
  cells.foldl (cell_loop_body parameters) (0, numeric_limits_double_max)

/-- The reduction `Utilities::MPI::max`: the largest of this process's value and
the values of the other processes of the communicator. -/
def MPI_max (own : α) (others : List α) : α := others.foldl max own

/-- The constant `max_global_speed_over_meshsize` (lines 586-587);
`cells` are the cells of the calling process, `others` those of each other process. -/
def max_global_speed_over_meshsize (parameters : Parameters α) (cells : List (Cell α))
    (others : List (List (Cell α))) : α :=
  MPI_max (cell_loop parameters cells).1 (others.map fun cs => (cell_loop parameters cs).1)

/-- The variable `min_convection_timestep` (lines 589, 592-593). -/
def min_convection_timestep (parameters : Parameters α) (cells : List (Cell α))
    (others : List (List (Cell α))) : α :=
  if max_global_speed_over_meshsize parameters cells others ≠ 0 then
    parameters.CFL_number
      / ((parameters.temperature_degree : α) * max_global_speed_over_meshsize parameters cells others)
  else numeric_limits_double_max

/-- The variable `min_conduction_timestep` (lines 590, 595-596). -/
def min_conduction_timestep (parameters : Parameters α) (cells : List (Cell α))
    (others : List (List (Cell α))) : α :=
  if parameters.use_conduction_timestep then
    - MPI_max (-(cell_loop parameters cells).2) (others.map fun cs => -(cell_loop parameters cs).2)
  else numeric_limits_double_max

/-- The value `new_time_step` is initialised with (lines 598-599): the smaller of
the convection and the conduction time step. -/
def candidate_time_step (parameters : Parameters α) (cells : List (Cell α))
    (others : List (List (Cell α))) : α :=
  min (min_convection_timestep parameters cells others)
    (min_conduction_timestep parameters cells others)

/-- The argument of `termination_manager.check_for_last_time_step` (lines 598-619);
`time_step` is the member variable holding the previous step length. -/
def limited_time_step (parameters : Parameters α) (time_step : α) (cells : List (Cell α))
    (others : List (List (Cell α))) : α :=
  let new_time_step := candidate_time_step parameters cells others
  let new_time_step :=
    if new_time_step = numeric_limits_double_max then parameters.maximum_time_step
    else new_time_step
  let new_time_step :=
    if time_step ≠ 0 then
      min new_time_step (time_step + time_step * parameters.maximum_relative_increase_time_step)
    else new_time_step
  min new_time_step parameters.maximum_time_step

/-- The function `Simulator<dim>::compute_time_step` (lines 491-622).  The
termination manager is an external collaborator; its
`check_for_last_time_step` is a parameter. -/
def compute_time_step (check_for_last_time_step : α → α) (parameters : Parameters α)
    (time_step : α) (cells : List (Cell α)) (others : List (List (Cell α))) : α :=
  check_for_last_time_step (limited_time_step parameters time_step cells others)

/-! ### The words of the specification, for comparison with the code -/

/-- The locally owned cells of all processes: every cell of the mesh once. -/
def owned_cells (cells : List (Cell α)) (others : List (List (Cell α))) : List (Cell α) :=
  (cells ++ others.flatten).filter fun c => c.is_locally_owned

/-- The speeds on a cell: the velocity norms at its quadrature points and, with
melt transport, the fluid velocity norms. -/
def cell_speeds (parameters : Parameters α) (cell : Cell α) : List α :=
  cell.quadrature_points.map (fun q => q.velocity_norm)
    ++ (if parameters.include_melt_transport then
          cell.quadrature_points.map (fun q => q.fluid_velocity_norm)
        else [])

/-- The thermal diffusivity `kappa = k / (rho * c_p)` at a quadrature point. -/
def thermal_diffusivity (q : QuadraturePoint α) : α :=
  q.thermal_conductivity / (q.density * q.specific_heat)

/-- The bounds `CFL_number * h^2 / kappa` at the quadrature points of one cell
that have `kappa > 0`. -/
def cell_conduction_bounds (parameters : Parameters α) (cell : Cell α) : List α :=
  (cell.quadrature_points.filter fun q => decide (0 < thermal_diffusivity q)).map fun q =>
    parameters.CFL_number * cell.minimum_vertex_distance ^ 2 / thermal_diffusivity q

/-- The bounds `CFL_number * h^2 / kappa` over all evaluation points of the mesh
that have `kappa > 0`. -/
def conduction_bounds (parameters : Parameters α) (cells : List (Cell α))
    (others : List (List (Cell α))) : List α :=
  (owned_cells cells others).flatMap (cell_conduction_bounds parameters)

end TimeStep

/-! ## Checkpoint policy -/

/-- The part of the simulator `maybe_write_checkpoint` reads and writes;
`storage` stands for everything `create_snapshot` reads and writes. -/
structure Simulator (α σ : Type) where
  /-- The member `parameters`. -/
  parameters : Parameters α
  /-- The member `timestep_number` (an `unsigned int`). -/
  timestep_number : ℕ
  /-- The member `rebuild_stokes_matrix`. -/
  rebuild_stokes_matrix : Bool
  /-- The member `rebuild_stokes_preconditioner`. -/
  rebuild_stokes_preconditioner : Bool
  /-- Mesh, vectors and files. -/
  storage : σ

/-- The value every process holds in `global_do_checkpoint` after `MPI_Bcast`
with root 0: the value of process 0. -/
def MPI_Bcast (_own_value root_value : ℤ) : ℤ := root_value

/-- The local variable `write_checkpoint` of `maybe_write_checkpoint` before the
final `if` (lines 450-474).  `std_time` is what `std::time(NULL)` returns on the
calling process, `std_time_root` and `last_checkpoint_time_root` are the clock
and the argument on process 0. -/
def write_checkpoint {α σ : Type} (sim : Simulator α σ) (std_time std_time_root : ℤ)
    (last_checkpoint_time last_checkpoint_time_root : ℤ)
    (termination_output : Bool × Bool) : Bool :=
  let write_checkpoint := false
  let write_checkpoint :=
    if sim.parameters.checkpoint_time_secs > 0 then
      let global_do_checkpoint : ℤ :=
        if std_time - last_checkpoint_time ≥ sim.parameters.checkpoint_time_secs then 1 else 0
      let global_do_checkpoint := MPI_Bcast global_do_checkpoint
        (if std_time_root - last_checkpoint_time_root ≥ sim.parameters.checkpoint_time_secs
          then 1 else 0)
      if global_do_checkpoint = 1 then true else write_checkpoint
    else write_checkpoint
  let write_checkpoint :=
    if sim.parameters.checkpoint_time_secs = 0 ∧ sim.parameters.checkpoint_steps > 0
        ∧ (sim.timestep_number : ℤ) % sim.parameters.checkpoint_steps = 0 then true
    else write_checkpoint
  let write_checkpoint :=
    if termination_output.1 && termination_output.2 then true else write_checkpoint
  write_checkpoint

/-- The function `Simulator<dim>::maybe_write_checkpoint` (lines 446-487).
`create_snapshot` is the member function of `checkpoint_restart.cc`; it may
throw, which is the `Except` error. -/
def maybe_write_checkpoint {α σ ε : Type}
    (create_snapshot : Simulator α σ → Except ε (Simulator α σ))
    (sim : Simulator α σ) (std_time std_time_root : ℤ)
    (last_checkpoint_time last_checkpoint_time_root : ℤ)
    (termination_output : Bool × Bool) : Except ε (Bool × Simulator α σ) :=
  if write_checkpoint sim std_time std_time_root last_checkpoint_time
      last_checkpoint_time_root termination_output then
    match create_snapshot sim with
    | .error e => .error e
    | .ok sim =>
      .ok (true, { sim with rebuild_stokes_matrix := true, rebuild_stokes_preconditioner := true })
  else
    .ok (false, sim)

/-- The checkpoint policy in the words of the specification: (i) a positive
wall-clock interval has elapsed on process 0 since the last checkpoint, or
(ii) no wall-clock interval is set, a positive step interval is, and the step
number is a multiple of it, or (iii) the termination output says that this is
the last step and that a checkpoint is wanted at the end. -/
def checkpoint_wanted {α σ : Type} (sim : Simulator α σ)
    (std_time_root last_checkpoint_time_root : ℤ) (termination_output : Bool × Bool) : Prop :=
  (sim.parameters.checkpoint_time_secs > 0
      ∧ std_time_root - last_checkpoint_time_root ≥ sim.parameters.checkpoint_time_secs)
    ∨ (sim.parameters.checkpoint_time_secs = 0 ∧ sim.parameters.checkpoint_steps > 0
      ∧ sim.parameters.checkpoint_steps ∣ (sim.timestep_number : ℤ))
    ∨ (termination_output.1 = true ∧ termination_output.2 = true)

/-! ## Concrete states used in the examples -/

/-- Parameters with the conduction time step disabled: CFL number 1, temperature
degree 2, maximum time step 10, maximum relative increase 1/2. -/
def convection_only_parameters : Parameters ℚ :=
  { use_conduction_timestep := false, include_melt_transport := false, CFL_number := 1,
    temperature_degree := 2, maximum_time_step := 10,
    maximum_relative_increase_time_step := 1 / 2, checkpoint_time_secs := 0,
    checkpoint_steps := 5 }

/-- The same parameters with the conduction time step enabled. -/
def conduction_parameters : Parameters ℚ :=
  { convection_only_parameters with use_conduction_timestep := true }

/-- An owned cell of size 1 with one quadrature point at rest and `k = rho = c_p = 1`. -/
def resting_cell : Cell ℚ :=
  { is_locally_owned := true, minimum_vertex_distance := 1,
    quadrature_points := [⟨0, 0, 1, 1, 1⟩] }

/-- An owned cell of size 1 with two quadrature points, of speed 1 and 2,
thermal diffusivity `1 / (1 * 1)` and `4 / (1 * 2)`. -/
def moving_cell : Cell ℚ :=
  { is_locally_owned := true, minimum_vertex_distance := 1,
    quadrature_points := [⟨1, 0, 1, 1, 1⟩, ⟨2, 0, 4, 1, 2⟩] }

/-- A simulator at step 10 that checkpoints every 5 steps; its storage counts
the snapshots written. -/
def simulator_at_step_ten : Simulator ℚ ℕ :=
  { parameters := convection_only_parameters, timestep_number := 10,
    rebuild_stokes_matrix := false, rebuild_stokes_preconditioner := false, storage := 0 }

/-- A `create_snapshot` that succeeds and counts the snapshot. -/
def counting_create_snapshot (sim : Simulator ℚ ℕ) : Except String (Simulator ℚ ℕ) :=
  .ok { sim with storage := sim.storage + 1 }

/-! ## Nonlinear solver scheme and pressure right-hand side -/

section SolverScheme

variable {α : Type} [LinearOrderedField α]

/-- Modelled from the spec: the convergence test of the outer iteration (spec
section 4.3, step 3), which belongs to `solve_iterated_advection_and_stokes`,
implemented in `source/simulator/solver_schemes.cc` and not among the sources.
Every tracked residual, divided by its own initial-iteration value, is below
the relative tolerance. -/
def residuals_converged (tolerance : α) (initial current : List α) : Bool :=
  (List.zipWith (fun r r₀ => r / r₀) current initial).all fun ratio => decide (ratio < tolerance)

/-- Modelled from the spec: the outer iteration of the iterated (Picard) schemes
(spec section 4.3), whose implementation `source/simulator/solver_schemes.cc` is
not among the sources.  `residuals k` is the record of residuals after `k`
iterations, `residuals 0` the initial one; `budget` iterations may still be
done.  The result is the number of iterations done and the flag `converged`. -/
def picard_outer_iteration (tolerance : α) (residuals : ℕ → List α) : ℕ → ℕ → ℕ × Bool
  | 0, k => (k, residuals_converged tolerance (residuals 0) (residuals k))
  | budget + 1, k =>
    if residuals_converged tolerance (residuals 0) (residuals k) then (k, true)
    else picard_outer_iteration tolerance residuals budget (k + 1)

/-- Modelled from the spec: `solve_iterated_advection_and_stokes` (declared in
`simulator.h`, lines 456-468, implemented in `solver_schemes.cc`, which is not
among the sources), as far as its iteration count and its convergence flag go. -/
def solve_iterated_advection_and_stokes (max_nonlinear_iterations : ℕ) (tolerance : α)
    (residuals : ℕ → List α) : ℕ × Bool :=
  picard_outer_iteration tolerance residuals max_nonlinear_iterations 0

/-- The function `Vector::mean_value` of deal.II: the sum of the entries over
their number. -/
def mean_value (block : List α) : α := block.sum / (block.length : α)

/-- The first branch of `Simulator<dim>::make_pressure_rhs_compatible`
(`helper_functions.cc`, lines 1034-1080), for a continuous pressure in a block
of its own; `vector` is the pressure block of the argument and the result its
new value.  The two other branches are not modelled: `none`. -/
def make_pressure_rhs_compatible (use_locally_conservative_discretization : Bool)
    (include_melt_transport : Bool) (block_index_velocities block_index_pressure : ℕ)
    (global_volume : α) (pressure_shape_function_integrals : List α) (vector : List α) :
    Option (List α) :=
  if use_locally_conservative_discretization = false ∧ include_melt_transport = false
      ∧ block_index_velocities ≠ block_index_pressure then
    let mean := mean_value vector
    let int_rhs := mean * (vector.length : α)
    let correction := -int_rhs / global_volume
    some (List.zipWith (fun F h => F + correction * h) vector pressure_shape_function_integrals)
  else none

end SolverScheme

/-! ## Advection fields -/

/-- The enum `AdvectionField::FieldType`. -/
inductive FieldType where
  /-- The temperature. -/
  | temperature_field
  /-- One of the compositional fields. -/
  | compositional_field
deriving DecidableEq

/-- The constant `numbers::invalid_unsigned_int` of deal.II,
`static_cast<unsigned int> (-1)`. -/
def invalid_unsigned_int : ℕ := 2 ^ 32 - 1

/-- The struct `Simulator<dim>::AdvectionField` (`simulator.h`, lines 195-289);
`compositional_variable` is an `unsigned int`. -/
structure AdvectionField where
  /-- The member `field_type`. -/
  field_type : FieldType
  /-- The member `compositional_variable`. -/
  compositional_variable : ℕ
deriving DecidableEq

/-- The constructor `AdvectionField::AdvectionField` (`helper_functions.cc`,
lines 69-83).  `debug` tells whether the `Assert` is compiled in (a debug
build); an `Assert` that fails aborts the program, which is `none`. -/
def AdvectionField.construct (debug : Bool) (field_type : FieldType)
    (compositional_variable : ℕ) : Option AdvectionField :=
  if debug = true ∧ field_type = FieldType.temperature_field
      ∧ ¬ compositional_variable = invalid_unsigned_int then
    none
  else
    some { field_type := field_type, compositional_variable := compositional_variable }

/-- The constructor called without its second argument, which defaults to
`numbers::invalid_unsigned_int` (`simulator.h`, line 225). -/
def AdvectionField.construct_default (debug : Bool) (field_type : FieldType) :
    Option AdvectionField :=
  AdvectionField.construct debug field_type invalid_unsigned_int

/-- The factory `AdvectionField::temperature` (lines 87-92). -/
def AdvectionField.temperature (debug : Bool) : Option AdvectionField :=
  AdvectionField.construct_default debug FieldType.temperature_field

/-- The factory `AdvectionField::composition` (lines 96-102). -/
def AdvectionField.composition (debug : Bool) (compositional_variable : ℕ) :
    Option AdvectionField :=
  AdvectionField.construct debug FieldType.compositional_field compositional_variable

/-- The function `AdvectionField::is_temperature` (lines 105-110). -/
def AdvectionField.is_temperature (field : AdvectionField) : Bool :=
  decide (field.field_type = FieldType.temperature_field)

/-- The function `AdvectionField::field_index` (lines 151-159); the sum is one
of `unsigned int`s and wraps at `2^32`. -/
def AdvectionField.field_index (field : AdvectionField) : ℕ :=
  if field.is_temperature then 0
  else (field.compositional_variable + 1) % 2 ^ 32

/-- The advection fields of a model with `n` compositional fields: the
temperature and `composition (0), ..., composition (n-1)`. -/
def advection_fields (debug : Bool) (n : ℕ) : List (Option AdvectionField) :=
  AdvectionField.temperature debug
    :: (List.range n).map fun i => AdvectionField.composition debug i

/-! ## Checkpoint/restart manager

The model follows process 0, the only process that rotates and writes the
scalar-state file.  A `char` is a natural number (its range plays no role).  A
file is what is written into it: the `uint32_t` words that are written from
memory first, then the chars; how a word is laid out in bytes is not modelled.
The deal.II and zlib operations are collaborators. -/

/-- What a file holds: leading `uint32_t` words, then chars. -/
structure FileContent where
  /-- The words written from memory at the start of the file (none for most files). -/
  header : List ℕ
  /-- The chars that follow. -/
  data : List ℕ
deriving DecidableEq

/-- The files on disk, by name; `none` for a file that does not exist. -/
abbrev FileSystem := String → Option FileContent

/-- How a function call ends: it returns, or it throws an exception; `state` is
the state it leaves behind. -/
inductive Outcome (σ : Type) where
  /-- The call returned. -/
  | returned (state : σ)
  /-- The call threw (`AssertThrow`). -/
  | threw (message : String) (state : σ)

/-- The state a call leaves behind. -/
def Outcome.state {σ : Type} : Outcome σ → σ
  | .returned s => s
  | .threw _ s => s

/-- Whether a call returned. -/
def Outcome.is_returned {σ : Type} : Outcome σ → Bool
  | .returned _ => true
  | .threw _ _ => false

/-- What the operating system decides in one call of `move_file`: whether
`system`, `remove` and `rename` fail although the files are there. -/
structure MoveFaults where
  /-- The call `system ("mv ...")` returns non-zero (for example no shell). -/
  system_fails : Bool
  /-- The call `remove` returns non-zero. -/
  remove_fails : Bool
  /-- The call `rename` returns non-zero. -/
  rename_fails : Bool

/-- What `rename (old_name, new_name)` does to the files when it succeeds. -/
def rename_file (old_name new_name : String) (files : FileSystem) : FileSystem :=
  Function.update (Function.update files old_name none) new_name (files old_name)

/-- The function `move_file` of `checkpoint_restart.cc` (lines 39-68).  The shell
command `mv` and `rename` succeed only if the old file exists. -/
def move_file (faults : MoveFaults) (old_name new_name : String) (files : FileSystem) :
    Outcome FileSystem :=
  -- int error = system (("mv " + old_name + " " + new_name).c_str());
  if faults.system_fails = false ∧ (files old_name).isSome then
    .returned (rename_file old_name new_name files)
  else
    -- if (Utilities::fexists(new_name)) error = remove(new_name.c_str());
    let removed : Outcome FileSystem :=
      if (files new_name).isSome then
        if faults.remove_fails then .threw "Unable to remove file" files
        else .returned (Function.update files new_name none)
      else .returned files
    match removed with
    | .threw message files => .threw message files
    | .returned files =>
      -- error = rename(old_name.c_str(),new_name.c_str());
      if faults.rename_fails = false ∧ (files old_name).isSome then
        .returned (rename_file old_name new_name files)
      else .threw "Unable to rename files" files

/-- The members `Simulator::serialize` archives (lines 352-365);
`postprocess_manager` and `statistics` are one opaque value. -/
structure SerializedMembers (α π : Type) where
  /-- The member `time`. -/
  time : α
  /-- The member `time_step`. -/
  time_step : α
  /-- The member `old_time_step`. -/
  old_time_step : α
  /-- The member `timestep_number`. -/
  timestep_number : ℕ
  /-- The member `pre_refinement_step`. -/
  pre_refinement_step : ℕ
  /-- The member `last_pressure_normalization_adjustment`. -/
  last_pressure_normalization_adjustment : α
  /-- The members `postprocess_manager` and `statistics`. -/
  postprocess_manager_and_statistics : π

/-- The part of the simulator a snapshot stores and a resume restores. -/
structure RestartSimulator (α π μ ν : Type) where
  /-- The archived members. -/
  members : SerializedMembers α π
  /-- The member `triangulation`. -/
  triangulation : μ
  /-- The vectors `solution`, `old_solution`, `old_old_solution` (and those of
  the free surface). -/
  solution_vectors : ν

/-- The operations of deal.II, boost and zlib the checkpoint code calls. -/
structure Collaborators (α π μ ν : Type) where
  /-- What `triangulation.save (filename)` writes to `filename`: the mesh with
  the vectors prepared for serialization. -/
  mesh_file : μ → ν → FileContent
  /-- What `triangulation.save (filename)` writes to `filename.info`. -/
  info_file : μ → FileContent
  /-- The call `triangulation.load`, given the mesh file and the `.info` file;
  `none` when it throws. -/
  triangulation_load : FileContent → Option FileContent → Option μ
  /-- The call `system_trans.deserialize` after `setup_dofs`. -/
  deserialize : μ → FileContent → ν
  /-- What `oa << (*this)` leaves in the string stream. -/
  oarchive : SerializedMembers α π → List ℕ
  /-- What `ia >> (*this)` reads; `none` when it throws. -/
  iarchive : List ℕ → Option (SerializedMembers α π)
  /-- The compressed data `compress2` produces; it is taken to return `Z_OK`
  (the source checks this with a debug-mode `Assert` only). -/
  compress2 : List ℕ → List ℕ
  /-- The call `uncompress (dest, &destLen, source, sourceLen)`: the
  uncompressed data, or the error code when it is not `Z_OK`. -/
  uncompress : List ℕ → ℕ → Except ℤ (List ℕ)
  /-- The value of a word of `compression_header` that was never read. -/
  indeterminate : ℕ

/-- The run-time parameters the checkpoint code reads. -/
structure RestartParameters where
  /-- Parameter `Output directory`, with its trailing slash. -/
  output_directory : String
  /-- Parameter `Resume computation`. -/
  resume_computation : Bool

/-- What process 0 has besides the simulator: the files and the static local
variable `previous_snapshot_exists` of `create_snapshot`, which is `none` until
the function has run once. -/
structure RestartWorld where
  /-- The files on disk. -/
  files : FileSystem
  /-- The static local variable of `create_snapshot`. -/
  previous_snapshot_exists : Option Bool

/-- What the environment decides in one call of `create_snapshot`. -/
structure SnapshotFaults where
  /-- In the `move_file` of `restart.mesh`. -/
  move_mesh : MoveFaults
  /-- In the `move_file` of `restart.mesh.info`. -/
  move_mesh_info : MoveFaults
  /-- In the `move_file` of `restart.resume.z`. -/
  move_resume : MoveFaults
  /-- Whether the stream `f` is in a fail state after `f.close ()`: `none` when
  it is good, `some left` when it failed and `left` is what is on disk under
  `restart.resume.z` then. -/
  stream_fails : Option (Option FileContent)

section Restart

variable {α π μ ν : Type}

/-- The three rotations of `create_snapshot` (lines 88-93), in their order; each
runs only if the one before returned. -/
def rotate_previous_snapshot (parameters : RestartParameters) (faults : SnapshotFaults)
    (files : FileSystem) : Outcome FileSystem :=
  match move_file faults.move_mesh (parameters.output_directory ++ "restart.mesh")
      (parameters.output_directory ++ "restart.mesh.old") files with
  | .threw message files => .threw message files
  | .returned files =>
    match move_file faults.move_mesh_info (parameters.output_directory ++ "restart.mesh.info")
        (parameters.output_directory ++ "restart.mesh.info.old") files with
    | .threw message files => .threw message files
    | .returned files =>
      move_file faults.move_resume (parameters.output_directory ++ "restart.resume.z")
        (parameters.output_directory ++ "restart.resume.z.old") files

/-- The call `triangulation.save (filename)` of deal.II: it writes the file
`filename` and the file `filename.info`. -/
def triangulation_save (env : Collaborators α π μ ν) (filename : String)
    (sim : RestartSimulator α π μ ν) (files : FileSystem) : FileSystem :=
  Function.update
    (Function.update files filename (some (env.mesh_file sim.triangulation sim.solution_vectors)))
    (filename ++ ".info") (some (env.info_file sim.triangulation))

/-- The array `compression_header` of `create_snapshot` (lines 155-160); the
casts to `uint32_t` reduce modulo `2^32`. -/
def compression_header (env : Collaborators α π μ ν) (sim : RestartSimulator α π μ ν) :
    List ℕ :=
  [1,
   (env.oarchive sim.members).length % 2 ^ 32,
   (env.oarchive sim.members).length % 2 ^ 32,
   (env.compress2 (env.oarchive sim.members)).length % 2 ^ 32]

/-- What the two `f.write` calls of `create_snapshot` put into
`restart.resume.z` (lines 162-164). -/
def resume_file (env : Collaborators α π μ ν) (sim : RestartSimulator α π μ ν) : FileContent :=
  { header := compression_header env sim, data := env.compress2 (env.oarchive sim.members) }

/-- The value of the static local variable `previous_snapshot_exists` when
`create_snapshot` tests it (line 84): on the first call it is initialised with
`parameters.resume_computation == true`. -/
def previous_snapshot_exists (parameters : RestartParameters) (world : RestartWorld) : Bool :=
  match world.previous_snapshot_exists with
  | some b => b
  | none => parameters.resume_computation

/-- The function `Simulator<dim>::create_snapshot` (lines 71-187), on process 0. -/
def create_snapshot (env : Collaborators α π μ ν) (parameters : RestartParameters)
    (faults : SnapshotFaults) (sim : RestartSimulator α π μ ν) (world : RestartWorld) :
    Outcome RestartWorld :=
  let previous_snapshot_exists : Bool := previous_snapshot_exists parameters world
  let rotated : Outcome FileSystem :=
    if previous_snapshot_exists = true then
      rotate_previous_snapshot parameters faults world.files
    else .returned world.files
  match rotated with
  | .threw message files =>
    .threw message { files := files, previous_snapshot_exists := some previous_snapshot_exists }
  | .returned files =>
    -- previous_snapshot_exists = true;
    let files :=
      triangulation_save env (parameters.output_directory ++ "restart.mesh") sim files
    match faults.stream_fails with
    | none =>
      .returned
        { files := Function.update files (parameters.output_directory ++ "restart.resume.z")
            (some (resume_file env sim)),
          previous_snapshot_exists := some true }
    | some left =>
      .threw "Writing of the checkpoint file failed on processor 0."
        { files := Function.update files (parameters.output_directory ++ "restart.resume.z") left,
          previous_snapshot_exists := some true }

/-- What `ifs.read (buffer, n)` leaves in a zero-initialised buffer of `n` chars:
the next `n` chars of the file, followed by zeros if the file is shorter. -/
def istream_read (data : List ℕ) (n : ℕ) : List ℕ :=
  data.take n ++ List.replicate (n - data.length) 0

/-- The word `compression_header[i]` after `ifs.read` in `resume_from_snapshot`
(lines 287-288). -/
def read_compression_header (env : Collaborators α π μ ν) (file : FileContent) (i : ℕ) : ℕ :=
  file.header.getD i env.indeterminate

/-- The function `Simulator<dim>::resume_from_snapshot` (lines 191-339); the
files do not change while it runs, so the second opening of `restart.resume.z`
succeeds when the first did.  The debug-mode `Assert` on the first word of the
header and the recomputation of the constraints at the end are left out. -/
def resume_from_snapshot (env : Collaborators α π μ ν) (parameters : RestartParameters)
    (files : FileSystem) (sim : RestartSimulator α π μ ν) :
    Outcome (RestartSimulator α π μ ν) :=
  -- first check existence of the two restart files
  match files (parameters.output_directory ++ "restart.mesh") with
  | none => .threw "the restart file <restart.mesh> does not appear to exist!" sim
  | some mesh =>
    match files (parameters.output_directory ++ "restart.resume.z") with
    | none => .threw "the restart file <restart.resume.z> does not appear to exist!" sim
    | some resume =>
      match env.triangulation_load mesh
          (files (parameters.output_directory ++ "restart.mesh" ++ ".info")) with
      | none =>
        .threw "Cannot open snapshot mesh file or read the triangulation stored there." sim
      | some triangulation =>
        let sim := { sim with triangulation := triangulation }
        let sim := { sim with solution_vectors := env.deserialize triangulation mesh }
        -- read zlib compressed resume.z
        let compressed := istream_read resume.data (read_compression_header env resume 3)
        let uncompressed_size := read_compression_header env resume 1
        match env.uncompress compressed uncompressed_size with
        | .error _ => .threw "Cannot seem to deserialize the data previously stored!" sim
        | .ok uncompressed =>
          match env.iarchive uncompressed with
          | none => .threw "Cannot seem to deserialize the data previously stored!" sim
          | some members => .returned { sim with members := members }

/-- A run of the simulator as far as snapshots go: the calls of
`create_snapshot` one after the other, each with the simulator state of its
time; the run ends with the first call that throws. -/
def snapshot_run (env : Collaborators α π μ ν) (parameters : RestartParameters) :
    List (SnapshotFaults × RestartSimulator α π μ ν) → RestartWorld → Outcome RestartWorld
  | [], world => .returned world
  | (faults, sim) :: calls, world =>
    match create_snapshot env parameters faults sim world with
    | .returned world => snapshot_run env parameters calls world
    | .threw message world => .threw message world

/-- The files after the three rotations, when all of them succeed. -/
def rotated_files (parameters : RestartParameters) (files : FileSystem) : FileSystem :=
  rename_file (parameters.output_directory ++ "restart.resume.z")
    (parameters.output_directory ++ "restart.resume.z.old")
    (rename_file (parameters.output_directory ++ "restart.mesh.info")
      (parameters.output_directory ++ "restart.mesh.info.old")
      (rename_file (parameters.output_directory ++ "restart.mesh")
        (parameters.output_directory ++ "restart.mesh.old") files))

/-- The current restart files are those of the snapshot of `sim`. -/
def current_files_hold (env : Collaborators α π μ ν) (parameters : RestartParameters)
    (sim : RestartSimulator α π μ ν) (files : FileSystem) : Prop :=
  files (parameters.output_directory ++ "restart.mesh")
      = some (env.mesh_file sim.triangulation sim.solution_vectors)
    ∧ files (parameters.output_directory ++ "restart.mesh.info")
      = some (env.info_file sim.triangulation)
    ∧ files (parameters.output_directory ++ "restart.resume.z") = some (resume_file env sim)

/-- The `.old` restart files are those of the snapshot of `sim`. -/
def old_files_hold (env : Collaborators α π μ ν) (parameters : RestartParameters)
    (sim : RestartSimulator α π μ ν) (files : FileSystem) : Prop :=
  files (parameters.output_directory ++ "restart.mesh.old")
      = some (env.mesh_file sim.triangulation sim.solution_vectors)
    ∧ files (parameters.output_directory ++ "restart.mesh.info.old")
      = some (env.info_file sim.triangulation)
    ∧ files (parameters.output_directory ++ "restart.resume.z.old") = some (resume_file env sim)

/-- Every file of the snapshot of `sim` is on disk, under its current or under
its `.old` name. -/
def snapshot_on_disk (env : Collaborators α π μ ν) (parameters : RestartParameters)
    (sim : RestartSimulator α π μ ν) (files : FileSystem) : Prop :=
  (files (parameters.output_directory ++ "restart.mesh")
        = some (env.mesh_file sim.triangulation sim.solution_vectors)
      ∨ files (parameters.output_directory ++ "restart.mesh.old")
        = some (env.mesh_file sim.triangulation sim.solution_vectors))
    ∧ (files (parameters.output_directory ++ "restart.mesh.info")
        = some (env.info_file sim.triangulation)
      ∨ files (parameters.output_directory ++ "restart.mesh.info.old")
        = some (env.info_file sim.triangulation))
    ∧ (files (parameters.output_directory ++ "restart.resume.z") = some (resume_file env sim)
      ∨ files (parameters.output_directory ++ "restart.resume.z.old")
        = some (resume_file env sim))

/-- The six restart files of the output directory. -/
def restart_file_names (parameters : RestartParameters) : List String :=
  [parameters.output_directory ++ "restart.mesh",
   parameters.output_directory ++ "restart.mesh.info",
   parameters.output_directory ++ "restart.resume.z",
   parameters.output_directory ++ "restart.mesh.old",
   parameters.output_directory ++ "restart.mesh.info.old",
   parameters.output_directory ++ "restart.resume.z.old"]

end Restart

/-! ### Concrete collaborators and states for the checkpoint examples -/

/-- Collaborators that can be run: meshes and vectors are numbers, the archive
writes one char for each scalar and then the chars of the postprocessor state,
and `compress2` stores the data behind the two chars 120 and 1 (a zlib stream
that is not compressed is two header bytes longer than its data, and more). -/
def stored_collaborators : Collaborators ℕ (List ℕ) ℕ ℕ :=
  { mesh_file := fun t v => { header := [], data := [t, v] },
    info_file := fun t => { header := [], data := [t] },
    triangulation_load := fun mesh info =>
      match mesh.data, info with
      | [t, _], some _ => some t
      | _, _ => none,
    deserialize := fun _ mesh =>
      match mesh.data with
      | [_, v] => v
      | _ => 0,
    oarchive := fun m =>
      m.time :: m.time_step :: m.old_time_step :: m.timestep_number :: m.pre_refinement_step
        :: m.last_pressure_normalization_adjustment :: m.postprocess_manager_and_statistics,
    iarchive := fun chars =>
      match chars with
      | t :: dt :: odt :: n :: p :: a :: rest => some ⟨t, dt, odt, n, p, a, rest⟩
      | _ => none,
    compress2 := fun chars => 120 :: 1 :: chars,
    uncompress := fun chars n =>
      match chars with
      | 120 :: 1 :: rest => if rest.length ≤ n then .ok rest else .error (-5)
      | _ => .error (-3),
    indeterminate := 0 }

/-- The simulator at the time of its `k`-th snapshot. -/
def simulator_at_snapshot (k : ℕ) : RestartSimulator ℕ (List ℕ) ℕ ℕ :=
  { members := ⟨10 * k, 10, 10, k, 0, 0, [7, 7]⟩, triangulation := k, solution_vectors := 100 + k }

/-- A run that is not resumed and writes to `output/`. -/
def fresh_run_parameters : RestartParameters :=
  { output_directory := "output/", resume_computation := false }

/-- Process 0 at the start of a run, with an empty output directory. -/
def empty_disk : RestartWorld :=
  { files := fun _ => none, previous_snapshot_exists := none }

/-- An operating system on which nothing fails. -/
def no_faults : SnapshotFaults :=
  { move_mesh := ⟨false, false, false⟩, move_mesh_info := ⟨false, false, false⟩,
    move_resume := ⟨false, false, false⟩, stream_fails := none }

/-- The write of `restart.resume.z` fails and leaves a file that holds only the
first word of the header. -/
def truncated_write : SnapshotFaults :=
  { no_faults with stream_fails := some (some { header := [1], data := [] }) }

/-- A postprocessor state of `2^32 - 7` chars. -/
def long_postprocessor_state : List ℕ := List.replicate (2 ^ 32 - 7) 0

/-- A simulator at its first snapshot whose postprocessors have the state `chars`. -/
def simulator_with_state (chars : List ℕ) : RestartSimulator ℕ (List ℕ) ℕ ℕ :=
  { members := ⟨10, 10, 10, 1, 0, 0, chars⟩, triangulation := 1, solution_vectors := 101 }

/-! ## Material models, postprocessors and mesh refinement -/

section Materials

variable {α : Type} [LinearOrderedField α]

/-- The function `DynamicFriction<dim>::compute_volume_fractions`
(`dynamic_friction.cc`, lines 32-63). -/
def compute_volume_fractions (compositional_fields : List α) : List α :=
  -- clip the compositional fields so they are between zero and one
  let x_comp := compositional_fields.map fun x => min (max x 0) 1
  -- sum the compositional fields for normalization purposes
  let sum_composition := x_comp.foldl (fun sum x => sum + x) 0
  if sum_composition ≥ 1 then
    0 :: x_comp.map fun x => x / sum_composition
  else
    (1 - sum_composition) :: x_comp

/-- The parameters of the material model `MeltGlobal` that `melt_fraction` reads. -/
structure MeltGlobal (α : Type) where
  /-- Parameter `Surface solidus`. -/
  surface_solidus : α
  /-- Parameter `Pressure solidus change`. -/
  pressure_solidus_change : α
  /-- Parameter `Depletion solidus change`. -/
  depletion_solidus_change : α

/-- The function `MeltGlobal<dim>::melt_fraction` (`melt_global.cc`, lines 58-79). -/
def MeltGlobal.melt_fraction (model : MeltGlobal α) (temperature pressure depletion : α) : α :=
  let T_solidus := model.surface_solidus + model.pressure_solidus_change * pressure
    + max (model.depletion_solidus_change * depletion) (-200)
  let T_liquidus := T_solidus + 500
  if temperature < T_solidus then 0
  else if temperature > T_liquidus then 1
  else (temperature - T_solidus) / (T_liquidus - T_solidus)

/-- The constant `std::numeric_limits<double>::epsilon()`, that is `2^-52`. -/
def numeric_limits_double_epsilon : α := 1 / 2 ^ 52

/-- The function `DepthAverage<dim>::set_last_output_time` (`depth_average.cc`,
lines 429-446): the new value of the member `last_output_time`.  The function
`std::floor` is the floor of the field. -/
def DepthAverage.set_last_output_time [FloorRing α] (output_interval last_output_time
    current_time : α) : α :=
  if output_interval > 0 then
    let magic : α := 1 + 2 * numeric_limits_double_epsilon
    last_output_time
      + (⌊(current_time - last_output_time) / output_interval * magic⌋ : α)
        * output_interval / magic
  else last_output_time

/-- The function `Visualization<dim>::set_last_output_time` (`visualization.cc`,
lines 1045-1064): the new value of the member `last_output_time`. -/
def Visualization.set_last_output_time [FloorRing α] (output_interval last_output_time
    current_time : α) : α :=
  if output_interval > 0 then
    let magic : α := 1 + 2 * numeric_limits_double_epsilon
    last_output_time
      + (⌊(current_time - last_output_time) / output_interval * magic⌋ : α)
        * output_interval / magic
  else last_output_time

/-- The `while` loop of `maybe_refine_mesh` (lines 402-411); `limit` is
`time + new_time_step`, which the loop does not change.  The increment of the
`unsigned int` wraps at `2^32`.  `refine_mesh` is the member function of that
name, which works on the mesh and the vectors, here `σ`. -/
def additional_refinement_loop {σ : Type} (refine_mesh : ℕ → σ → σ) (limit : α) :
    List α → ℕ → σ → List α × ℕ × σ
  | [], max_refinement_level, mesh => ([], max_refinement_level, mesh)
  | front :: rest, max_refinement_level, mesh =>
    if front < limit then
      additional_refinement_loop refine_mesh limit rest ((max_refinement_level + 1) % 2 ^ 32)
        (refine_mesh ((max_refinement_level + 1) % 2 ^ 32) mesh)
    else (front :: rest, max_refinement_level, mesh)

/-- The function `Simulator<dim>::maybe_refine_mesh` (lines 387-425).  The result
is the new `parameters.additional_refinement_times`, the new
`max_refinement_level` and the new mesh. -/
def maybe_refine_mesh {σ : Type} (refine_mesh : ℕ → σ → σ)
    (additional_refinement_times : List α) (adaptive_refinement_interval : ℕ) (time : α)
    (timestep_number : ℕ) (new_time_step : α) (max_refinement_level : ℕ) (mesh : σ) :
    List α × ℕ × σ :=
  if additional_refinement_times.length > 0
      ∧ additional_refinement_times.head?.any (fun front => front < time + new_time_step) then
    additional_refinement_loop refine_mesh (time + new_time_step) additional_refinement_times
      max_refinement_level mesh
  else if (timestep_number > 0 ∧ adaptive_refinement_interval > 0
        ∧ timestep_number % adaptive_refinement_interval = 0)
      ∨ (timestep_number = 0 ∧ adaptive_refinement_interval = 1) then
    (additional_refinement_times, max_refinement_level, refine_mesh max_refinement_level mesh)
  else
    (additional_refinement_times, max_refinement_level, mesh)

end Materials

/-! ## Finite-element functions: the limiter and the pressure normalization -/

/-- What an `FEValues` or `FEFaceValues` object of deal.II gives at one
quadrature point of a cell, for the scalar field looked at: the values there of
the shape functions of that field, one for each of its degrees of freedom on
the cell, and the weight `JxW(q)`. -/
structure FEValuesPoint (α : Type) where
  /-- The values `shape_value(j, q)` of the shape functions of the field. -/
  shape_value : List α
  /-- The weight `JxW(q)`. -/
  JxW : α

/-- What `apply_limiter_to_dg_solutions` reads of one active cell. -/
structure DGCell (α : Type) where
  /-- The flag `cell->is_locally_owned()`. -/
  is_locally_owned : Bool
  /-- The global indices `local_dof_indices[support_point_index]` of the degrees
  of freedom of the advection field on the cell, for `j = 0, 1, ...`. -/
  local_dof_indices : List ℕ
  /-- The shape values of `fe_values` at the points of `quadrature_formula`. -/
  fe_values : List (List α)
  /-- The object `fe_values_0` at the Gauss points `quadrature_formula_0`. -/
  fe_values_0 : List (FEValuesPoint α)

/-- What `normalize_pressure` reads of one face of a cell. -/
structure PressureFace (α : Type) where
  /-- The flag `face->at_boundary()`. -/
  at_boundary : Bool
  /-- The value `geometry_model->depth (face->center())`. -/
  depth : α
  /-- The value `face->diameter()`. -/
  diameter : α
  /-- The object `fe_face_values` after `reinit (cell, face_no)`, for the pressure. -/
  fe_face_values : List (FEValuesPoint α)

/-- What `normalize_pressure` reads of one active cell. -/
structure PressureCell (α : Type) where
  /-- The flag `cell->is_locally_owned()`. -/
  is_locally_owned : Bool
  /-- The global indices `local_dof_indices[support_point_index]` of the pressure
  degrees of freedom of the cell, for `j = 0, ..., n_local_pressure_dofs - 1`. -/
  pressure_dof_indices : List ℕ
  /-- The object `fe_values` after `reinit (cell)`, for the pressure. -/
  fe_values : List (FEValuesPoint α)
  /-- The faces `cell->face (face_no)`. -/
  faces : List (PressureFace α)

/-- What `normalize_pressure` reads of `parameters` and `introspection`. -/
structure PressureParameters (α : Type) where
  pressure_normalization : String
  surface_pressure : α
  use_locally_conservative_discretization : Bool
  include_melt_transport : Bool
  /-- The index `introspection.block_indices.velocities`. -/
  block_index_velocities : ℕ
  /-- The index `introspection.block_indices.pressure`. -/
  block_index_pressure : ℕ

section FiniteElements

variable {α : Type} [LinearOrderedField α]

/-- One entry of the result of `FEValuesViews::Scalar::get_function_values` of
deal.II: the finite-element function with the coefficients of `solution` at one
point, the sum of the degrees of freedom times their shape values. -/
def get_function_value (solution : ℕ → α) (local_dof_indices : List ℕ) (shape_value : List α) :
    α :=
  (List.zipWith (fun idx phi => solution idx * phi) local_dof_indices shape_value).sum

/-- The value `*std::min_element (values.begin(), values.end())`; the source
never has an empty `values`. -/
def min_element : List α → α
  | [] => 0
  | value :: values => values.foldl min value

/-- The value `*std::max_element (values.begin(), values.end())`; the source
never has an empty `values`. -/
def max_element : List α → α
  | [] => 0
  | value :: values => values.foldl max value

/-- The local variable `min_solution_local` of `apply_limiter_to_dg_solutions`
(`helper_functions.cc`, line 1435). -/
def min_solution_local (solution : ℕ → α) (cell : DGCell α) : α :=
  min_element (cell.fe_values.map (get_function_value solution cell.local_dof_indices))

/-- The local variable `max_solution_local` of `apply_limiter_to_dg_solutions`
(`helper_functions.cc`, line 1436). -/
def max_solution_local (solution : ℕ → α) (cell : DGCell α) : α :=
  max_element (cell.fe_values.map (get_function_value solution cell.local_dof_indices))

/-- The local variable `local_area` of `apply_limiter_to_dg_solutions` after the
loop over the Gauss points (`helper_functions.cc`, lines 1442-1448). -/
def local_area (cell : DGCell α) : α :=
  cell.fe_values_0.foldl (fun local_area q => local_area + q.JxW) 0

/-- The local variable `local_solution_average` of
`apply_limiter_to_dg_solutions` after the division by `local_area`
(`helper_functions.cc`, lines 1442-1449). -/
def local_solution_average (solution : ℕ → α) (cell : DGCell α) : α :=
  cell.fe_values_0.foldl
      (fun local_solution_average q =>
        local_solution_average
          + get_function_value solution cell.local_dof_indices q.shape_value * q.JxW) 0
    / local_area cell

/-- The local variable `theta` of `apply_limiter_to_dg_solutions`
(`helper_functions.cc`, lines 1458-1463); `abs` is the absolute value of a
`double`. -/
def theta (min_solution_exact_global max_solution_exact_global : α) (solution : ℕ → α)
    (cell : DGCell α) : α :=
  let theta := min 1 |(max_solution_exact_global - local_solution_average solution cell)
    / (max_solution_local solution cell - local_solution_average solution cell)|
  min theta |(min_solution_exact_global - local_solution_average solution cell)
    / (min_solution_local solution cell - local_solution_average solution cell)|

/-- The local variable `limited_solution_value` of
`apply_limiter_to_dg_solutions` (`helper_functions.cc`, line 1482). -/
def limited_solution_value (theta solution_value local_solution_average : α) : α :=
  theta * (solution_value - local_solution_average) + local_solution_average

/-- The loop over `j` of `apply_limiter_to_dg_solutions` (`helper_functions.cc`,
lines 1469-1484): it reads `solution` and writes `distributed_solution`. -/
def limit_cell_dofs (theta local_solution_average : α) (solution : ℕ → α)
    (local_dof_indices : List ℕ) (distributed_solution : ℕ → α) : ℕ → α :=
  local_dof_indices.foldl
    (fun distributed_solution idx =>
      Function.update distributed_solution idx
        (limited_solution_value theta (solution idx) local_solution_average))
    distributed_solution

/-- The body of the loop over the cells of `apply_limiter_to_dg_solutions`
(`helper_functions.cc`, lines 1424-1486). -/
def limit_cell (min_solution_exact_global max_solution_exact_global : α) (solution : ℕ → α)
    (distributed_solution : ℕ → α) (cell : DGCell α) : ℕ → α :=
  if cell.is_locally_owned then
    if min_solution_local solution cell < min_solution_exact_global
        ∨ max_solution_local solution cell > max_solution_exact_global then
      limit_cell_dofs (theta min_solution_exact_global max_solution_exact_global solution cell)
        (local_solution_average solution cell) solution cell.local_dof_indices
        distributed_solution
    else distributed_solution
  else distributed_solution

/-- The function `Simulator<dim>::apply_limiter_to_dg_solutions`
(`helper_functions.cc`, lines 1263-1491), from the copy of the block of the
field into `distributed_solution` to the copy back; the result is the new
`solution`.  `in_block idx` says that the index `idx` lies in the block
`block_idx` of the field, and the two bounds are the `global_..._max_preset` and
`global_..._min_preset` parameters of the field. -/
def apply_limiter_to_dg_solutions (min_solution_exact_global max_solution_exact_global : α)
    (in_block : ℕ → Bool) (cells : List (DGCell α)) (solution : ℕ → α) : ℕ → α :=
  let distributed_solution :=
    cells.foldl (limit_cell min_solution_exact_global max_solution_exact_global solution)
      (fun idx => if in_block idx then solution idx else 0)
  fun idx => if in_block idx then distributed_solution idx else solution idx

/-- The loop over `q` of `normalize_pressure` (`helper_functions.cc`, lines
788-793 and 818-823): the pair is `(my_pressure, my_area)`. -/
def pressure_quadrature_loop (vector : ℕ → α) (pressure_dof_indices : List ℕ)
    (points : List (FEValuesPoint α)) (my : α × α) : α × α :=
  points.foldl
    (fun my q =>
      (my.1 + get_function_value vector pressure_dof_indices q.shape_value * q.JxW,
        my.2 + q.JxW))
    my

/-- The test of `normalize_pressure` for a face of the surface
(`helper_functions.cc`, lines 779-782). -/
def is_surface_face (ops : MathOps α) (dim : ℕ) (face : PressureFace α) : Bool :=
  face.at_boundary ∧ face.depth < face.diameter / ops.sqrt (1 * (dim : α) - 1) / 3

/-- The loop over the cells of the branch `"surface"` of `normalize_pressure`
(`helper_functions.cc`, lines 760-797) on one process. -/
def surface_integrals (ops : MathOps α) (dim : ℕ) (vector : ℕ → α)
    (cells : List (PressureCell α)) : α × α :=
  cells.foldl
    (fun my cell =>
      if cell.is_locally_owned then
        cell.faces.foldl
          (fun my face =>
            if is_surface_face ops dim face then
              pressure_quadrature_loop vector cell.pressure_dof_indices face.fe_face_values my
            else my)
          my
      else my)
    (0, 0)

/-- The loop over the cells of the branch `"volume"` of `normalize_pressure`
(`helper_functions.cc`, lines 798-824) on one process. -/
def volume_integrals (vector : ℕ → α) (cells : List (PressureCell α)) : α × α :=
  cells.foldl
    (fun my cell =>
      if cell.is_locally_owned then
        pressure_quadrature_loop vector cell.pressure_dof_indices cell.fe_values my
      else my)
    (0, 0)

/-- The function `Utilities::MPI::sum` for an array of two numbers: the sums of
the values of all processes. -/
def MPI_sum (values : List (α × α)) : α × α :=
  values.foldl (fun temp my_temp => (temp.1 + my_temp.1, temp.2 + my_temp.2)) (0, 0)

/-- The loop over the cells of `normalize_pressure` that changes every pressure
degree of freedom (`helper_functions.cc`, lines 859-886) on one process. -/
def adjust_pressure_dofs (pressure_adjustment : α) (vector : ℕ → α)
    (cells : List (PressureCell α)) (distributed_vector : ℕ → α) : ℕ → α :=
  cells.foldl
    (fun distributed_vector cell =>
      if cell.is_locally_owned then
        cell.pressure_dof_indices.foldl
          (fun distributed_vector idx =>
            Function.update distributed_vector idx (vector idx + pressure_adjustment))
          distributed_vector
      else distributed_vector)
    distributed_vector

/-- The body of the loop over the cells of `normalize_pressure` that changes
the first pressure degree of freedom of a cell (`helper_functions.cc`, lines
914-926). -/
def adjust_first_pressure_dof (pressure_adjustment : α) (vector : ℕ → α) :
    List ℕ → (ℕ → α) → ℕ → α
  | [], distributed_vector => distributed_vector
  | first_pressure_dof :: _, distributed_vector =>
    Function.update distributed_vector first_pressure_dof
      (vector first_pressure_dof + pressure_adjustment)

/-- The loop over the cells of `normalize_pressure` that changes the first
pressure degree of freedom of every cell (`helper_functions.cc`, lines 904-928)
on one process. -/
def adjust_first_pressure_dofs (pressure_adjustment : α) (vector : ℕ → α)
    (cells : List (PressureCell α)) (distributed_vector : ℕ → α) : ℕ → α :=
  cells.foldl
    (fun distributed_vector cell =>
      if cell.is_locally_owned then
        adjust_first_pressure_dof pressure_adjustment vector cell.pressure_dof_indices
          distributed_vector
      else distributed_vector)
    distributed_vector

/-- The part of `normalize_pressure` that changes the vector
(`helper_functions.cc`, lines 848-933), run by all processes together; the
result is the new `vector`.  The `Assert`s of debug mode are left out. -/
def add_pressure_adjustment (parameters : PressureParameters α) (in_pressure_block : ℕ → Bool)
    (processes : List (List (PressureCell α))) (vector : ℕ → α) (pressure_adjustment : α) :
    ℕ → α :=
  if parameters.use_locally_conservative_discretization = false then
    if parameters.block_index_velocities ≠ parameters.block_index_pressure
        ∧ parameters.include_melt_transport = false then
      fun idx => if in_pressure_block idx then vector idx + pressure_adjustment else vector idx
    else
      processes.foldl
        (fun distributed_vector cells =>
          adjust_pressure_dofs pressure_adjustment vector cells distributed_vector)
        vector
  else
    processes.foldl
      (fun distributed_vector cells =>
        adjust_first_pressure_dofs pressure_adjustment vector cells distributed_vector)
      vector

/-- The function `Simulator<dim>::normalize_pressure` (`helper_functions.cc`,
lines 746-936) run by all processes together: `processes` holds for each
process its active cells, `vector` is the distributed vector, and
`in_pressure_block idx` says that the index `idx` lies in the block
`introspection.block_indices.pressure`.  The result is `none` when `AssertThrow`
throws, and otherwise the returned adjustment with the new `vector`. -/
def normalize_pressure (ops : MathOps α) (dim : ℕ) (parameters : PressureParameters α)
    (in_pressure_block : ℕ → Bool) (processes : List (List (PressureCell α)))
    (vector : ℕ → α) : Option (α × (ℕ → α)) :=
  if parameters.pressure_normalization = "no" then some (0, vector)
  else
    let my_temp : Option (List (α × α)) :=
      if parameters.pressure_normalization = "surface" then
        some (processes.map (surface_integrals ops dim vector))
      else if parameters.pressure_normalization = "volume" then
        some (processes.map (volume_integrals vector))
      else none
    match my_temp with
    | none => none
    | some my_temp =>
      let temp := MPI_sum my_temp
      let pressure_adjustment :=
        if parameters.pressure_normalization = "surface" then
          -temp.1 / temp.2 + parameters.surface_pressure
        else -temp.1 / temp.2
      some (pressure_adjustment,
        add_pressure_adjustment parameters in_pressure_block processes vector
          pressure_adjustment)

/-- The quadrature-weighted mean of a function: `points` holds for each
quadrature point the value of the function there and the weight. -/
def weighted_mean (points : List (α × α)) : α :=
  (points.map fun p => p.1 * p.2).sum / (points.map fun p => p.2).sum

/-- The quadrature points of a cell that the branch `"volume"` of
`normalize_pressure` sums over. -/
def volume_quadrature (cell : PressureCell α) : List (FEValuesPoint α) :=
  cell.fe_values

/-- The quadrature points of a cell that the branch `"surface"` of
`normalize_pressure` sums over: those of its faces of the surface. -/
def surface_quadrature (ops : MathOps α) (dim : ℕ) (cell : PressureCell α) :
    List (FEValuesPoint α) :=
  (cell.faces.filter (is_surface_face ops dim)).flatMap fun face => face.fe_face_values

/-- The values of the pressure with the coefficients `vector` and the weights
at the quadrature points `quadrature cell` of the cells each process owns. -/
def pressure_points (quadrature : PressureCell α → List (FEValuesPoint α))
    (processes : List (List (PressureCell α))) (vector : ℕ → α) : List (α × α) :=
  processes.flatMap fun cells =>
    (cells.filter fun cell => cell.is_locally_owned).flatMap fun cell =>
      (quadrature cell).map fun q =>
        (get_function_value vector cell.pressure_dof_indices q.shape_value, q.JxW)

/-- The two sums of a quadrature: of the values times the weights, and of the
weights. -/
def quadrature_sums (points : List (α × α)) : α × α :=
  ((points.map fun p => p.1 * p.2).sum, (points.map fun p => p.2).sum)

end FiniteElements

/-- A cell of a discontinuous linear element in one dimension: the two degrees
of freedom are the values at the end points, which are the sample points, and
the two Gauss points have the weight 1/2 each. -/
def troubled_cell : DGCell ℚ :=
  { is_locally_owned := true
    local_dof_indices := [0, 1]
    fe_values := [[1, 0], [0, 1]]
    fe_values_0 := [⟨[3 / 4, 1 / 4], 1 / 2⟩, ⟨[1 / 4, 3 / 4], 1 / 2⟩] }

/-- A solution with the values -1 and 2 at the end points of `troubled_cell`. -/
def troubled_solution : ℕ → ℚ := fun idx => if idx = 0 then -1 else 2

/-- The functions of `<cmath>` as far as a run in two dimensions over the
rational numbers needs them: `std::sqrt` is only called with the argument 1. -/
def two_dimensional_ops : MathOps ℚ := ⟨fun x => x, fun a _ => a⟩

/-- A cell at the surface with a continuous linear pressure: the degrees of
freedom 0 and 1, two Gauss points in the cell, one face at the surface with one
quadrature point at the degree of freedom 0, and one face in the interior. -/
def surface_cell (is_locally_owned : Bool) : PressureCell ℚ :=
  { is_locally_owned := is_locally_owned
    pressure_dof_indices := [0, 1]
    fe_values := [⟨[3 / 4, 1 / 4], 1 / 2⟩, ⟨[1 / 4, 3 / 4], 1 / 2⟩]
    faces := [⟨true, 0, 1, [⟨[1, 0], 1⟩]⟩, ⟨false, 1, 1, [⟨[0, 1], 1⟩]⟩] }

/-- A cell at the bottom that shares the degree of freedom 1 with `surface_cell`:
its boundary face lies at the depth 2. -/
def bottom_cell (is_locally_owned : Bool) : PressureCell ℚ :=
  { is_locally_owned := is_locally_owned
    pressure_dof_indices := [1, 2]
    fe_values := [⟨[3 / 4, 1 / 4], 1 / 2⟩, ⟨[1 / 4, 3 / 4], 1 / 2⟩]
    faces := [⟨false, 1, 1, [⟨[1, 0], 1⟩]⟩, ⟨true, 2, 1, [⟨[0, 1], 1⟩]⟩] }

/-- Two processes that each own one of the two cells and see the other one. -/
def two_processes : List (List (PressureCell ℚ)) :=
  [[surface_cell true, bottom_cell false], [surface_cell false, bottom_cell true]]

/-- Parameters with the normalization `"surface"` to the surface pressure 5, for
a pressure in a block of its own. -/
def surface_parameters : PressureParameters ℚ :=
  { pressure_normalization := "surface"
    surface_pressure := 5
    use_locally_conservative_discretization := false
    include_melt_transport := false
    block_index_velocities := 0
    block_index_pressure := 1 }

/-- A pressure with the values 1, 2 and 3 at the degrees of freedom 0, 1 and 2. -/
def linear_pressure : ℕ → ℚ := fun idx => (idx : ℚ) + 1

/-! ## Facts about `std::pow` with the golden-ratio exponent -/

/-- The exponent `(1 + std::sqrt(5)) * 0.5` of the source is the golden ratio. -/
theorem powerterm_eq : (1 + Real.sqrt 5) * 0.5 = (1 + Real.sqrt 5) / 2 := by
  norm_num
  ring

/-- The golden ratio lies between `8/5` and `13/8`. -/
theorem powerterm_bounds : (8 / 5 : ℝ) < (1 + Real.sqrt 5) / 2 ∧ (1 + Real.sqrt 5) / 2 < 13 / 8 := by
  have h1 : (11 / 5 : ℝ) < Real.sqrt 5 := by
    rw [Real.lt_sqrt (by norm_num)]
    norm_num
  have h2 : Real.sqrt 5 < 9 / 4 := by
    rw [Real.sqrt_lt (by norm_num) (by norm_num)]
    norm_num
  constructor <;> linarith

/-- Raising to a rational power `p / q` and comparing with `c` reduces to
comparing integer powers. -/
theorem rpow_div_lt_iff (x c : ℝ) (p q : ℕ) (hx : 0 ≤ x) (hc : 0 ≤ c) (hq : 0 < q) :
    x ^ ((p : ℝ) / (q : ℝ)) < c ↔ x ^ p < c ^ q := by
  have hq0 : (q : ℝ) ≠ 0 := by exact_mod_cast hq.ne.symm
  have key : (x ^ ((p : ℝ) / (q : ℝ))) ^ q = x ^ p := by
    rw [← Real.rpow_natCast, ← Real.rpow_mul hx, div_mul_cancel₀ _ hq0, Real.rpow_natCast]
  rw [← key]
  exact (pow_lt_pow_iff_left₀ (Real.rpow_nonneg hx _) hc hq.ne.symm).symm

/-- The value `std::pow(0.3, powerterm)` of the scenario lies between 0.14 and 0.15. -/
theorem pow_scenario_bounds :
    (0.14 : ℝ) < (0.3 : ℝ) ^ ((1 + Real.sqrt 5) / 2) ∧ (0.3 : ℝ) ^ ((1 + Real.sqrt 5) / 2) < 0.15 := by
  obtain ⟨hlo, hhi⟩ := powerterm_bounds
  constructor
  · have h1 : (0.3 : ℝ) ^ ((13 : ℝ) / 8) < (0.3 : ℝ) ^ ((1 + Real.sqrt 5) / 2) :=
      Real.rpow_lt_rpow_of_exponent_gt (by norm_num) (by norm_num) hhi
    have h2 : ¬ (0.3 : ℝ) ^ (((13 : ℕ) : ℝ) / ((8 : ℕ) : ℝ)) < 0.14 := by
      rw [rpow_div_lt_iff _ _ _ _ (by norm_num) (by norm_num) (by norm_num)]
      norm_num
    push_cast at h2
    linarith
  · have h1 : (0.3 : ℝ) ^ ((1 + Real.sqrt 5) / 2) < (0.3 : ℝ) ^ ((8 : ℝ) / 5) :=
      Real.rpow_lt_rpow_of_exponent_gt (by norm_num) (by norm_num) hlo
    have h2 : (0.3 : ℝ) ^ (((8 : ℕ) : ℝ) / ((5 : ℕ) : ℝ)) < 0.15 := by
      rw [rpow_div_lt_iff _ _ _ _ (by norm_num) (by norm_num) (by norm_num)]
      norm_num
    push_cast at h2
    linarith

/-! ## Linear-tolerance adapter (Eisenstat-Walker) -/

/-- C1: with variant B and `0.9 * tol^2 > 0.1` the result is capped by the Newton
handler's configured ceiling and not by the ceiling passed as argument: for the
passed ceiling 0.5, handler ceiling 0.9, tolerance 0.5 and residuals
`r_lin = 0`, `r_new = r_old = 1` the function returns 0.9, above the passed
ceiling. -/
theorem eisenstat_walker_above_passed_ceiling :
    compute_Eisenstat_Walker_linear_tolerance ⟨Real.sqrt, fun a b => a ^ b⟩ ⟨0.9⟩
        false 0.5 0.5 0 1 1 = 0.9
      ∧ ¬ compute_Eisenstat_Walker_linear_tolerance ⟨Real.sqrt, fun a b => a ^ b⟩ ⟨0.9⟩
        false 0.5 0.5 0 1 1 ≤ (0.5 : ℝ) := by
  have h : compute_Eisenstat_Walker_linear_tolerance ⟨Real.sqrt, fun a b => a ^ b⟩ ⟨0.9⟩
      false 0.5 0.5 0 1 1 = (0.9 : ℝ) := by
    norm_num [compute_Eisenstat_Walker_linear_tolerance]
  rw [h]
  norm_num

/-- C2 (as stated, refuted): there is no positive floor.  Variant B with the
ceiling 1, tolerance 0.1, `r_new = 0` and `r_old = 1` returns 0, which is below
every positive floor. -/
theorem eisenstat_walker_no_positive_floor :
    compute_Eisenstat_Walker_linear_tolerance ⟨Real.sqrt, fun a b => a ^ b⟩ ⟨1⟩
        false 1 0.1 0 0 1 = 0
      ∧ ∀ tolerance_floor : ℝ, 0 < tolerance_floor →
          ¬ tolerance_floor ≤ compute_Eisenstat_Walker_linear_tolerance
              ⟨Real.sqrt, fun a b => a ^ b⟩ ⟨1⟩ false 1 0.1 0 0 1 := by
  have h : compute_Eisenstat_Walker_linear_tolerance ⟨Real.sqrt, fun a b => a ^ b⟩ ⟨1⟩
      false 1 0.1 0 0 1 = (0 : ℝ) := by
    norm_num [compute_Eisenstat_Walker_linear_tolerance]
  rw [h]
  exact ⟨rfl, fun _ hf => not_le.mpr hf⟩

/-- C2 (amended): in variant A, and in variant B when `0.9 * tol^2 ≤ 0.1`, for a
ceiling that is not negative and `r_old > 0`, the result lies between 0 and the
ceiling passed as argument. -/
theorem eisenstat_walker_within_zero_and_ceiling {α : Type} [LinearOrderedField α]
    (ops : MathOps α) (handler : NewtonHandlerParameters α) (choice_one : Bool)
    (tol_max tol r_lin r_new r_old : α) (hmax : 0 ≤ tol_max) (hold : 0 < r_old)
    (hbranch : choice_one = true ∨ 0.9 * tol * tol ≤ 0.1) :
    0 ≤ compute_Eisenstat_Walker_linear_tolerance ops handler choice_one tol_max tol
          r_lin r_new r_old
      ∧ compute_Eisenstat_Walker_linear_tolerance ops handler choice_one tol_max tol
          r_lin r_new r_old ≤ tol_max := by
  have hA : 0 ≤ |r_new - r_lin| / r_old := div_nonneg (abs_nonneg _) hold.le
  have hB : 0 ≤ 0.9 * |r_new * r_new| / (r_old * r_old) :=
    div_nonneg (mul_nonneg (by norm_num) (abs_nonneg _)) (mul_nonneg hold.le hold.le)
  unfold compute_Eisenstat_Walker_linear_tolerance
  cases choice_one with
  | true =>
    simp only [if_true]
    split_ifs
    · exact ⟨le_min hmax hA, min_le_left _ _⟩
    · exact ⟨le_min hmax (le_trans hA (le_max_left _ _)), min_le_left _ _⟩
  | false =>
    have h2 : 0.9 * tol * tol ≤ 0.1 := by
      rcases hbranch with h | h
      · exact absurd h (by simp)
      · exact h
    simp only [Bool.false_eq_true, if_false, if_pos h2]
    exact ⟨le_min hmax hB, min_le_left _ _⟩

/-- Witness for C2 (amended): variant B, ceiling 1, tolerance 0.1, residuals 0, 1/2, 1. -/
theorem eisenstat_walker_within_zero_and_ceiling_witness :
    (0 : ℝ) ≤ compute_Eisenstat_Walker_linear_tolerance ⟨Real.sqrt, fun a b => a ^ b⟩ ⟨1⟩
        false 1 0.1 0 (1 / 2) 1
      ∧ compute_Eisenstat_Walker_linear_tolerance ⟨Real.sqrt, fun a b => a ^ b⟩ ⟨1⟩
        false 1 0.1 0 (1 / 2) 1 ≤ (1 : ℝ) :=
  eisenstat_walker_within_zero_and_ceiling _ _ false 1 0.1 0 (1 / 2) 1 (by norm_num)
    (by norm_num) (Or.inr (by norm_num))

/-- Variant A over the reals, written with the golden ratio as exponent. -/
theorem eisenstat_walker_choice_one (handler : NewtonHandlerParameters ℝ)
    (tol_max tol r_lin r_new r_old : ℝ) :
    compute_Eisenstat_Walker_linear_tolerance ⟨Real.sqrt, fun a b => a ^ b⟩ handler
        true tol_max tol r_lin r_new r_old
      = if tol ^ ((1 + Real.sqrt 5) / 2) ≤ 0.1 then min tol_max (|r_new - r_lin| / r_old)
        else min tol_max (max (|r_new - r_lin| / r_old) (tol ^ ((1 + Real.sqrt 5) / 2))) := by
  simp only [compute_Eisenstat_Walker_linear_tolerance, if_true, powerterm_eq]

/-- C3 (as stated, refuted): both halves fail.  With tolerance 0.1 (then
`tol^phi ≤ 0.1`) and `r_new = r_lin` the function returns 0 and not
`max(0, tol^phi) > 0`; with tolerance 1 (then `tol^phi = 1 > 0.1`) it returns 1
and not `min(1, 0) = 0`. -/
theorem eisenstat_walker_choice_one_branches_swapped :
    ((0.1 : ℝ) ^ ((1 + Real.sqrt 5) / 2) ≤ 0.1
        ∧ compute_Eisenstat_Walker_linear_tolerance ⟨Real.sqrt, fun a b => a ^ b⟩ ⟨1⟩
            true 1 0.1 0 0 1
          ≠ min 1 (max (|(0 : ℝ) - 0| / 1) ((0.1 : ℝ) ^ ((1 + Real.sqrt 5) / 2))))
      ∧ ((1 : ℝ) ^ ((1 + Real.sqrt 5) / 2) > 0.1
        ∧ compute_Eisenstat_Walker_linear_tolerance ⟨Real.sqrt, fun a b => a ^ b⟩ ⟨1⟩
            true 1 1 0 0 1
          ≠ min 1 (|(0 : ℝ) - 0| / 1)) := by
  have hphi : (1 : ℝ) ≤ (1 + Real.sqrt 5) / 2 := by
    have := powerterm_bounds.1
    linarith
  have hle : (0.1 : ℝ) ^ ((1 + Real.sqrt 5) / 2) ≤ 0.1 := by
    have h := Real.rpow_le_rpow_of_exponent_ge (by norm_num : (0 : ℝ) < 0.1)
      (by norm_num : (0.1 : ℝ) ≤ 1) hphi
    simpa using h
  have hpos : (0 : ℝ) < (0.1 : ℝ) ^ ((1 + Real.sqrt 5) / 2) :=
    Real.rpow_pos_of_pos (by norm_num) _
  refine ⟨⟨hle, ?_⟩, ⟨by rw [Real.one_rpow]; norm_num, ?_⟩⟩
  · rw [eisenstat_walker_choice_one, if_pos hle]
    have h1 : (0.1 : ℝ) ^ ((1 + Real.sqrt 5) / 2) ≤ 1 := le_trans hle (by norm_num)
    simp only [sub_zero, abs_zero, zero_div]
    rw [max_eq_right hpos.le, min_eq_right h1, min_eq_right (by norm_num : (0 : ℝ) ≤ 1)]
    exact hpos.ne
  · rw [eisenstat_walker_choice_one, Real.one_rpow]
    norm_num

/-- C3 (amended): in variant A with `phi = (1 + sqrt 5) / 2` and `r_old > 0`, the
result is `min(tol_max, |r_new - r_lin| / r_old)` whenever `tol^phi ≤ 0.1`, and
`min(tol_max, max(|r_new - r_lin| / r_old, tol^phi))` whenever `tol^phi > 0.1`. -/
theorem eisenstat_walker_choice_one_spec (handler : NewtonHandlerParameters ℝ)
    (tol_max tol r_lin r_new r_old : ℝ) (_hold : 0 < r_old) :
    (tol ^ ((1 + Real.sqrt 5) / 2) ≤ 0.1 →
        compute_Eisenstat_Walker_linear_tolerance ⟨Real.sqrt, fun a b => a ^ b⟩ handler
            true tol_max tol r_lin r_new r_old
          = min tol_max (|r_new - r_lin| / r_old))
      ∧ (tol ^ ((1 + Real.sqrt 5) / 2) > 0.1 →
        compute_Eisenstat_Walker_linear_tolerance ⟨Real.sqrt, fun a b => a ^ b⟩ handler
            true tol_max tol r_lin r_new r_old
          = min tol_max (max (|r_new - r_lin| / r_old) (tol ^ ((1 + Real.sqrt 5) / 2)))) := by
  rw [eisenstat_walker_choice_one]
  exact ⟨fun h => if_pos h, fun h => if_neg (not_le.mpr h)⟩

/-- Witness for C3 (amended): tolerance 1, so `tol^phi = 1 > 0.1`, and the result is 1. -/
theorem eisenstat_walker_choice_one_spec_witness :
    (0 : ℝ) < 1 ∧ (1 : ℝ) ^ ((1 + Real.sqrt 5) / 2) > 0.1
      ∧ compute_Eisenstat_Walker_linear_tolerance ⟨Real.sqrt, fun a b => a ^ b⟩ ⟨1⟩
          true 1 1 0 0 1
        = min 1 (max (|(0 : ℝ) - 0| / 1) ((1 : ℝ) ^ ((1 + Real.sqrt 5) / 2))) :=
  have h : (1 : ℝ) ^ ((1 + Real.sqrt 5) / 2) > 0.1 := by rw [Real.one_rpow]; norm_num
  ⟨one_pos, h, (eisenstat_walker_choice_one_spec ⟨1⟩ 1 1 0 0 1 one_pos).2 h⟩

/-- C4: in variant A, for a tolerance `tol ≥ 0` and a residual `r_old > 0`,
whenever `tol^phi > 0.1` the result is
`min(tol_max, max(|r_new - r_lin| / r_old, tol^phi))`; for `r_old = 1`,
`r_new = 0.05`, `r_lin = 0.04`, `tol = 0.3` and every `tol_max` above `0.3^phi`
the result is `0.3^phi`, which lies between 0.14 and 0.15.  Outside these two
conditions the source divides by zero or takes `std::pow` of a negative
number, which exact arithmetic does not model. -/
theorem eisenstat_walker_choice_one_safeguard (handler : NewtonHandlerParameters ℝ) :
    (∀ tol_max tol r_lin r_new r_old : ℝ, 0 ≤ tol → 0 < r_old →
        tol ^ ((1 + Real.sqrt 5) / 2) > 0.1 →
        compute_Eisenstat_Walker_linear_tolerance ⟨Real.sqrt, fun a b => a ^ b⟩ handler
            true tol_max tol r_lin r_new r_old
          = min tol_max (max (|r_new - r_lin| / r_old) (tol ^ ((1 + Real.sqrt 5) / 2))))
      ∧ (∀ tol_max : ℝ, (0.3 : ℝ) ^ ((1 + Real.sqrt 5) / 2) < tol_max →
        compute_Eisenstat_Walker_linear_tolerance ⟨Real.sqrt, fun a b => a ^ b⟩ handler
            true tol_max 0.3 0.04 0.05 1
          = (0.3 : ℝ) ^ ((1 + Real.sqrt 5) / 2))
      ∧ (0.14 : ℝ) < (0.3 : ℝ) ^ ((1 + Real.sqrt 5) / 2)
      ∧ (0.3 : ℝ) ^ ((1 + Real.sqrt 5) / 2) < 0.15 := by
  obtain ⟨hlo, hhi⟩ := pow_scenario_bounds
  refine ⟨fun tol_max tol r_lin r_new r_old _ _ h => ?_, fun tol_max h => ?_, hlo, hhi⟩
  · rw [eisenstat_walker_choice_one, if_neg (not_le.mpr h)]
  · rw [eisenstat_walker_choice_one, if_neg (not_le.mpr (by linarith))]
    have h1 : |(0.05 : ℝ) - 0.04| / 1 ≤ (0.3 : ℝ) ^ ((1 + Real.sqrt 5) / 2) := by
      rw [abs_of_nonneg (by norm_num)]
      norm_num
      linarith
    rw [max_eq_right h1, min_eq_right h.le]

/-- Witness for C4: the scenario with the ceiling `tol_max = 1`, where
`tol = 0.3 ≥ 0`, `r_old = 1 > 0` and `0.3^phi > 0.1`: the result is the general
formula there, and it is `0.3^phi`. -/
theorem eisenstat_walker_choice_one_safeguard_witness :
    ((0 : ℝ) ≤ 0.3 ∧ (0 : ℝ) < 1 ∧ (0.3 : ℝ) ^ ((1 + Real.sqrt 5) / 2) > 0.1)
      ∧ compute_Eisenstat_Walker_linear_tolerance ⟨Real.sqrt, fun a b => a ^ b⟩ ⟨1⟩
          true 1 0.3 0.04 0.05 1
        = min 1 (max (|(0.05 : ℝ) - 0.04| / 1) ((0.3 : ℝ) ^ ((1 + Real.sqrt 5) / 2)))
      ∧ compute_Eisenstat_Walker_linear_tolerance ⟨Real.sqrt, fun a b => a ^ b⟩ ⟨1⟩
          true 1 0.3 0.04 0.05 1
        = (0.3 : ℝ) ^ ((1 + Real.sqrt 5) / 2) :=
  have h := eisenstat_walker_choice_one_safeguard ⟨1⟩
  have hpow : (0.3 : ℝ) ^ ((1 + Real.sqrt 5) / 2) > 0.1 :=
    lt_trans (by norm_num) h.2.2.1
  ⟨⟨by norm_num, one_pos, hpow⟩,
    h.1 1 0.3 0.04 0.05 1 (by norm_num) one_pos hpow,
    h.2.1 1 (lt_trans h.2.2.2 (by norm_num))⟩

/-- C5 (as stated, refuted): both halves fail, also when the handler's ceiling is
the ceiling passed.  With tolerance 0.1 (`0.9 * tol^2 = 0.009 ≤ 0.1`) and
`r_new = 0` the function returns 0 and not `max(0, 0.009)`; with tolerance 1
(`0.9 * tol^2 = 0.9 > 0.1`) it returns 0.9 and not `min(1, 0) = 0`. -/
theorem eisenstat_walker_choice_two_branches_swapped :
    (0.9 * (0.1 : ℝ) ^ 2 ≤ 0.1
        ∧ compute_Eisenstat_Walker_linear_tolerance ⟨Real.sqrt, fun a b => a ^ b⟩ ⟨1⟩
            false 1 0.1 0 0 1
          ≠ min 1 (max (0.9 * (0 : ℝ) ^ 2 / 1 ^ 2) (0.9 * (0.1 : ℝ) ^ 2)))
      ∧ (0.9 * (1 : ℝ) ^ 2 > 0.1
        ∧ compute_Eisenstat_Walker_linear_tolerance ⟨Real.sqrt, fun a b => a ^ b⟩ ⟨1⟩
            false 1 1 0 0 1
          ≠ min 1 (0.9 * (0 : ℝ) ^ 2 / 1 ^ 2)) := by
  norm_num [compute_Eisenstat_Walker_linear_tolerance]

/-- C5 (amended): in variant B with `r_old > 0`, the result is
`min(tol_max, 0.9 * r_new^2 / r_old^2)` whenever `0.9 * tol^2 ≤ 0.1`; whenever
`0.9 * tol^2 > 0.1` and the ceiling passed is the Newton handler's configured
ceiling, it is `min(tol_max, max(0.9 * r_new^2 / r_old^2, 0.9 * tol^2))`. -/
theorem eisenstat_walker_choice_two_spec {α : Type} [LinearOrderedField α]
    (ops : MathOps α) (handler : NewtonHandlerParameters α)
    (tol_max tol r_lin r_new r_old : α) (_hold : 0 < r_old) :
    (0.9 * tol ^ 2 ≤ 0.1 →
        compute_Eisenstat_Walker_linear_tolerance ops handler false tol_max tol
            r_lin r_new r_old
          = min tol_max (0.9 * r_new ^ 2 / r_old ^ 2))
      ∧ (0.9 * tol ^ 2 > 0.1 → handler.maximum_linear_stokes_solver_tolerance = tol_max →
        compute_Eisenstat_Walker_linear_tolerance ops handler false tol_max tol
            r_lin r_new r_old
          = min tol_max (max (0.9 * r_new ^ 2 / r_old ^ 2) (0.9 * tol ^ 2))) := by
  have hsq : |r_new * r_new| = r_new ^ 2 := by rw [abs_mul_self, sq]
  have hold2 : r_old * r_old = r_old ^ 2 := (sq r_old).symm
  have htol : 0.9 * tol * tol = 0.9 * tol ^ 2 := by ring
  simp only [compute_Eisenstat_Walker_linear_tolerance, Bool.false_eq_true, if_false, hsq,
    hold2, htol]
  constructor
  · intro h
    rw [if_pos h]
  · intro h hc
    rw [if_neg (not_le.mpr h), hc]

/-- Witness for C5 (amended): ceiling 1 (also the handler's), `r_new = 1/2`,
`r_old = 1`; with tolerance 0.1 the result is `min(1, 0.225)`, with tolerance 1
it is `min(1, max(0.225, 0.9))`. -/
theorem eisenstat_walker_choice_two_spec_witness :
    compute_Eisenstat_Walker_linear_tolerance ⟨Real.sqrt, fun a b => a ^ b⟩ ⟨1⟩
          false 1 0.1 0 (1 / 2) 1
        = min 1 (0.9 * (1 / 2 : ℝ) ^ 2 / 1 ^ 2)
      ∧ compute_Eisenstat_Walker_linear_tolerance ⟨Real.sqrt, fun a b => a ^ b⟩ ⟨1⟩
          false 1 1 0 (1 / 2) 1
        = min 1 (max (0.9 * (1 / 2 : ℝ) ^ 2 / 1 ^ 2) (0.9 * (1 : ℝ) ^ 2)) :=
  ⟨(eisenstat_walker_choice_two_spec _ ⟨1⟩ 1 0.1 0 (1 / 2) 1 one_pos).1 (by norm_num),
    (eisenstat_walker_choice_two_spec _ ⟨1⟩ 1 1 0 (1 / 2) 1 one_pos).2 (by norm_num) rfl⟩

/-- C6: the result depends on the Newton handler's parameters.  Two calls with
the same six arguments (variant B, ceiling 0.5, tolerance 0.5, residuals 0, 1, 1)
return 0.9 when the handler's ceiling is 0.9 and 0.5 when it is 0.5. -/
theorem eisenstat_walker_reads_newton_handler :
    compute_Eisenstat_Walker_linear_tolerance ⟨Real.sqrt, fun a b => a ^ b⟩ ⟨0.9⟩
        false 0.5 0.5 0 1 1
      ≠ compute_Eisenstat_Walker_linear_tolerance ⟨Real.sqrt, fun a b => a ^ b⟩ ⟨0.5⟩
        false 0.5 0.5 0 1 (1 : ℝ) := by
  norm_num [compute_Eisenstat_Walker_linear_tolerance]

/-! ## Time-step controller -/

section TimeStepFacts

variable {α : Type} [LinearOrderedField α]

/-- A running maximum is at least its start value. -/
theorem le_foldl_max {β : Type} (f : β → α) (l : List β) (a : α) :
    a ≤ l.foldl (fun m x => max m (f x)) a := by
  induction l generalizing a with
  | nil => exact le_refl a
  | cons x l ih => exact le_trans (le_max_left a (f x)) (ih _)

/-- A running maximum is at least every value it has seen. -/
theorem le_foldl_max_of_mem {β : Type} (f : β → α) (l : List β) (a : α) (x : β)
    (hx : x ∈ l) : f x ≤ l.foldl (fun m x => max m (f x)) a := by
  induction l generalizing a with
  | nil => simp at hx
  | cons y l ih =>
    rcases List.mem_cons.mp hx with h | h
    · subst h
      exact le_trans (le_max_right a (f x)) (le_foldl_max f l _)
    · exact ih _ h

/-- A running maximum is its start value or one of the values it has seen. -/
theorem foldl_max_eq_or_mem {β : Type} (f : β → α) (l : List β) (a : α) :
    l.foldl (fun m x => max m (f x)) a = a
      ∨ ∃ x ∈ l, l.foldl (fun m x => max m (f x)) a = f x := by
  induction l generalizing a with
  | nil => exact Or.inl rfl
  | cons y l ih =>
    rcases ih (max a (f y)) with h | ⟨x, hx, h⟩
    · rcases max_choice a (f y) with h2 | h2
      · exact Or.inl (by simpa [List.foldl_cons, h2] using h)
      · exact Or.inr ⟨y, List.mem_cons_self _ _, by simpa [List.foldl_cons, h2] using h⟩
    · exact Or.inr ⟨x, List.mem_cons_of_mem _ hx, h⟩

/-- The largest speed on a cell is at least 0. -/
theorem max_local_velocity_nonneg (parameters : Parameters α) (cell : Cell α) :
    0 ≤ max_local_velocity parameters cell := by
  unfold max_local_velocity
  split_ifs
  · exact le_trans (le_foldl_max _ _ _) (le_foldl_max _ _ _)
  · exact le_foldl_max _ _ _

/-- The largest speed on a cell is at least every speed on the cell. -/
theorem le_max_local_velocity (parameters : Parameters α) (cell : Cell α) (v : α)
    (hv : v ∈ cell_speeds parameters cell) : v ≤ max_local_velocity parameters cell := by
  unfold max_local_velocity
  unfold cell_speeds at hv
  rcases List.mem_append.mp hv with h | h
  · obtain ⟨q, hq, rfl⟩ := List.mem_map.mp h
    have h1 := le_foldl_max_of_mem (fun q : QuadraturePoint α => q.velocity_norm)
      cell.quadrature_points 0 q hq
    split_ifs
    · exact le_trans h1 (le_foldl_max _ _ _)
    · exact h1
  · split_ifs at h ⊢ with hm
    · obtain ⟨q, hq, rfl⟩ := List.mem_map.mp h
      exact le_foldl_max_of_mem (fun q : QuadraturePoint α => q.fluid_velocity_norm) _ _ q hq
    · simp at h

/-- The largest speed on a cell is 0 or one of the speeds on the cell. -/
theorem max_local_velocity_eq_or_mem (parameters : Parameters α) (cell : Cell α) :
    max_local_velocity parameters cell = 0
      ∨ max_local_velocity parameters cell ∈ cell_speeds parameters cell := by
  have h1 := foldl_max_eq_or_mem (fun q : QuadraturePoint α => q.velocity_norm)
    cell.quadrature_points 0
  unfold max_local_velocity cell_speeds
  split_ifs with hm
  · rcases foldl_max_eq_or_mem (fun q : QuadraturePoint α => q.fluid_velocity_norm)
      cell.quadrature_points
      (cell.quadrature_points.foldl (fun m q => max m q.velocity_norm) 0) with h2 | ⟨q, hq, h2⟩
    · rw [h2]
      rcases h1 with h1 | ⟨q, hq, h1⟩
      · exact Or.inl h1
      · exact Or.inr (List.mem_append_left _ (h1 ▸ List.mem_map_of_mem _ hq))
    · exact Or.inr (List.mem_append_right _ (h2 ▸ List.mem_map_of_mem _ hq))
  · rcases h1 with h1 | ⟨q, hq, h1⟩
    · exact Or.inl h1
    · exact Or.inr (List.mem_append_left _ (h1 ▸ List.mem_map_of_mem _ hq))

/-- The speed over mesh size of a cell, the quantity the cell loop maximises. -/
theorem cell_loop_fst (parameters : Parameters α) (cells : List (Cell α)) (acc : α × α) :
    (cells.foldl (cell_loop_body parameters) acc).1
      = (cells.filter fun c => c.is_locally_owned).foldl
          (fun m c => max m (max_local_velocity parameters c / c.minimum_vertex_distance))
          acc.1 := by
  induction cells generalizing acc with
  | nil => rfl
  | cons c cells ih =>
    rw [List.foldl_cons, ih]
    by_cases hc : c.is_locally_owned = true
    · simp [cell_loop_body, hc]
    · simp [cell_loop_body, hc]

/-- The loop over the quadrature points of a cell takes the running minimum
over the conduction bounds of the cell. -/
theorem conduction_timestep_loop_eq (parameters : Parameters α) (cell : Cell α) (m : α) :
    conduction_timestep_loop parameters cell m
      = (cell_conduction_bounds parameters cell).foldl min m := by
  unfold conduction_timestep_loop cell_conduction_bounds
  generalize cell.quadrature_points = qs
  induction qs generalizing m with
  | nil => rfl
  | cons q qs ih =>
    rw [List.foldl_cons, ih]
    by_cases hq : 0 < thermal_diffusivity q
    · have hq2 : q.thermal_conductivity / (q.density * q.specific_heat) > 0 := hq
      simp [hq, hq2, thermal_diffusivity]
    · have hq2 : ¬ q.thermal_conductivity / (q.density * q.specific_heat) > 0 := hq
      simp [hq, hq2]

/-- The second loop variable after the cell loop, with the conduction time step
enabled: the running minimum over the conduction bounds of the owned cells. -/
theorem cell_loop_snd (parameters : Parameters α) (cells : List (Cell α)) (acc : α × α)
    (hcond : parameters.use_conduction_timestep = true) :
    (cells.foldl (cell_loop_body parameters) acc).2
      = ((cells.filter fun c => c.is_locally_owned).flatMap
          (cell_conduction_bounds parameters)).foldl min acc.2 := by
  induction cells generalizing acc with
  | nil => rfl
  | cons c cells ih =>
    rw [List.foldl_cons, ih]
    by_cases hc : c.is_locally_owned = true
    · simp [cell_loop_body, hc, hcond, conduction_timestep_loop_eq, List.foldl_append]
    · simp [cell_loop_body, hc]

/-- A running minimum, in `WithTop α`: the smaller of the start value and the
minimum of the list. -/
theorem coe_foldl_min (l : List α) (a : α) :
    ((l.foldl min a : α) : WithTop α) = min (a : WithTop α) l.minimum := by
  induction l generalizing a with
  | nil => simp
  | cons x l ih => rw [List.foldl_cons, ih, List.minimum_cons, WithTop.coe_min, min_assoc]

/-- The minimum of a concatenation. -/
theorem minimum_append (l₁ l₂ : List α) :
    (l₁ ++ l₂).minimum = min l₁.minimum l₂.minimum := by
  induction l₁ with
  | nil => simp
  | cons x l ih => rw [List.cons_append, List.minimum_cons, ih, List.minimum_cons, min_assoc]

/-- The idiom `- MPI::max (- x)` computes a minimum. -/
theorem neg_MPI_max_neg (own : α) (others : List α) :
    - MPI_max (-own) (others.map fun x => -x) = others.foldl min own := by
  unfold MPI_max
  induction others generalizing own with
  | nil => simp
  | cons x l ih => rw [List.map_cons, List.foldl_cons, List.foldl_cons, max_neg_neg, ih]

/-- What one process finds as `max_local_speed_over_meshsize` is at least 0. -/
theorem cell_loop_fst_nonneg (parameters : Parameters α) (cells : List (Cell α)) :
    0 ≤ (cell_loop parameters cells).1 := by
  unfold cell_loop
  rw [cell_loop_fst]
  exact le_foldl_max _ _ _

/-- What one process finds as `max_local_speed_over_meshsize` is at least the
speed over mesh size of each of its cells. -/
theorem le_cell_loop_fst (parameters : Parameters α) (cells : List (Cell α)) (c : Cell α)
    (hc : c ∈ cells) (ho : c.is_locally_owned = true) :
    max_local_velocity parameters c / c.minimum_vertex_distance
      ≤ (cell_loop parameters cells).1 := by
  unfold cell_loop
  rw [cell_loop_fst]
  exact le_foldl_max_of_mem
    (fun c : Cell α => max_local_velocity parameters c / c.minimum_vertex_distance) _ _ c
    (List.mem_filter.mpr ⟨hc, by simpa using ho⟩)

/-- What one process finds as `max_local_speed_over_meshsize` is 0 or the speed
over mesh size of one of its cells. -/
theorem cell_loop_fst_eq_or_mem (parameters : Parameters α) (cells : List (Cell α)) :
    (cell_loop parameters cells).1 = 0
      ∨ ∃ c ∈ cells, c.is_locally_owned = true ∧ (cell_loop parameters cells).1
          = max_local_velocity parameters c / c.minimum_vertex_distance := by
  unfold cell_loop
  rw [cell_loop_fst]
  rcases foldl_max_eq_or_mem
    (fun c : Cell α => max_local_velocity parameters c / c.minimum_vertex_distance)
    (cells.filter fun c => c.is_locally_owned) 0 with h | ⟨c, hc, h⟩
  · exact Or.inl h
  · obtain ⟨h1, h2⟩ := List.mem_filter.mp hc
    exact Or.inr ⟨c, h1, by simpa using h2, h⟩

/-- Membership in the list of all owned cells. -/
theorem mem_owned_cells {β : Type} (cells : List (Cell β)) (others : List (List (Cell β)))
    (c : Cell β) :
    c ∈ owned_cells cells others
      ↔ (c ∈ cells ∨ ∃ cs ∈ others, c ∈ cs) ∧ c.is_locally_owned = true := by
  simp only [owned_cells, List.mem_filter, List.mem_append, List.mem_flatten]

/-- The global maximum of speed over mesh size is at least 0. -/
theorem max_global_speed_over_meshsize_nonneg (parameters : Parameters α)
    (cells : List (Cell α)) (others : List (List (Cell α))) :
    0 ≤ max_global_speed_over_meshsize parameters cells others := by
  unfold max_global_speed_over_meshsize MPI_max
  exact le_trans (cell_loop_fst_nonneg parameters cells) (le_foldl_max (fun x => x) _ _)

/-- The global maximum is at least the speed over mesh size of every owned cell. -/
theorem le_max_global_speed_over_meshsize (parameters : Parameters α)
    (cells : List (Cell α)) (others : List (List (Cell α))) (c : Cell α)
    (hc : c ∈ owned_cells cells others) :
    max_local_velocity parameters c / c.minimum_vertex_distance
      ≤ max_global_speed_over_meshsize parameters cells others := by
  obtain ⟨hmem, ho⟩ := (mem_owned_cells cells others c).mp hc
  unfold max_global_speed_over_meshsize MPI_max
  rcases hmem with h | ⟨cs, hcs, h⟩
  · exact le_trans (le_cell_loop_fst parameters cells c h ho) (le_foldl_max (fun x => x) _ _)
  · exact le_trans (le_cell_loop_fst parameters cs c h ho)
      (le_foldl_max_of_mem (fun x => x) _ _ _
        (List.mem_map_of_mem (fun cs => (cell_loop parameters cs).1) hcs))

/-- The global maximum is 0 or the speed over mesh size of an owned cell. -/
theorem max_global_speed_over_meshsize_eq_or_mem (parameters : Parameters α)
    (cells : List (Cell α)) (others : List (List (Cell α))) :
    max_global_speed_over_meshsize parameters cells others = 0
      ∨ ∃ c ∈ owned_cells cells others, max_global_speed_over_meshsize parameters cells others
          = max_local_velocity parameters c / c.minimum_vertex_distance := by
  unfold max_global_speed_over_meshsize MPI_max
  rcases foldl_max_eq_or_mem (fun x : α => x)
    (others.map fun cs => (cell_loop parameters cs).1) (cell_loop parameters cells).1
    with h | ⟨x, hx, h⟩
  · rcases cell_loop_fst_eq_or_mem parameters cells with h0 | ⟨c, hc, ho, h1⟩
    · exact Or.inl (h.trans h0)
    · exact Or.inr ⟨c, (mem_owned_cells cells others c).mpr ⟨Or.inl hc, ho⟩, h.trans h1⟩
  · obtain ⟨cs, hcs, rfl⟩ := List.mem_map.mp hx
    rcases cell_loop_fst_eq_or_mem parameters cs with h0 | ⟨c, hc, ho, h1⟩
    · exact Or.inl (h.trans h0)
    · exact Or.inr ⟨c, (mem_owned_cells cells others c).mpr ⟨Or.inr ⟨cs, hcs, hc⟩, ho⟩,
        h.trans h1⟩

/-- Folding the local conduction minima of the other processes into a value that
already is a minimum with `numeric_limits_double_max`. -/
theorem coe_foldl_min_cell_loop_snd (parameters : Parameters α)
    (hcond : parameters.use_conduction_timestep = true) (others : List (List (Cell α)))
    (a : α) (X : WithTop α)
    (ha : (a : WithTop α) = min ((numeric_limits_double_max : α) : WithTop α) X) :
    (((others.map fun cs => (cell_loop parameters cs).2).foldl min a : α) : WithTop α)
      = min ((numeric_limits_double_max : α) : WithTop α)
          (min X (((others.flatten.filter fun c => c.is_locally_owned).flatMap
            (cell_conduction_bounds parameters)).minimum)) := by
  induction others generalizing a X with
  | nil => simpa using ha
  | cons cs others ih =>
    rw [List.map_cons, List.foldl_cons]
    have h1 : (((min a (cell_loop parameters cs).2 : α)) : WithTop α)
        = min ((numeric_limits_double_max : α) : WithTop α)
            (min X (((cs.filter fun c => c.is_locally_owned).flatMap
              (cell_conduction_bounds parameters)).minimum)) := by
      rw [WithTop.coe_min, ha]
      unfold cell_loop
      rw [cell_loop_snd parameters cs _ hcond, coe_foldl_min, min_min_min_comm, min_self]
    rw [ih _ _ h1, List.flatten_cons, List.filter_append, List.flatMap_append, minimum_append,
      min_assoc]

/-- With the conduction time step enabled, `min_conduction_timestep` is the
smaller of `numeric_limits_double_max` and the smallest conduction bound. -/
theorem coe_min_conduction_timestep (parameters : Parameters α) (cells : List (Cell α))
    (others : List (List (Cell α))) (hcond : parameters.use_conduction_timestep = true) :
    ((min_conduction_timestep parameters cells others : α) : WithTop α)
      = min ((numeric_limits_double_max : α) : WithTop α)
          (conduction_bounds parameters cells others).minimum := by
  have hmap : (others.map fun cs => -(cell_loop parameters cs).2)
      = (others.map fun cs => (cell_loop parameters cs).2).map fun x => -x := by
    rw [List.map_map]
    rfl
  have hown : (((cell_loop parameters cells).2 : α) : WithTop α)
      = min ((numeric_limits_double_max : α) : WithTop α)
          (((cells.filter fun c => c.is_locally_owned).flatMap
            (cell_conduction_bounds parameters)).minimum) := by
    unfold cell_loop
    rw [cell_loop_snd parameters cells _ hcond, coe_foldl_min]
  unfold min_conduction_timestep
  rw [if_pos hcond, hmap, neg_MPI_max_neg,
    coe_foldl_min_cell_loop_snd parameters hcond others _ _ hown]
  unfold conduction_bounds owned_cells
  rw [List.filter_append, List.flatMap_append, minimum_append]

/-- With all speeds 0 the global maximum of speed over mesh size is 0. -/
theorem max_global_speed_over_meshsize_eq_zero (parameters : Parameters α)
    (cells : List (Cell α)) (others : List (List (Cell α)))
    (hvel : ∀ c ∈ owned_cells cells others, ∀ v ∈ cell_speeds parameters c, v = 0) :
    max_global_speed_over_meshsize parameters cells others = 0 := by
  rcases max_global_speed_over_meshsize_eq_or_mem parameters cells others with h | ⟨c, hc, h⟩
  · exact h
  · rw [h]
    rcases max_local_velocity_eq_or_mem parameters c with h0 | h0
    · rw [h0, zero_div]
    · rw [hvel c hc _ h0, zero_div]

/-- The argument handed to the termination manager, in terms of the candidate. -/
theorem limited_time_step_eq (parameters : Parameters α) (time_step : α)
    (cells : List (Cell α)) (others : List (List (Cell α))) :
    limited_time_step parameters time_step cells others
      = min (if time_step ≠ 0 then
              min (if candidate_time_step parameters cells others = numeric_limits_double_max
                    then parameters.maximum_time_step
                    else candidate_time_step parameters cells others)
                (time_step + time_step * parameters.maximum_relative_increase_time_step)
             else
              if candidate_time_step parameters cells others = numeric_limits_double_max
                then parameters.maximum_time_step
                else candidate_time_step parameters cells others)
          parameters.maximum_time_step := rfl

end TimeStepFacts

/-- C7 (as stated, refuted): a mesh at rest, conduction time step disabled,
maximum time step 10.  With the previous step 1 and the maximum relative
increase 1/2 the function returns 3/2 (termination manager: identity); with no
previous step and a termination manager that cuts the step at 3 it returns 3. -/
theorem compute_time_step_at_rest_not_maximum :
    (∀ c ∈ owned_cells [resting_cell] [[resting_cell]],
        ∀ v ∈ cell_speeds convection_only_parameters c, v = 0)
      ∧ convection_only_parameters.use_conduction_timestep = false
      ∧ compute_time_step (fun x => x) convection_only_parameters 1 [resting_cell]
          [[resting_cell]] = 3 / 2
      ∧ compute_time_step (fun x => x) convection_only_parameters 1 [resting_cell]
          [[resting_cell]] ≠ convection_only_parameters.maximum_time_step
      ∧ compute_time_step (fun x => min x 3) convection_only_parameters 0 [resting_cell]
          [[resting_cell]] = 3
      ∧ compute_time_step (fun x => min x 3) convection_only_parameters 0 [resting_cell]
          [[resting_cell]] ≠ convection_only_parameters.maximum_time_step := by
  have h1 : compute_time_step (fun x => x) convection_only_parameters 1 [resting_cell]
      [[resting_cell]] = 3 / 2 := by
    norm_num [compute_time_step, limited_time_step, candidate_time_step,
      min_convection_timestep, min_conduction_timestep, max_global_speed_over_meshsize,
      MPI_max, cell_loop, cell_loop_body, max_local_velocity, convection_only_parameters,
      resting_cell]
  have h2 : compute_time_step (fun x => min x 3) convection_only_parameters 0 [resting_cell]
      [[resting_cell]] = 3 := by
    norm_num [compute_time_step, limited_time_step, candidate_time_step,
      min_convection_timestep, min_conduction_timestep, max_global_speed_over_meshsize,
      MPI_max, cell_loop, cell_loop_body, max_local_velocity, convection_only_parameters,
      resting_cell]
  refine ⟨?_, rfl, h1, ?_, h2, ?_⟩
  · intro c hc v hv
    have hc2 : c = resting_cell := by
      simpa [owned_cells, resting_cell] using hc
    subst hc2
    simpa [cell_speeds, resting_cell, convection_only_parameters] using hv
  · rw [h1]
    norm_num [convection_only_parameters]
  · rw [h2]
    norm_num [convection_only_parameters]

/-- C7 (amended): when the velocity (and, with melt transport, the fluid
velocity) is zero at every point of every cell and the conduction time step is
disabled, the candidate step is the sentinel `numeric_limits_double_max` and
`compute_time_step` returns what the termination manager makes of
`maximum_time_step` if there is no previous step (`time_step = 0`), and of
`min(maximum_time_step, time_step + time_step * maximum_relative_increase_time_step)`
otherwise; so it returns exactly `maximum_time_step` when there is no previous
step and the termination manager leaves `maximum_time_step` as it is.  Cells
have a positive size (the model divides by it). -/
theorem compute_time_step_at_rest {α : Type} [LinearOrderedField α]
    (check_for_last_time_step : α → α) (parameters : Parameters α) (time_step : α)
    (cells : List (Cell α)) (others : List (List (Cell α)))
    (_hmesh : ∀ c ∈ owned_cells cells others, 0 < c.minimum_vertex_distance)
    (hvel : ∀ c ∈ owned_cells cells others, ∀ v ∈ cell_speeds parameters c, v = 0)
    (hcond : parameters.use_conduction_timestep = false) :
    candidate_time_step parameters cells others = numeric_limits_double_max
      ∧ compute_time_step check_for_last_time_step parameters time_step cells others
        = check_for_last_time_step
            (if time_step ≠ 0 then
              min parameters.maximum_time_step
                (time_step + time_step * parameters.maximum_relative_increase_time_step)
             else parameters.maximum_time_step)
      ∧ (time_step = 0 →
          check_for_last_time_step parameters.maximum_time_step = parameters.maximum_time_step →
          compute_time_step check_for_last_time_step parameters time_step cells others
            = parameters.maximum_time_step) := by
  have hs := max_global_speed_over_meshsize_eq_zero parameters cells others hvel
  have hcand : candidate_time_step parameters cells others = numeric_limits_double_max := by
    simp [candidate_time_step, min_convection_timestep, min_conduction_timestep, hs, hcond]
  have hret : compute_time_step check_for_last_time_step parameters time_step cells others
      = check_for_last_time_step
          (if time_step ≠ 0 then
            min parameters.maximum_time_step
              (time_step + time_step * parameters.maximum_relative_increase_time_step)
           else parameters.maximum_time_step) := by
    unfold compute_time_step
    rw [limited_time_step_eq, hcand]
    congr 1
    by_cases hts : time_step = 0
    · simp [hts]
    · simp only [if_true, ne_eq, hts, not_false_eq_true]
      rw [min_comm, ← min_assoc, min_self]
  refine ⟨hcand, hret, fun hts hcheck => ?_⟩
  rw [hret, if_neg (not_not.mpr hts), hcheck]

/-- Witness for C7 (amended): a mesh of two resting cells on two processes, first step. -/
theorem compute_time_step_at_rest_witness :
    compute_time_step (fun x => x) convection_only_parameters 0 [resting_cell]
        [[resting_cell]] = 10 :=
  (compute_time_step_at_rest (fun x => x) convection_only_parameters 0 [resting_cell]
      [[resting_cell]]
    (by
      intro c hc
      have hc2 : c = resting_cell := by simpa [owned_cells, resting_cell] using hc
      rw [hc2]
      norm_num [resting_cell])
    (by
      intro c hc v hv
      have hc2 : c = resting_cell := by simpa [owned_cells, resting_cell] using hc
      subst hc2
      simpa [cell_speeds, resting_cell, convection_only_parameters] using hv)
    rfl).2.2 rfl rfl

/-- C8: the step length handed to the termination manager is at most
`maximum_time_step` and, when the previous `time_step` is not 0, at most
`time_step * (1 + maximum_relative_increase_time_step)`; when the termination
manager never returns more than its argument, the returned step obeys both
bounds. -/
theorem compute_time_step_bounds {α : Type} [LinearOrderedField α]
    (check_for_last_time_step : α → α) (parameters : Parameters α) (time_step : α)
    (cells : List (Cell α)) (others : List (List (Cell α))) :
    compute_time_step check_for_last_time_step parameters time_step cells others
        = check_for_last_time_step (limited_time_step parameters time_step cells others)
      ∧ limited_time_step parameters time_step cells others ≤ parameters.maximum_time_step
      ∧ (time_step ≠ 0 →
          limited_time_step parameters time_step cells others
            ≤ time_step * (1 + parameters.maximum_relative_increase_time_step))
      ∧ ((∀ x, check_for_last_time_step x ≤ x) →
          compute_time_step check_for_last_time_step parameters time_step cells others
              ≤ parameters.maximum_time_step
            ∧ (time_step ≠ 0 →
                compute_time_step check_for_last_time_step parameters time_step cells others
                  ≤ time_step * (1 + parameters.maximum_relative_increase_time_step))) := by
  have hmax : limited_time_step parameters time_step cells others
      ≤ parameters.maximum_time_step := by
    rw [limited_time_step_eq]
    exact min_le_right _ _
  have hinc : time_step ≠ 0 →
      limited_time_step parameters time_step cells others
        ≤ time_step * (1 + parameters.maximum_relative_increase_time_step) := by
    intro hts
    rw [limited_time_step_eq, if_pos hts, mul_add, mul_one]
    exact le_trans (min_le_left _ _) (min_le_right _ _)
  refine ⟨rfl, hmax, hinc, fun hcheck => ⟨?_, fun hts => ?_⟩⟩
  · exact le_trans (hcheck _) hmax
  · exact le_trans (hcheck _) (hinc hts)

/-- Witness for C8: a moving mesh, previous step 1/10, a termination manager that
cuts the step at 1/8; the returned step is at most 10 and at most 3/20. -/
theorem compute_time_step_bounds_witness :
    compute_time_step (fun x => min x (1 / 8)) convection_only_parameters (1 / 10)
        [moving_cell] [[resting_cell]] ≤ 10
      ∧ compute_time_step (fun x => min x (1 / 8)) convection_only_parameters (1 / 10)
        [moving_cell] [[resting_cell]] ≤ 1 / 10 * (1 + 1 / 2) :=
  have h := (compute_time_step_bounds (fun x => min x (1 / 8)) convection_only_parameters
    (1 / 10) [moving_cell] [[resting_cell]]).2.2.2 (fun x => min_le_left x _)
  ⟨h.1, h.2 (by norm_num)⟩

/-- C9: let `s = max_global_speed_over_meshsize` be non-zero.  Then `s` is the
largest, over all owned cells, of (largest speed on the cell / minimum vertex
distance), the convective bound is `CFL_number / (temperature_degree * s)`, with
the conduction time step enabled the candidate step is the minimum of that bound
and the smallest `CFL_number * h^2 / kappa` over the evaluation points with
`kappa > 0`, and with it disabled the candidate is the convective bound.  Cells
have a positive size, `rho * c_p > 0` at every point (the `Assert` of the
source), and the convective bound is a finite `double`. -/
theorem candidate_time_step_spec {α : Type} [LinearOrderedField α]
    (parameters : Parameters α) (cells : List (Cell α)) (others : List (List (Cell α)))
    (hs : max_global_speed_over_meshsize parameters cells others ≠ 0)
    (_hmesh : ∀ c ∈ owned_cells cells others, 0 < c.minimum_vertex_distance)
    (_hmat : ∀ c ∈ owned_cells cells others, ∀ q ∈ c.quadrature_points,
      0 < q.density * q.specific_heat)
    (hfin : parameters.CFL_number
        / ((parameters.temperature_degree : α)
            * max_global_speed_over_meshsize parameters cells others)
      ≤ numeric_limits_double_max) :
    ((∀ c ∈ owned_cells cells others,
          (∀ v ∈ cell_speeds parameters c, v ≤ max_local_velocity parameters c)
            ∧ (max_local_velocity parameters c = 0
                ∨ max_local_velocity parameters c ∈ cell_speeds parameters c)
            ∧ max_local_velocity parameters c / c.minimum_vertex_distance
                ≤ max_global_speed_over_meshsize parameters cells others)
        ∧ ∃ c ∈ owned_cells cells others,
            max_global_speed_over_meshsize parameters cells others
              = max_local_velocity parameters c / c.minimum_vertex_distance)
      ∧ min_convection_timestep parameters cells others
          = parameters.CFL_number
              / ((parameters.temperature_degree : α)
                  * max_global_speed_over_meshsize parameters cells others)
      ∧ (parameters.use_conduction_timestep = true →
          ((candidate_time_step parameters cells others : α) : WithTop α)
            = min (((parameters.CFL_number
                      / ((parameters.temperature_degree : α)
                          * max_global_speed_over_meshsize parameters cells others) : α))
                    : WithTop α)
                (conduction_bounds parameters cells others).minimum)
      ∧ (parameters.use_conduction_timestep = false →
          candidate_time_step parameters cells others
            = parameters.CFL_number
                / ((parameters.temperature_degree : α)
                    * max_global_speed_over_meshsize parameters cells others)) := by
  have hconv : min_convection_timestep parameters cells others
      = parameters.CFL_number
          / ((parameters.temperature_degree : α)
              * max_global_speed_over_meshsize parameters cells others) := by
    unfold min_convection_timestep
    rw [if_pos hs]
  refine ⟨⟨fun c hc => ⟨fun v hv => le_max_local_velocity parameters c v hv,
      max_local_velocity_eq_or_mem parameters c,
      le_max_global_speed_over_meshsize parameters cells others c hc⟩, ?_⟩, hconv, ?_, ?_⟩
  · rcases max_global_speed_over_meshsize_eq_or_mem parameters cells others with h | h
    · exact absurd h hs
    · exact h
  · intro hcond
    unfold candidate_time_step
    rw [WithTop.coe_min, coe_min_conduction_timestep parameters cells others hcond, hconv,
      ← min_assoc, min_eq_left (WithTop.coe_le_coe.mpr hfin)]
  · intro hcond
    unfold candidate_time_step
    rw [hconv]
    unfold min_conduction_timestep
    rw [if_neg (by simp [hcond])]
    exact min_eq_left hfin

/-- Witness for C9: a moving cell on one process and a resting cell on another,
conduction enabled.  The largest speed over mesh size is 2, the convective bound
`1 / (2 * 2)`, the conduction bounds are 1, 1/2 and 1, the candidate is 1/4. -/
theorem candidate_time_step_spec_witness :
    max_global_speed_over_meshsize conduction_parameters [moving_cell] [[resting_cell]] = 2
      ∧ conduction_bounds conduction_parameters [moving_cell] [[resting_cell]] = [1, 1 / 2, 1]
      ∧ ((candidate_time_step conduction_parameters [moving_cell] [[resting_cell]] : ℚ)
            : WithTop ℚ)
          = min (((1 / (((2 : ℕ) : ℚ) * 2) : ℚ)) : WithTop ℚ)
              ([1, 1 / 2, 1] : List ℚ).minimum := by
  have hs : max_global_speed_over_meshsize conduction_parameters [moving_cell]
      [[resting_cell]] = 2 := by
    norm_num [max_global_speed_over_meshsize, MPI_max, cell_loop, cell_loop_body,
      max_local_velocity, conduction_parameters, convection_only_parameters, moving_cell,
      resting_cell]
  have hb : conduction_bounds conduction_parameters [moving_cell] [[resting_cell]]
      = [1, 1 / 2, 1] := by
    norm_num [conduction_bounds, owned_cells, cell_conduction_bounds, thermal_diffusivity,
      conduction_parameters, convection_only_parameters, moving_cell, resting_cell]
  have hmem : ∀ c ∈ owned_cells [moving_cell] [[resting_cell]],
      c = moving_cell ∨ c = resting_cell := by
    intro c hc
    simpa [owned_cells, moving_cell, resting_cell] using hc
  have h := candidate_time_step_spec conduction_parameters [moving_cell] [[resting_cell]]
    (by rw [hs]; norm_num)
    (by
      intro c hc
      rcases hmem c hc with h | h <;> rw [h] <;> norm_num [moving_cell, resting_cell])
    (by
      intro c hc q hq
      rcases hmem c hc with h | h
      · subst h
        simp only [moving_cell, List.mem_cons, List.mem_singleton, List.not_mem_nil,
          or_false] at hq
        rcases hq with h | h <;> subst h <;> norm_num
      · subst h
        simp only [resting_cell, List.mem_singleton] at hq
        subst hq
        norm_num)
    (by
      rw [hs]
      norm_num [conduction_parameters, convection_only_parameters, numeric_limits_double_max])
  refine ⟨hs, hb, ?_⟩
  have h3 := h.2.2.1 rfl
  rw [hs, hb] at h3
  exact h3

/-! ## Checkpoint policy -/

/-- The flag `write_checkpoint` is set exactly when the policy wants a checkpoint. -/
theorem write_checkpoint_iff {α σ : Type} (sim : Simulator α σ)
    (std_time std_time_root last_checkpoint_time last_checkpoint_time_root : ℤ)
    (termination_output : Bool × Bool) :
    write_checkpoint sim std_time std_time_root last_checkpoint_time
        last_checkpoint_time_root termination_output = true
      ↔ checkpoint_wanted sim std_time_root last_checkpoint_time_root termination_output := by
  unfold write_checkpoint checkpoint_wanted MPI_Bcast
  obtain ⟨t1, t2⟩ := termination_output
  by_cases hterm : t1 = true ∧ t2 = true
  · simp [hterm.1, hterm.2]
  · have hterm2 : (t1 && t2) = false := by
      cases t1 <;> cases t2 <;> simp_all
    by_cases hsteps : sim.parameters.checkpoint_time_secs = 0
        ∧ sim.parameters.checkpoint_steps > 0
        ∧ (sim.timestep_number : ℤ) % sim.parameters.checkpoint_steps = 0
    · have hdvd : sim.parameters.checkpoint_steps ∣ (sim.timestep_number : ℤ) :=
        Int.dvd_of_emod_eq_zero hsteps.2.2
      simp [hterm2, hsteps, hdvd]
    · have hsteps2 : ¬ (sim.parameters.checkpoint_time_secs = 0
          ∧ sim.parameters.checkpoint_steps > 0
          ∧ sim.parameters.checkpoint_steps ∣ (sim.timestep_number : ℤ)) := by
        rintro ⟨h1, h2, h3⟩
        exact hsteps ⟨h1, h2, Int.emod_eq_zero_of_dvd h3⟩
      simp only [hterm2, if_neg hsteps, hterm, hsteps2, or_false, Bool.false_eq_true, if_false]
      by_cases hsecs : sim.parameters.checkpoint_time_secs > 0
      · by_cases hel : std_time_root - last_checkpoint_time_root
            ≥ sim.parameters.checkpoint_time_secs
        · simp [hsecs, hel]
        · simp [hsecs, hel]
      · simp [hsecs]

/-- C10: `maybe_write_checkpoint` calls `create_snapshot` and, once that has
succeeded, sets the two rebuild flags and returns true, when the policy wants a
checkpoint (elapsed wall-clock interval as seen on process 0, or step interval,
or end of the run); in every other case it leaves the simulator as it is,
creates no snapshot and returns false.  So a returned value is true exactly when
the policy wants a checkpoint. -/
theorem maybe_write_checkpoint_spec {α σ ε : Type}
    (create_snapshot : Simulator α σ → Except ε (Simulator α σ)) (sim : Simulator α σ)
    (std_time std_time_root last_checkpoint_time last_checkpoint_time_root : ℤ)
    (termination_output : Bool × Bool) :
    (checkpoint_wanted sim std_time_root last_checkpoint_time_root termination_output →
        maybe_write_checkpoint create_snapshot sim std_time std_time_root
            last_checkpoint_time last_checkpoint_time_root termination_output
          = (create_snapshot sim).map fun s =>
              (true, { s with rebuild_stokes_matrix := true,
                              rebuild_stokes_preconditioner := true }))
      ∧ (¬ checkpoint_wanted sim std_time_root last_checkpoint_time_root termination_output →
        maybe_write_checkpoint create_snapshot sim std_time std_time_root
            last_checkpoint_time last_checkpoint_time_root termination_output
          = .ok (false, sim))
      ∧ (∀ b s, maybe_write_checkpoint create_snapshot sim std_time std_time_root
            last_checkpoint_time last_checkpoint_time_root termination_output = .ok (b, s) →
          (b = true
            ↔ checkpoint_wanted sim std_time_root last_checkpoint_time_root
                termination_output)) := by
  have hiff := write_checkpoint_iff sim std_time std_time_root last_checkpoint_time
    last_checkpoint_time_root termination_output
  have hyes : checkpoint_wanted sim std_time_root last_checkpoint_time_root
      termination_output →
      maybe_write_checkpoint create_snapshot sim std_time std_time_root
          last_checkpoint_time last_checkpoint_time_root termination_output
        = (create_snapshot sim).map fun s =>
            (true, { s with rebuild_stokes_matrix := true,
                            rebuild_stokes_preconditioner := true }) := by
    intro hw
    unfold maybe_write_checkpoint
    rw [if_pos (hiff.mpr hw)]
    cases create_snapshot sim <;> rfl
  have hno : ¬ checkpoint_wanted sim std_time_root last_checkpoint_time_root
      termination_output →
      maybe_write_checkpoint create_snapshot sim std_time std_time_root
          last_checkpoint_time last_checkpoint_time_root termination_output
        = .ok (false, sim) := by
    intro hw
    unfold maybe_write_checkpoint
    rw [if_neg (fun h => hw (hiff.mp h))]
  refine ⟨hyes, hno, fun b s hret => ?_⟩
  by_cases hw : checkpoint_wanted sim std_time_root last_checkpoint_time_root
      termination_output
  · rw [hyes hw] at hret
    cases hc : create_snapshot sim with
    | error e => rw [hc] at hret; cases hret
    | ok s2 =>
      rw [hc] at hret
      simp only [Except.map, Except.ok.injEq, Prod.mk.injEq] at hret
      exact ⟨fun _ => hw, fun _ => hret.1.symm⟩
  · rw [hno hw] at hret
    simp only [Except.ok.injEq, Prod.mk.injEq] at hret
    constructor
    · intro hb
      rw [hb] at hret
      exact absurd hret.1 (by simp)
    · intro h
      exact absurd h hw

/-- Witness for C10: at step 10 with a checkpoint every 5 steps a snapshot is
written and true is returned; at step 11 nothing is written and false is returned. -/
theorem maybe_write_checkpoint_spec_witness :
    maybe_write_checkpoint counting_create_snapshot simulator_at_step_ten 100 100 0 0
          (false, false)
        = .ok (true, { simulator_at_step_ten with
            storage := 1, rebuild_stokes_matrix := true,
            rebuild_stokes_preconditioner := true })
      ∧ maybe_write_checkpoint counting_create_snapshot
          { simulator_at_step_ten with timestep_number := 11 } 100 100 0 0 (true, false)
        = .ok (false, { simulator_at_step_ten with timestep_number := 11 }) :=
  ⟨(maybe_write_checkpoint_spec counting_create_snapshot simulator_at_step_ten 100 100 0 0
      (false, false)).1 (Or.inr (Or.inl ⟨rfl, by decide, ⟨2, by decide⟩⟩)),
    (maybe_write_checkpoint_spec counting_create_snapshot
      { simulator_at_step_ten with timestep_number := 11 } 100 100 0 0 (true, false)).2.1
      (by
        norm_num [checkpoint_wanted, simulator_at_step_ten, convection_only_parameters])⟩

/-! ## Checkpoint/restart manager -/

/-- File names in one directory differ when their last parts differ. -/
theorem append_ne_append (d a b : String) (h : a ≠ b) : d ++ a ≠ d ++ b := by
  intro h2
  have h3 := congrArg String.data h2
  simp only [String.data_append] at h3
  exact h (String.ext (List.append_cancel_left h3))

/-- The name deal.II gives the `.info` file of `restart.mesh`. -/
theorem restart_mesh_info_name (d : String) :
    d ++ "restart.mesh" ++ ".info" = d ++ "restart.mesh.info" := by
  rw [String.append_assoc]
  rfl

/-- Renaming after the new file was removed is renaming. -/
theorem rename_file_update (o n : String) (files : FileSystem) (hne : o ≠ n) :
    rename_file o n (Function.update files n none) = rename_file o n files := by
  funext x
  unfold rename_file
  by_cases hx : x = n
  · subst hx
    simp [Function.update_noteq hne]
  · by_cases hx2 : x = o
    · subst hx2
      simp [Function.update_noteq hx]
    · simp [Function.update_noteq hx, Function.update_noteq hx2]

/-- A `move_file` that returns has renamed the old file, which existed. -/
theorem move_file_returned (faults : MoveFaults) (o n : String) (files files' : FileSystem)
    (hne : o ≠ n) (h : move_file faults o n files = .returned files') :
    files' = rename_file o n files ∧ (files o).isSome = true := by
  unfold move_file at h
  by_cases h1 : faults.system_fails = false ∧ (files o).isSome = true
  · rw [if_pos h1] at h
    simp only [Outcome.returned.injEq] at h
    exact ⟨h.symm, h1.2⟩
  · rw [if_neg h1] at h
    by_cases h2 : (files n).isSome = true
    · by_cases h3 : faults.remove_fails = true
      · simp [h2, h3] at h
      · simp only [h2, h3, if_true, if_false, Bool.false_eq_true] at h
        by_cases h4 : faults.rename_fails = false
            ∧ (Function.update files n none o).isSome = true
        · rw [if_pos h4] at h
          simp only [Outcome.returned.injEq] at h
          have ho := h4.2
          rw [Function.update_noteq hne] at ho
          exact ⟨by rw [← h, rename_file_update o n files hne], ho⟩
        · rw [if_neg h4] at h
          simp at h
    · simp only [h2, if_false, Bool.false_eq_true] at h
      by_cases h4 : faults.rename_fails = false ∧ (files o).isSome = true
      · rw [if_pos h4] at h
        simp only [Outcome.returned.injEq] at h
        exact ⟨h.symm, h4.2⟩
      · rw [if_neg h4] at h
        simp at h

/-- A `move_file` that throws has left the old file where it was, and every file
but the new one as it was. -/
theorem move_file_threw (faults : MoveFaults) (o n : String) (files files' : FileSystem)
    (message : String) (hne : o ≠ n) (h : move_file faults o n files = .threw message files') :
    files' o = files o ∧ ∀ x, x ≠ n → files' x = files x := by
  unfold move_file at h
  by_cases h1 : faults.system_fails = false ∧ (files o).isSome = true
  · rw [if_pos h1] at h
    simp at h
  · rw [if_neg h1] at h
    by_cases h2 : (files n).isSome = true
    · by_cases h3 : faults.remove_fails = true
      · simp only [h2, h3, if_true, Outcome.threw.injEq] at h
        rw [← h.2]
        exact ⟨rfl, fun _ _ => rfl⟩
      · simp only [h2, h3, if_true, if_false, Bool.false_eq_true] at h
        by_cases h4 : faults.rename_fails = false
            ∧ (Function.update files n none o).isSome = true
        · rw [if_pos h4] at h
          simp at h
        · rw [if_neg h4] at h
          simp only [Outcome.threw.injEq] at h
          rw [← h.2]
          exact ⟨Function.update_noteq hne _ _, fun x hx => Function.update_noteq hx _ _⟩
    · simp only [h2, if_false, Bool.false_eq_true] at h
      by_cases h4 : faults.rename_fails = false ∧ (files o).isSome = true
      · rw [if_pos h4] at h
        simp at h
      · rw [if_neg h4] at h
        simp only [Outcome.threw.injEq] at h
        rw [← h.2]
        exact ⟨rfl, fun _ _ => rfl⟩

/-- Two names of one directory are equal exactly when their last parts are. -/
theorem append_eq_append_iff (d a b : String) : d ++ a = d ++ b ↔ a = b :=
  ⟨fun h => by_contra fun hne => append_ne_append d a b hne h, fun h => by rw [h]⟩

/-- Rotations that all return have renamed the three files, which existed. -/
theorem rotate_previous_snapshot_returned (parameters : RestartParameters)
    (faults : SnapshotFaults) (files files' : FileSystem)
    (h : rotate_previous_snapshot parameters faults files = .returned files') :
    files' = rotated_files parameters files
      ∧ (files (parameters.output_directory ++ "restart.mesh")).isSome = true
      ∧ (files (parameters.output_directory ++ "restart.mesh.info")).isSome = true
      ∧ (files (parameters.output_directory ++ "restart.resume.z")).isSome = true := by
  unfold rotate_previous_snapshot at h
  cases h1 : move_file faults.move_mesh (parameters.output_directory ++ "restart.mesh")
      (parameters.output_directory ++ "restart.mesh.old") files with
  | threw m f => rw [h1] at h; simp at h
  | returned f1 =>
    rw [h1] at h
    simp only at h
    cases h2 : move_file faults.move_mesh_info
        (parameters.output_directory ++ "restart.mesh.info")
        (parameters.output_directory ++ "restart.mesh.info.old") f1 with
    | threw m f => rw [h2] at h; simp at h
    | returned f2 =>
      rw [h2] at h
      simp only at h
      obtain ⟨e1, s1⟩ := move_file_returned _ _ _ _ _
        (append_ne_append _ _ _ (by decide)) h1
      obtain ⟨e2, s2⟩ := move_file_returned _ _ _ _ _
        (append_ne_append _ _ _ (by decide)) h2
      obtain ⟨e3, s3⟩ := move_file_returned _ _ _ _ _
        (append_ne_append _ _ _ (by decide)) h
      subst e1 e2
      refine ⟨e3, s1, ?_, ?_⟩
      · simpa [rename_file, Function.update_apply, append_eq_append_iff] using s2
      · simpa [rename_file, Function.update_apply, append_eq_append_iff] using s3

/-- What the rotated files are, name by name. -/
theorem rotated_files_apply (parameters : RestartParameters) (files : FileSystem) :
    (rotated_files parameters files (parameters.output_directory ++ "restart.mesh.old")
        = files (parameters.output_directory ++ "restart.mesh")
      ∧ rotated_files parameters files (parameters.output_directory ++ "restart.mesh.info.old")
        = files (parameters.output_directory ++ "restart.mesh.info")
      ∧ rotated_files parameters files (parameters.output_directory ++ "restart.resume.z.old")
        = files (parameters.output_directory ++ "restart.resume.z"))
      ∧ (rotated_files parameters files (parameters.output_directory ++ "restart.mesh") = none
      ∧ rotated_files parameters files (parameters.output_directory ++ "restart.mesh.info")
        = none
      ∧ rotated_files parameters files (parameters.output_directory ++ "restart.resume.z")
        = none)
      ∧ ∀ x, x ∉ restart_file_names parameters → rotated_files parameters files x = files x := by
  refine ⟨⟨?_, ?_, ?_⟩, ⟨?_, ?_, ?_⟩, ?_⟩
  all_goals try simp [rotated_files, rename_file, Function.update_apply, append_eq_append_iff]
  intro x hx
  simp only [restart_file_names, List.mem_cons, List.mem_singleton, List.not_mem_nil,
    or_false, not_or] at hx
  obtain ⟨h1, h2, h3, h4, h5, h6⟩ := hx
  simp [rotated_files, rename_file, Function.update_apply, h1, h2, h3, h4, h5, h6]

/-- Rotations of which one throws leave each of the three files under its
current or under its `.old` name, and touch no file that is not a restart file. -/
theorem rotate_previous_snapshot_threw (parameters : RestartParameters)
    (faults : SnapshotFaults) (files files' : FileSystem) (message : String)
    (h : rotate_previous_snapshot parameters faults files = .threw message files') :
    ((files' (parameters.output_directory ++ "restart.mesh")
          = files (parameters.output_directory ++ "restart.mesh")
        ∨ files' (parameters.output_directory ++ "restart.mesh.old")
          = files (parameters.output_directory ++ "restart.mesh"))
      ∧ (files' (parameters.output_directory ++ "restart.mesh.info")
          = files (parameters.output_directory ++ "restart.mesh.info")
        ∨ files' (parameters.output_directory ++ "restart.mesh.info.old")
          = files (parameters.output_directory ++ "restart.mesh.info"))
      ∧ (files' (parameters.output_directory ++ "restart.resume.z")
          = files (parameters.output_directory ++ "restart.resume.z")
        ∨ files' (parameters.output_directory ++ "restart.resume.z.old")
          = files (parameters.output_directory ++ "restart.resume.z")))
      ∧ ∀ x, x ∉ restart_file_names parameters → files' x = files x := by
  unfold rotate_previous_snapshot at h
  cases h1 : move_file faults.move_mesh (parameters.output_directory ++ "restart.mesh")
      (parameters.output_directory ++ "restart.mesh.old") files with
  | threw m f =>
    rw [h1] at h
    simp only [Outcome.threw.injEq] at h
    obtain ⟨-, k⟩ := move_file_threw _ _ _ _ _ _ (append_ne_append _ _ _ (by decide)) h1
    rw [← h.2]
    refine ⟨⟨Or.inl (k _ (append_ne_append _ _ _ (by decide))),
      Or.inl (k _ (append_ne_append _ _ _ (by decide))),
      Or.inl (k _ (append_ne_append _ _ _ (by decide)))⟩, fun x hx => k x ?_⟩
    intro hx2
    exact hx (by simp [restart_file_names, hx2])
  | returned f1 =>
    rw [h1] at h
    simp only at h
    obtain ⟨e1, -⟩ := move_file_returned _ _ _ _ _ (append_ne_append _ _ _ (by decide)) h1
    cases h2 : move_file faults.move_mesh_info
        (parameters.output_directory ++ "restart.mesh.info")
        (parameters.output_directory ++ "restart.mesh.info.old") f1 with
    | threw m f =>
      rw [h2] at h
      simp only [Outcome.threw.injEq] at h
      obtain ⟨-, k⟩ := move_file_threw _ _ _ _ _ _ (append_ne_append _ _ _ (by decide)) h2
      rw [← h.2]
      refine ⟨⟨Or.inr ?_, Or.inl ?_, Or.inl ?_⟩, fun x hx => ?_⟩
      · rw [k _ (append_ne_append _ _ _ (by decide)), e1]
        simp [rename_file, Function.update_apply, append_eq_append_iff]
      · rw [k _ (append_ne_append _ _ _ (by decide)), e1]
        simp [rename_file, Function.update_apply, append_eq_append_iff]
      · rw [k _ (append_ne_append _ _ _ (by decide)), e1]
        simp [rename_file, Function.update_apply, append_eq_append_iff]
      · simp only [restart_file_names, List.mem_cons, List.mem_singleton, List.not_mem_nil,
          or_false, not_or] at hx
        obtain ⟨x1, x2, x3, x4, x5, x6⟩ := hx
        rw [k x x5, e1]
        simp [rename_file, Function.update_apply, x1, x4]
    | returned f2 =>
      rw [h2] at h
      simp only at h
      obtain ⟨e2, -⟩ := move_file_returned _ _ _ _ _ (append_ne_append _ _ _ (by decide)) h2
      obtain ⟨-, k⟩ := move_file_threw _ _ _ _ _ _ (append_ne_append _ _ _ (by decide)) h
      refine ⟨⟨Or.inr ?_, Or.inr ?_, Or.inl ?_⟩, fun x hx => ?_⟩
      · rw [k _ (append_ne_append _ _ _ (by decide)), e2, e1]
        simp [rename_file, Function.update_apply, append_eq_append_iff]
      · rw [k _ (append_ne_append _ _ _ (by decide)), e2, e1]
        simp [rename_file, Function.update_apply, append_eq_append_iff]
      · rw [k _ (append_ne_append _ _ _ (by decide)), e2, e1]
        simp [rename_file, Function.update_apply, append_eq_append_iff]
      · simp only [restart_file_names, List.mem_cons, List.mem_singleton, List.not_mem_nil,
          or_false, not_or] at hx
        obtain ⟨x1, x2, x3, x4, x5, x6⟩ := hx
        rw [k x x6, e2, e1]
        simp [rename_file, Function.update_apply, x1, x2, x4, x5]

section RestartFacts

variable {α π μ ν : Type}

/-- What `triangulation.save` and the write of `restart.resume.z` leave: the
three current files of the snapshot, and every other file as it was. -/
theorem written_files (env : Collaborators α π μ ν) (parameters : RestartParameters)
    (sim : RestartSimulator α π μ ν) (files : FileSystem) (left : Option FileContent) :
    (Function.update
          (triangulation_save env (parameters.output_directory ++ "restart.mesh") sim files)
          (parameters.output_directory ++ "restart.resume.z") left
          (parameters.output_directory ++ "restart.mesh")
        = some (env.mesh_file sim.triangulation sim.solution_vectors)
      ∧ Function.update
          (triangulation_save env (parameters.output_directory ++ "restart.mesh") sim files)
          (parameters.output_directory ++ "restart.resume.z") left
          (parameters.output_directory ++ "restart.mesh.info")
        = some (env.info_file sim.triangulation)
      ∧ Function.update
          (triangulation_save env (parameters.output_directory ++ "restart.mesh") sim files)
          (parameters.output_directory ++ "restart.resume.z") left
          (parameters.output_directory ++ "restart.resume.z")
        = left)
      ∧ ∀ x, x ≠ parameters.output_directory ++ "restart.mesh" →
          x ≠ parameters.output_directory ++ "restart.mesh.info" →
          x ≠ parameters.output_directory ++ "restart.resume.z" →
          Function.update
            (triangulation_save env (parameters.output_directory ++ "restart.mesh") sim files)
            (parameters.output_directory ++ "restart.resume.z") left x
          = files x := by
  unfold triangulation_save
  rw [restart_mesh_info_name]
  refine ⟨⟨?_, ?_, ?_⟩, fun x h1 h2 h3 => ?_⟩
  · simp [Function.update_apply, append_eq_append_iff]
  · simp [Function.update_apply, append_eq_append_iff]
  · simp [Function.update_apply, append_eq_append_iff]
  · simp [Function.update_apply, h1, h2, h3]

/-- A name that is not a restart file is none of the three current names. -/
theorem not_restart_file_name (parameters : RestartParameters) (x : String)
    (hx : x ∉ restart_file_names parameters) :
    x ≠ parameters.output_directory ++ "restart.mesh"
      ∧ x ≠ parameters.output_directory ++ "restart.mesh.info"
      ∧ x ≠ parameters.output_directory ++ "restart.resume.z" := by
  simp only [restart_file_names, List.mem_cons, List.mem_singleton, List.not_mem_nil,
    or_false, not_or] at hx
  exact ⟨hx.1, hx.2.1, hx.2.2.1⟩

/-- What a `create_snapshot` that returns has done. -/
theorem create_snapshot_returned (env : Collaborators α π μ ν)
    (parameters : RestartParameters) (faults : SnapshotFaults)
    (sim : RestartSimulator α π μ ν) (world world' : RestartWorld)
    (h : create_snapshot env parameters faults sim world = .returned world') :
    world'.previous_snapshot_exists = some true
      ∧ current_files_hold env parameters sim world'.files
      ∧ (∀ x, x ∉ restart_file_names parameters → world'.files x = world.files x)
      ∧ (previous_snapshot_exists parameters world = true →
          (world'.files (parameters.output_directory ++ "restart.mesh.old")
              = world.files (parameters.output_directory ++ "restart.mesh")
            ∧ world'.files (parameters.output_directory ++ "restart.mesh.info.old")
              = world.files (parameters.output_directory ++ "restart.mesh.info")
            ∧ world'.files (parameters.output_directory ++ "restart.resume.z.old")
              = world.files (parameters.output_directory ++ "restart.resume.z"))
          ∧ (world.files (parameters.output_directory ++ "restart.mesh")).isSome = true
          ∧ (world.files (parameters.output_directory ++ "restart.mesh.info")).isSome = true
          ∧ (world.files (parameters.output_directory ++ "restart.resume.z")).isSome = true)
      ∧ (previous_snapshot_exists parameters world = false →
          ∀ x, x ≠ parameters.output_directory ++ "restart.mesh" →
            x ≠ parameters.output_directory ++ "restart.mesh.info" →
            x ≠ parameters.output_directory ++ "restart.resume.z" →
            world'.files x = world.files x) := by
  unfold create_snapshot at h
  by_cases hp : previous_snapshot_exists parameters world = true
  · simp only [hp, if_true] at h
    cases hr : rotate_previous_snapshot parameters faults world.files with
    | threw m f => rw [hr] at h; simp at h
    | returned f =>
      rw [hr] at h
      obtain ⟨ef, s1, s2, s3⟩ := rotate_previous_snapshot_returned _ _ _ _ hr
      obtain ⟨⟨a1, a2, a3⟩, -, a7⟩ := rotated_files_apply parameters world.files
      cases hs : faults.stream_fails with
      | some left => rw [hs] at h; simp at h
      | none =>
        rw [hs] at h
        simp only [Outcome.returned.injEq] at h
        obtain ⟨⟨w1, w2, w3⟩, w4⟩ := written_files env parameters sim f (some (resume_file env sim))
        rw [← h]
        refine ⟨rfl, ⟨w1, w2, w3⟩, fun x hx => ?_, fun _ => ⟨⟨?_, ?_, ?_⟩, s1, s2, s3⟩,
          fun hf => absurd hp (by simp [hf])⟩
        · obtain ⟨x1, x2, x3⟩ := not_restart_file_name parameters x hx
          simp only
          rw [w4 x x1 x2 x3, ef, a7 x hx]
        · simp only
          rw [w4 _ (append_ne_append _ _ _ (by decide)) (append_ne_append _ _ _ (by decide))
            (append_ne_append _ _ _ (by decide)), ef, a1]
        · simp only
          rw [w4 _ (append_ne_append _ _ _ (by decide)) (append_ne_append _ _ _ (by decide))
            (append_ne_append _ _ _ (by decide)), ef, a2]
        · simp only
          rw [w4 _ (append_ne_append _ _ _ (by decide)) (append_ne_append _ _ _ (by decide))
            (append_ne_append _ _ _ (by decide)), ef, a3]
  · have hp2 : previous_snapshot_exists parameters world = false := by simpa using hp
    simp only [hp2, Bool.false_eq_true, if_false] at h
    cases hs : faults.stream_fails with
    | some left => rw [hs] at h; simp at h
    | none =>
      rw [hs] at h
      simp only [Outcome.returned.injEq] at h
      obtain ⟨⟨w1, w2, w3⟩, w4⟩ :=
        written_files env parameters sim world.files (some (resume_file env sim))
      rw [← h]
      refine ⟨rfl, ⟨w1, w2, w3⟩, fun x hx => ?_, fun hf => absurd hf hp, fun _ => w4⟩
      obtain ⟨x1, x2, x3⟩ := not_restart_file_name parameters x hx
      exact w4 x x1 x2 x3

/-- What a `create_snapshot` that throws leaves behind. -/
theorem create_snapshot_threw (env : Collaborators α π μ ν)
    (parameters : RestartParameters) (faults : SnapshotFaults)
    (sim : RestartSimulator α π μ ν) (world world' : RestartWorld) (message : String)
    (h : create_snapshot env parameters faults sim world = .threw message world') :
    world'.previous_snapshot_exists = some true
      ∧ (∀ x, x ∉ restart_file_names parameters → world'.files x = world.files x)
      ∧ (previous_snapshot_exists parameters world = true →
          (world'.files (parameters.output_directory ++ "restart.mesh")
              = world.files (parameters.output_directory ++ "restart.mesh")
            ∨ world'.files (parameters.output_directory ++ "restart.mesh.old")
              = world.files (parameters.output_directory ++ "restart.mesh"))
          ∧ (world'.files (parameters.output_directory ++ "restart.mesh.info")
              = world.files (parameters.output_directory ++ "restart.mesh.info")
            ∨ world'.files (parameters.output_directory ++ "restart.mesh.info.old")
              = world.files (parameters.output_directory ++ "restart.mesh.info"))
          ∧ (world'.files (parameters.output_directory ++ "restart.resume.z")
              = world.files (parameters.output_directory ++ "restart.resume.z")
            ∨ world'.files (parameters.output_directory ++ "restart.resume.z.old")
              = world.files (parameters.output_directory ++ "restart.resume.z"))) := by
  unfold create_snapshot at h
  by_cases hp : previous_snapshot_exists parameters world = true
  · simp only [hp, if_true] at h
    cases hr : rotate_previous_snapshot parameters faults world.files with
    | threw m f =>
      rw [hr] at h
      simp only [Outcome.threw.injEq] at h
      obtain ⟨k1, k2⟩ := rotate_previous_snapshot_threw _ _ _ _ _ hr
      rw [← h.2]
      exact ⟨rfl, k2, fun _ => k1⟩
    | returned f =>
      rw [hr] at h
      obtain ⟨ef, -⟩ := rotate_previous_snapshot_returned _ _ _ _ hr
      obtain ⟨⟨a1, a2, a3⟩, -, a7⟩ := rotated_files_apply parameters world.files
      cases hs : faults.stream_fails with
      | none => rw [hs] at h; simp at h
      | some left =>
        rw [hs] at h
        simp only [Outcome.threw.injEq] at h
        obtain ⟨-, w4⟩ := written_files env parameters sim f left
        rw [← h.2]
        refine ⟨rfl, fun x hx => ?_, fun _ => ⟨Or.inr ?_, Or.inr ?_, Or.inr ?_⟩⟩
        · obtain ⟨x1, x2, x3⟩ := not_restart_file_name parameters x hx
          simp only
          rw [w4 x x1 x2 x3, ef, a7 x hx]
        · simp only
          rw [w4 _ (append_ne_append _ _ _ (by decide)) (append_ne_append _ _ _ (by decide))
            (append_ne_append _ _ _ (by decide)), ef, a1]
        · simp only
          rw [w4 _ (append_ne_append _ _ _ (by decide)) (append_ne_append _ _ _ (by decide))
            (append_ne_append _ _ _ (by decide)), ef, a2]
        · simp only
          rw [w4 _ (append_ne_append _ _ _ (by decide)) (append_ne_append _ _ _ (by decide))
            (append_ne_append _ _ _ (by decide)), ef, a3]
  · have hp2 : previous_snapshot_exists parameters world = false := by simpa using hp
    simp only [hp2, Bool.false_eq_true, if_false] at h
    cases hs : faults.stream_fails with
    | none => rw [hs] at h; simp at h
    | some left =>
      rw [hs] at h
      simp only [Outcome.threw.injEq] at h
      obtain ⟨-, w4⟩ := written_files env parameters sim world.files left
      rw [← h.2]
      refine ⟨rfl, fun x hx => ?_, fun hf => absurd hf hp⟩
      obtain ⟨x1, x2, x3⟩ := not_restart_file_name parameters x hx
      exact w4 x x1 x2 x3

/-- A run starts with its first call. -/
theorem snapshot_run_cons (env : Collaborators α π μ ν) (parameters : RestartParameters)
    (faults : SnapshotFaults) (sim : RestartSimulator α π μ ν)
    (calls : List (SnapshotFaults × RestartSimulator α π μ ν)) (world : RestartWorld) :
    snapshot_run env parameters ((faults, sim) :: calls) world
      = match create_snapshot env parameters faults sim world with
        | .returned world => snapshot_run env parameters calls world
        | .threw message world => .threw message world := rfl

/-- A run that returns leaves every file that is not a restart file as it was. -/
theorem snapshot_run_other_files (env : Collaborators α π μ ν)
    (parameters : RestartParameters)
    (calls : List (SnapshotFaults × RestartSimulator α π μ ν)) (world world' : RestartWorld)
    (h : snapshot_run env parameters calls world = .returned world') :
    ∀ x, x ∉ restart_file_names parameters → world'.files x = world.files x := by
  induction calls generalizing world with
  | nil =>
    simp only [snapshot_run, Outcome.returned.injEq] at h
    intro x _
    rw [h]
  | cons c calls ih =>
    obtain ⟨faults, sim⟩ := c
    rw [snapshot_run_cons] at h
    cases hc : create_snapshot env parameters faults sim world with
    | threw m w => rw [hc] at h; simp at h
    | returned w =>
      rw [hc] at h
      intro x hx
      rw [ih w h x hx]
      exact (create_snapshot_returned env parameters faults sim world w hc).2.2.1 x hx

/-- A run is the run of its first calls followed by the run of the others. -/
theorem snapshot_run_append (env : Collaborators α π μ ν) (parameters : RestartParameters)
    (calls calls' : List (SnapshotFaults × RestartSimulator α π μ ν))
    (world world' : RestartWorld)
    (h : snapshot_run env parameters (calls ++ calls') world = .returned world') :
    ∃ w, snapshot_run env parameters calls world = .returned w
      ∧ snapshot_run env parameters calls' w = .returned world' := by
  induction calls generalizing world with
  | nil => exact ⟨world, rfl, h⟩
  | cons c calls ih =>
    obtain ⟨faults, sim⟩ := c
    rw [List.cons_append, snapshot_run_cons] at h
    rw [snapshot_run_cons]
    cases hc : create_snapshot env parameters faults sim world with
    | threw m w => rw [hc] at h; simp at h
    | returned w =>
      rw [hc] at h
      exact ih w h

end RestartFacts

/-- C11: after a run of `n ≥ 2` calls of `create_snapshot` that all returned, the
current restart files are those of the last snapshot, the `.old` files those of
the snapshot before it, and every file that is not one of the six restart files
is as it was before the run: two generations, never a third.  Three calls are
the case of one earlier call. -/
theorem snapshot_run_keeps_two_generations {α π μ ν : Type} (env : Collaborators α π μ ν)
    (parameters : RestartParameters)
    (earlier : List (SnapshotFaults × RestartSimulator α π μ ν))
    (faults faults' : SnapshotFaults) (before_last last : RestartSimulator α π μ ν)
    (world world' : RestartWorld)
    (h : snapshot_run env parameters (earlier ++ [(faults, before_last), (faults', last)]) world
      = .returned world') :
    current_files_hold env parameters last world'.files
      ∧ old_files_hold env parameters before_last world'.files
      ∧ ∀ x, x ∉ restart_file_names parameters → world'.files x = world.files x := by
  refine ⟨?_, ?_, snapshot_run_other_files env parameters _ world world' h⟩
  all_goals
    obtain ⟨w, -, h2⟩ := snapshot_run_append env parameters _ _ world world' h
    rw [snapshot_run_cons] at h2
    cases hc : create_snapshot env parameters faults before_last w with
    | threw m w1 => rw [hc] at h2; simp at h2
    | returned w1 =>
      rw [hc] at h2
      simp only at h2
      rw [snapshot_run_cons] at h2
      cases hc2 : create_snapshot env parameters faults' last w1 with
      | threw m w2 => rw [hc2] at h2; simp at h2
      | returned w2 =>
        rw [hc2] at h2
        simp only [snapshot_run, Outcome.returned.injEq] at h2
        subst h2
        obtain ⟨p1, c1, -⟩ := create_snapshot_returned env parameters _ _ _ _ hc
        obtain ⟨-, c2, -, o2, -⟩ := create_snapshot_returned env parameters _ _ _ _ hc2
        first
        | exact c2
        | have hp : previous_snapshot_exists parameters w1 = true := by
            simp [previous_snapshot_exists, p1]
          obtain ⟨⟨o21, o22, o23⟩, -⟩ := o2 hp
          exact ⟨o21.trans c1.1, o22.trans c1.2.1, o23.trans c1.2.2⟩

/-- Witness for C11: three snapshots into the empty directory `output/`; the
current files are those of the third, the `.old` files those of the second. -/
theorem snapshot_run_keeps_two_generations_witness :
    current_files_hold stored_collaborators fresh_run_parameters (simulator_at_snapshot 3)
        (snapshot_run stored_collaborators fresh_run_parameters
          [(no_faults, simulator_at_snapshot 1), (no_faults, simulator_at_snapshot 2),
           (no_faults, simulator_at_snapshot 3)] empty_disk).state.files
      ∧ old_files_hold stored_collaborators fresh_run_parameters (simulator_at_snapshot 2)
        (snapshot_run stored_collaborators fresh_run_parameters
          [(no_faults, simulator_at_snapshot 1), (no_faults, simulator_at_snapshot 2),
           (no_faults, simulator_at_snapshot 3)] empty_disk).state.files :=
  have h : snapshot_run stored_collaborators fresh_run_parameters
      ([(no_faults, simulator_at_snapshot 1)]
        ++ [(no_faults, simulator_at_snapshot 2), (no_faults, simulator_at_snapshot 3)])
      empty_disk
      = .returned (snapshot_run stored_collaborators fresh_run_parameters
          [(no_faults, simulator_at_snapshot 1), (no_faults, simulator_at_snapshot 2),
           (no_faults, simulator_at_snapshot 3)] empty_disk).state := by
    simp [snapshot_run, create_snapshot, previous_snapshot_exists, rotate_previous_snapshot,
      move_file, rename_file, triangulation_save, Function.update_apply, fresh_run_parameters,
      empty_disk, no_faults, Outcome.state]
  have k := snapshot_run_keeps_two_generations stored_collaborators fresh_run_parameters
    [(no_faults, simulator_at_snapshot 1)] no_faults no_faults (simulator_at_snapshot 2)
    (simulator_at_snapshot 3) empty_disk _ h
  ⟨k.1, k.2.1⟩

/-- C12: the static variable `previous_snapshot_exists` is true after every call
of `create_snapshot`, and on the first call of a resumed run.  When it is true,
a call that returns has first moved `restart.mesh`, `restart.mesh.info` and
`restart.resume.z`, which existed, to their `.old` names and then written the
new snapshot onto the rotated files, so that each `.old` file holds what the
current file held before the call.  On the first call of a run that is not
resumed no file but the three current ones changes: nothing is moved. -/
theorem create_snapshot_rotates_before_writing {α π μ ν : Type}
    (env : Collaborators α π μ ν) (parameters : RestartParameters) (faults : SnapshotFaults)
    (sim : RestartSimulator α π μ ν) (world : RestartWorld) :
    (∀ faults₀ sim₀ world₀,
        world = (create_snapshot env parameters faults₀ sim₀ world₀).state →
        previous_snapshot_exists parameters world = true)
      ∧ (world.previous_snapshot_exists = none → parameters.resume_computation = true →
        previous_snapshot_exists parameters world = true)
      ∧ (previous_snapshot_exists parameters world = true →
        ∀ world', create_snapshot env parameters faults sim world = .returned world' →
          rotate_previous_snapshot parameters faults world.files
              = .returned (rotated_files parameters world.files)
            ∧ world'.files
              = Function.update
                  (triangulation_save env (parameters.output_directory ++ "restart.mesh") sim
                    (rotated_files parameters world.files))
                  (parameters.output_directory ++ "restart.resume.z")
                  (some (resume_file env sim))
            ∧ (world.files (parameters.output_directory ++ "restart.mesh")).isSome = true
            ∧ (world.files (parameters.output_directory ++ "restart.mesh.info")).isSome = true
            ∧ (world.files (parameters.output_directory ++ "restart.resume.z")).isSome = true
            ∧ world'.files (parameters.output_directory ++ "restart.mesh.old")
              = world.files (parameters.output_directory ++ "restart.mesh")
            ∧ world'.files (parameters.output_directory ++ "restart.mesh.info.old")
              = world.files (parameters.output_directory ++ "restart.mesh.info")
            ∧ world'.files (parameters.output_directory ++ "restart.resume.z.old")
              = world.files (parameters.output_directory ++ "restart.resume.z"))
      ∧ (world.previous_snapshot_exists = none → parameters.resume_computation = false →
        ∀ x, x ≠ parameters.output_directory ++ "restart.mesh" →
          x ≠ parameters.output_directory ++ "restart.mesh.info" →
          x ≠ parameters.output_directory ++ "restart.resume.z" →
          (create_snapshot env parameters faults sim world).state.files x = world.files x) := by
  refine ⟨?_, ?_, ?_, ?_⟩
  · intro faults₀ sim₀ world₀ hw
    have hstate : (create_snapshot env parameters faults₀ sim₀ world₀).state.previous_snapshot_exists
        = some true := by
      cases hc : create_snapshot env parameters faults₀ sim₀ world₀ with
      | returned w => exact (create_snapshot_returned env parameters _ _ _ _ hc).1
      | threw m w => exact (create_snapshot_threw env parameters _ _ _ _ _ hc).1
    rw [← hw] at hstate
    simp [previous_snapshot_exists, hstate]
  · intro h1 h2
    simp [previous_snapshot_exists, h1, h2]
  · intro hp world' hc
    obtain ⟨-, -, -, o, -⟩ := create_snapshot_returned env parameters _ _ _ _ hc
    obtain ⟨⟨o1, o2, o3⟩, s1, s2, s3⟩ := o hp
    have hc2 := hc
    unfold create_snapshot at hc2
    simp only [hp, if_true] at hc2
    cases hr : rotate_previous_snapshot parameters faults world.files with
    | threw m f => rw [hr] at hc2; simp at hc2
    | returned f =>
      rw [hr] at hc2
      obtain ⟨ef, -⟩ := rotate_previous_snapshot_returned _ _ _ _ hr
      cases hs : faults.stream_fails with
      | some left => rw [hs] at hc2; simp at hc2
      | none =>
        rw [hs] at hc2
        simp only [Outcome.returned.injEq] at hc2
        refine ⟨by rw [ef], ?_, s1, s2, s3, o1, o2, o3⟩
        rw [← hc2, ef]
  · intro h1 h2 x x1 x2 x3
    have hp : previous_snapshot_exists parameters world = false := by
      simp [previous_snapshot_exists, h1, h2]
    unfold create_snapshot
    simp only [hp, Bool.false_eq_true, if_false]
    cases hs : faults.stream_fails with
    | some left =>
      exact (written_files env parameters sim world.files left).2 x x1 x2 x3
    | none =>
      exact (written_files env parameters sim world.files (some (resume_file env sim))).2 x x1 x2 x3

/-- Witness for C12: the second snapshot of a run moves the files of the first
to their `.old` names. -/
theorem create_snapshot_rotates_before_writing_witness :
    old_files_hold stored_collaborators fresh_run_parameters (simulator_at_snapshot 1)
      (create_snapshot stored_collaborators fresh_run_parameters no_faults
        (simulator_at_snapshot 2)
        (create_snapshot stored_collaborators fresh_run_parameters no_faults
          (simulator_at_snapshot 1) empty_disk).state).state.files :=
  have h1 : create_snapshot stored_collaborators fresh_run_parameters no_faults
      (simulator_at_snapshot 1) empty_disk
      = .returned (create_snapshot stored_collaborators fresh_run_parameters no_faults
          (simulator_at_snapshot 1) empty_disk).state := by
    simp [create_snapshot, previous_snapshot_exists, fresh_run_parameters, empty_disk,
      no_faults, Outcome.state]
  have h2 : create_snapshot stored_collaborators fresh_run_parameters no_faults
      (simulator_at_snapshot 2)
      (create_snapshot stored_collaborators fresh_run_parameters no_faults
        (simulator_at_snapshot 1) empty_disk).state
      = .returned (create_snapshot stored_collaborators fresh_run_parameters no_faults
          (simulator_at_snapshot 2)
          (create_snapshot stored_collaborators fresh_run_parameters no_faults
            (simulator_at_snapshot 1) empty_disk).state).state := by
    simp [create_snapshot, previous_snapshot_exists, rotate_previous_snapshot,
      move_file, rename_file, triangulation_save, Function.update_apply, fresh_run_parameters,
      empty_disk, no_faults, Outcome.state]
  have c := (create_snapshot_returned _ _ _ _ _ _ h1).2.1
  have k := create_snapshot_rotates_before_writing stored_collaborators fresh_run_parameters
    no_faults (simulator_at_snapshot 2)
    (create_snapshot stored_collaborators fresh_run_parameters no_faults
      (simulator_at_snapshot 1) empty_disk).state
  have r := k.2.2.1 (k.1 no_faults (simulator_at_snapshot 1) empty_disk rfl) _ h2
  ⟨r.2.2.2.2.2.1.trans c.1, r.2.2.2.2.2.2.1.trans c.2.1, r.2.2.2.2.2.2.2.trans c.2.2⟩

/-- C13 (as stated, refuted): the first snapshot is written in full; the writing
of the second and of the third fails part-way (the stream of `restart.resume.z`
fails and leaves a truncated file).  The third call has rotated the partial
second snapshot over the `.old` files: no file of the first snapshot, the most
recent one written in full, is on disk any more. -/
theorem two_failed_snapshots_lose_the_last_good_one :
    (create_snapshot stored_collaborators fresh_run_parameters no_faults
        (simulator_at_snapshot 1) empty_disk).is_returned = true
      ∧ (create_snapshot stored_collaborators fresh_run_parameters truncated_write
          (simulator_at_snapshot 2)
          (create_snapshot stored_collaborators fresh_run_parameters no_faults
            (simulator_at_snapshot 1) empty_disk).state).is_returned = false
      ∧ (create_snapshot stored_collaborators fresh_run_parameters truncated_write
          (simulator_at_snapshot 3)
          (create_snapshot stored_collaborators fresh_run_parameters truncated_write
            (simulator_at_snapshot 2)
            (create_snapshot stored_collaborators fresh_run_parameters no_faults
              (simulator_at_snapshot 1) empty_disk).state).state).is_returned = false
      ∧ ¬ snapshot_on_disk stored_collaborators fresh_run_parameters (simulator_at_snapshot 1)
          (create_snapshot stored_collaborators fresh_run_parameters truncated_write
            (simulator_at_snapshot 3)
            (create_snapshot stored_collaborators fresh_run_parameters truncated_write
              (simulator_at_snapshot 2)
              (create_snapshot stored_collaborators fresh_run_parameters no_faults
                (simulator_at_snapshot 1) empty_disk).state).state).state.files := by
  simp [create_snapshot, previous_snapshot_exists, rotate_previous_snapshot, move_file,
    rename_file, triangulation_save, Function.update_apply, fresh_run_parameters, empty_disk,
    no_faults, truncated_write, Outcome.state, Outcome.is_returned, snapshot_on_disk,
    stored_collaborators, simulator_at_snapshot, resume_file, compression_header]

/-- C13 (amended): a snapshot that `create_snapshot` has written in full is on
disk under the current names, and when the next call of `create_snapshot` fails
part-way, in a rotation or in the write of `restart.resume.z`, every file of
that snapshot is still on disk, under its current or under its `.old` name. -/
theorem last_snapshot_survives_one_failure {α π μ ν : Type} (env : Collaborators α π μ ν)
    (parameters : RestartParameters) (faults : SnapshotFaults)
    (sim : RestartSimulator α π μ ν) (world world₁ : RestartWorld)
    (h : create_snapshot env parameters faults sim world = .returned world₁) :
    current_files_hold env parameters sim world₁.files
      ∧ ∀ faults₂ sim₂ message world₂,
          create_snapshot env parameters faults₂ sim₂ world₁ = .threw message world₂ →
          snapshot_on_disk env parameters sim world₂.files := by
  obtain ⟨p1, c1, -⟩ := create_snapshot_returned env parameters _ _ _ _ h
  refine ⟨c1, fun faults₂ sim₂ message world₂ h2 => ?_⟩
  have hp : previous_snapshot_exists parameters world₁ = true := by
    simp [previous_snapshot_exists, p1]
  obtain ⟨k1, k2, k3⟩ := (create_snapshot_threw env parameters _ _ _ _ _ h2).2.2 hp
  obtain ⟨c11, c12, c13⟩ := c1
  rw [c11] at k1
  rw [c12] at k2
  rw [c13] at k3
  exact ⟨k1, k2, k3⟩

/-- Witness for C13 (amended): the first snapshot is written in full, the writing
of the second fails; the first is on disk (under the `.old` names). -/
theorem last_snapshot_survives_one_failure_witness :
    snapshot_on_disk stored_collaborators fresh_run_parameters (simulator_at_snapshot 1)
      (create_snapshot stored_collaborators fresh_run_parameters truncated_write
        (simulator_at_snapshot 2)
        (create_snapshot stored_collaborators fresh_run_parameters no_faults
          (simulator_at_snapshot 1) empty_disk).state).state.files :=
  have h1 : create_snapshot stored_collaborators fresh_run_parameters no_faults
      (simulator_at_snapshot 1) empty_disk
      = .returned (create_snapshot stored_collaborators fresh_run_parameters no_faults
          (simulator_at_snapshot 1) empty_disk).state := by
    simp [create_snapshot, previous_snapshot_exists, fresh_run_parameters, empty_disk,
      no_faults, Outcome.state]
  have h2 : create_snapshot stored_collaborators fresh_run_parameters truncated_write
      (simulator_at_snapshot 2)
      (create_snapshot stored_collaborators fresh_run_parameters no_faults
        (simulator_at_snapshot 1) empty_disk).state
      = .threw "Writing of the checkpoint file failed on processor 0."
          (create_snapshot stored_collaborators fresh_run_parameters truncated_write
            (simulator_at_snapshot 2)
            (create_snapshot stored_collaborators fresh_run_parameters no_faults
              (simulator_at_snapshot 1) empty_disk).state).state := by
    simp [create_snapshot, previous_snapshot_exists, rotate_previous_snapshot,
      move_file, rename_file, triangulation_save, Function.update_apply, fresh_run_parameters,
      empty_disk, no_faults, truncated_write, Outcome.state]
  (last_snapshot_survives_one_failure stored_collaborators fresh_run_parameters no_faults
    (simulator_at_snapshot 1) empty_disk _ h1).2 _ _ _ _ h2

/-- C14: the file `restart.resume.z` that `create_snapshot` writes holds the four
words `1, L, L, C` modulo `2^32` and then the `C` chars of the compressed data,
`L` being the length of the serialized scalar state and `C` that of its
compressed form; `resume_from_snapshot` takes the number of compressed chars to
read from word 3 of the header and the size of the uncompressed data from
word 1, and hands what it has read to `uncompress`. -/
theorem resume_file_layout {α π μ ν : Type} (env : Collaborators α π μ ν)
    (parameters : RestartParameters) (faults : SnapshotFaults)
    (sim : RestartSimulator α π μ ν) (world world' : RestartWorld)
    (h : create_snapshot env parameters faults sim world = .returned world') :
    world'.files (parameters.output_directory ++ "restart.resume.z")
        = some
            { header :=
                [1, (env.oarchive sim.members).length % 2 ^ 32,
                 (env.oarchive sim.members).length % 2 ^ 32,
                 (env.compress2 (env.oarchive sim.members)).length % 2 ^ 32],
              data := env.compress2 (env.oarchive sim.members) }
      ∧ read_compression_header env (resume_file env sim) 3
        = (env.compress2 (env.oarchive sim.members)).length % 2 ^ 32
      ∧ read_compression_header env (resume_file env sim) 1
        = (env.oarchive sim.members).length % 2 ^ 32
      ∧ ∀ (files : FileSystem) (sim₀ : RestartSimulator α π μ ν) (mesh resume : FileContent)
          (triangulation : μ),
          files (parameters.output_directory ++ "restart.mesh") = some mesh →
          files (parameters.output_directory ++ "restart.resume.z") = some resume →
          env.triangulation_load mesh
              (files (parameters.output_directory ++ "restart.mesh" ++ ".info"))
            = some triangulation →
          resume_from_snapshot env parameters files sim₀
            = match env.uncompress
                  (istream_read resume.data (read_compression_header env resume 3))
                  (read_compression_header env resume 1) with
              | .error _ =>
                .threw "Cannot seem to deserialize the data previously stored!"
                  { sim₀ with triangulation := triangulation,
                              solution_vectors := env.deserialize triangulation mesh }
              | .ok uncompressed =>
                match env.iarchive uncompressed with
                | none =>
                  .threw "Cannot seem to deserialize the data previously stored!"
                    { sim₀ with triangulation := triangulation,
                                solution_vectors := env.deserialize triangulation mesh }
                | some members =>
                  .returned
                    { members := members, triangulation := triangulation,
                      solution_vectors := env.deserialize triangulation mesh } := by
  refine ⟨(create_snapshot_returned env parameters _ _ _ _ h).2.1.2.2, rfl, rfl, ?_⟩
  intro files sim₀ mesh resume triangulation h1 h2 h3
  unfold resume_from_snapshot
  simp only [h1, h2, h3]

/-- Witness for C14: the first snapshot of the example run; the serialized state
has 8 chars, its compressed form 10. -/
theorem resume_file_layout_witness :
    (create_snapshot stored_collaborators fresh_run_parameters no_faults
        (simulator_at_snapshot 1) empty_disk).state.files "output/restart.resume.z"
      = some { header := [1, 8, 8, 10], data := [120, 1, 10, 10, 10, 1, 0, 0, 7, 7] } :=
  have h1 : create_snapshot stored_collaborators fresh_run_parameters no_faults
      (simulator_at_snapshot 1) empty_disk
      = .returned (create_snapshot stored_collaborators fresh_run_parameters no_faults
          (simulator_at_snapshot 1) empty_disk).state := by
    simp [create_snapshot, previous_snapshot_exists, fresh_run_parameters, empty_disk,
      no_faults, Outcome.state]
  (resume_file_layout stored_collaborators fresh_run_parameters no_faults
    (simulator_at_snapshot 1) empty_disk _ h1).1

/-- The length of the long postprocessor state. -/
theorem long_postprocessor_state_length : long_postprocessor_state.length = 2 ^ 32 - 7 := by
  unfold long_postprocessor_state
  exact List.length_replicate _ _

/-- The example collaborators are well behaved: `uncompress` inverts `compress2`
when the buffer is large enough, the archive reads back what it wrote, and a
saved mesh loads. -/
theorem stored_collaborators_invert :
    (∀ (chars : List ℕ) (n : ℕ), chars.length ≤ n →
        stored_collaborators.uncompress (stored_collaborators.compress2 chars) n = .ok chars)
      ∧ (∀ m, stored_collaborators.iarchive (stored_collaborators.oarchive m) = some m)
      ∧ (∀ t v, stored_collaborators.triangulation_load (stored_collaborators.mesh_file t v)
          (some (stored_collaborators.info_file t)) = some t) := by
  refine ⟨fun chars n hn => ?_, fun m => rfl, fun t v => rfl⟩
  simp [stored_collaborators, hn]

/-- With the example collaborators, a postprocessor state of `2^32 - 7` chars
gives a serialized state of `2^32 - 1` chars, and resuming from its snapshot
throws. -/
theorem resume_throws_for_long_state (chars : List ℕ) (h : chars.length = 2 ^ 32 - 7) :
    (stored_collaborators.oarchive (simulator_with_state chars).members).length < 2 ^ 32
      ∧ (create_snapshot stored_collaborators fresh_run_parameters no_faults
          (simulator_with_state chars) empty_disk).is_returned = true
      ∧ (stored_collaborators.compress2
          (stored_collaborators.oarchive (simulator_with_state chars).members)).length
        = 2 ^ 32 + 1
      ∧ (resume_from_snapshot stored_collaborators fresh_run_parameters
          (create_snapshot stored_collaborators fresh_run_parameters no_faults
            (simulator_with_state chars) empty_disk).state.files
          (simulator_at_snapshot 0)).is_returned = false := by
  have hC : (stored_collaborators.compress2
      (stored_collaborators.oarchive (simulator_with_state chars).members)).length
      = 2 ^ 32 + 1 := by
    simp [stored_collaborators, simulator_with_state, h]
  refine ⟨?_, ?_, hC, ?_⟩
  · simp [stored_collaborators, simulator_with_state, h]
  · simp [create_snapshot, previous_snapshot_exists, fresh_run_parameters, empty_disk,
      no_faults, Outcome.is_returned]
  · have hread : istream_read (stored_collaborators.compress2
        (stored_collaborators.oarchive (simulator_with_state chars).members)) 1 = [120] := by
      simp [istream_read, stored_collaborators]
    have hfile : (create_snapshot stored_collaborators fresh_run_parameters no_faults
        (simulator_with_state chars) empty_disk).state.files
          (fresh_run_parameters.output_directory ++ "restart.resume.z")
        = some (resume_file stored_collaborators (simulator_with_state chars)) := by
      simp [create_snapshot, previous_snapshot_exists, fresh_run_parameters, empty_disk,
        no_faults, Outcome.state]
    have hmesh : (create_snapshot stored_collaborators fresh_run_parameters no_faults
        (simulator_with_state chars) empty_disk).state.files
          (fresh_run_parameters.output_directory ++ "restart.mesh")
        = some (stored_collaborators.mesh_file 1 101) := by
      simp [create_snapshot, previous_snapshot_exists, fresh_run_parameters, empty_disk,
        no_faults, Outcome.state, triangulation_save, Function.update_apply,
        simulator_with_state]
    have hinfo : (create_snapshot stored_collaborators fresh_run_parameters no_faults
        (simulator_with_state chars) empty_disk).state.files
          (fresh_run_parameters.output_directory ++ "restart.mesh" ++ ".info")
        = some (stored_collaborators.info_file 1) := by
      simp [create_snapshot, previous_snapshot_exists, fresh_run_parameters, empty_disk,
        no_faults, Outcome.state, triangulation_save, Function.update_apply,
        simulator_with_state]
    have h3 : read_compression_header stored_collaborators
        (resume_file stored_collaborators (simulator_with_state chars)) 3 = 1 := by
      show (stored_collaborators.compress2
        (stored_collaborators.oarchive (simulator_with_state chars).members)).length % 2 ^ 32
        = 1
      rw [hC]
      norm_num
    have hload : stored_collaborators.triangulation_load (stored_collaborators.mesh_file 1 101)
        (some (stored_collaborators.info_file 1)) = some 1 := rfl
    have hdata : (resume_file stored_collaborators (simulator_with_state chars)).data
        = stored_collaborators.compress2
            (stored_collaborators.oarchive (simulator_with_state chars).members) := rfl
    have hun : ∀ n, stored_collaborators.uncompress [120] n = .error (-3) := fun _ => rfl
    unfold resume_from_snapshot
    simp only [hmesh, hfile, hinfo, hload, h3, hdata, hread, hun, Outcome.is_returned]

/-- C15 (as stated, refuted): with collaborators for which `uncompress` inverts
`compress2`, the archive reads back what it wrote and a saved mesh loads, a
simulator whose serialized scalar state has `2^32 - 1 < 2^32` chars has a
compressed form of `2^32 + 1` chars; the header stores the length 1, and
`resume_from_snapshot` reads one char of compressed data and throws. -/
theorem round_trip_fails_for_long_compressed_state :
    ((∀ (chars : List ℕ) (n : ℕ), chars.length ≤ n →
          stored_collaborators.uncompress (stored_collaborators.compress2 chars) n = .ok chars)
        ∧ (∀ m, stored_collaborators.iarchive (stored_collaborators.oarchive m) = some m)
        ∧ (∀ t v, stored_collaborators.triangulation_load (stored_collaborators.mesh_file t v)
            (some (stored_collaborators.info_file t)) = some t))
      ∧ (stored_collaborators.oarchive
          (simulator_with_state long_postprocessor_state).members).length < 2 ^ 32
      ∧ (create_snapshot stored_collaborators fresh_run_parameters no_faults
          (simulator_with_state long_postprocessor_state) empty_disk).is_returned = true
      ∧ (stored_collaborators.compress2
          (stored_collaborators.oarchive
            (simulator_with_state long_postprocessor_state).members)).length
        = 2 ^ 32 + 1
      ∧ (resume_from_snapshot stored_collaborators fresh_run_parameters
          (create_snapshot stored_collaborators fresh_run_parameters no_faults
            (simulator_with_state long_postprocessor_state) empty_disk).state.files
          (simulator_at_snapshot 0)).is_returned = false :=
  ⟨stored_collaborators_invert,
    resume_throws_for_long_state long_postprocessor_state long_postprocessor_state_length⟩

/-- C15 (amended): when the serialized scalar state and its compressed form are
both shorter than `2^32` chars, `uncompress` inverts `compress2` on it, the
archive reads back what it wrote and the saved mesh loads, `resume_from_snapshot`
applied to the files a returning `create_snapshot` has written returns and
restores `time`, `time_step`, `old_time_step`, `timestep_number`,
`pre_refinement_step` and `last_pressure_normalization_adjustment`. -/
theorem scalar_state_round_trip {α π μ ν : Type} (env : Collaborators α π μ ν)
    (parameters : RestartParameters) (faults : SnapshotFaults)
    (sim : RestartSimulator α π μ ν) (world world' : RestartWorld)
    (hL : (env.oarchive sim.members).length < 2 ^ 32)
    (hC : (env.compress2 (env.oarchive sim.members)).length < 2 ^ 32)
    (hz : env.uncompress (env.compress2 (env.oarchive sim.members))
        (env.oarchive sim.members).length = .ok (env.oarchive sim.members))
    (ha : env.iarchive (env.oarchive sim.members) = some sim.members)
    (hm : (env.triangulation_load (env.mesh_file sim.triangulation sim.solution_vectors)
        (some (env.info_file sim.triangulation))).isSome = true)
    (h : create_snapshot env parameters faults sim world = .returned world')
    (sim₀ : RestartSimulator α π μ ν) :
    ∃ sim', resume_from_snapshot env parameters world'.files sim₀ = .returned sim'
      ∧ sim'.members.time = sim.members.time
      ∧ sim'.members.time_step = sim.members.time_step
      ∧ sim'.members.old_time_step = sim.members.old_time_step
      ∧ sim'.members.timestep_number = sim.members.timestep_number
      ∧ sim'.members.pre_refinement_step = sim.members.pre_refinement_step
      ∧ sim'.members.last_pressure_normalization_adjustment
        = sim.members.last_pressure_normalization_adjustment := by
  obtain ⟨-, ⟨c1, c2, c3⟩, -⟩ := create_snapshot_returned env parameters _ _ _ _ h
  obtain ⟨t, ht⟩ := Option.isSome_iff_exists.mp hm
  have h3 : read_compression_header env (resume_file env sim) 3
      = (env.compress2 (env.oarchive sim.members)).length :=
    Nat.mod_eq_of_lt hC
  have h1 : read_compression_header env (resume_file env sim) 1
      = (env.oarchive sim.members).length :=
    Nat.mod_eq_of_lt hL
  have hread : istream_read (resume_file env sim).data
      (env.compress2 (env.oarchive sim.members)).length
      = env.compress2 (env.oarchive sim.members) := by
    show istream_read (env.compress2 (env.oarchive sim.members)) _ = _
    simp [istream_read]
  refine ⟨{ members := sim.members, triangulation := t,
            solution_vectors := env.deserialize t
              (env.mesh_file sim.triangulation sim.solution_vectors) }, ?_,
    rfl, rfl, rfl, rfl, rfl, rfl⟩
  unfold resume_from_snapshot
  rw [restart_mesh_info_name]
  simp only [c1, c2, c3, ht, h3, h1, hread, hz, ha]

/-- Witness for C15 (amended): the first snapshot of the example run is read
back into a simulator that held other values. -/
theorem scalar_state_round_trip_witness :
    ∃ sim', resume_from_snapshot stored_collaborators fresh_run_parameters
        (create_snapshot stored_collaborators fresh_run_parameters no_faults
          (simulator_at_snapshot 1) empty_disk).state.files (simulator_at_snapshot 0)
        = .returned sim'
      ∧ sim'.members.time = 10
      ∧ sim'.members.time_step = 10
      ∧ sim'.members.old_time_step = 10
      ∧ sim'.members.timestep_number = 1
      ∧ sim'.members.pre_refinement_step = 0
      ∧ sim'.members.last_pressure_normalization_adjustment = 0 :=
  have h1 : create_snapshot stored_collaborators fresh_run_parameters no_faults
      (simulator_at_snapshot 1) empty_disk
      = .returned (create_snapshot stored_collaborators fresh_run_parameters no_faults
          (simulator_at_snapshot 1) empty_disk).state := by
    simp [create_snapshot, previous_snapshot_exists, fresh_run_parameters, empty_disk,
      no_faults, Outcome.state]
  scalar_state_round_trip stored_collaborators fresh_run_parameters no_faults
    (simulator_at_snapshot 1) empty_disk _ (by decide) (by decide) rfl rfl rfl h1
    (simulator_at_snapshot 0)

/-- C16: `resume_from_snapshot` throws, with the simulator as it was, when
`restart.mesh` or `restart.resume.z` cannot be opened; and it never returns when
`uncompress` reports an error for what was read from `restart.resume.z`. -/
theorem resume_from_snapshot_fails_loudly {α π μ ν : Type} (env : Collaborators α π μ ν)
    (parameters : RestartParameters) (files : FileSystem) (sim : RestartSimulator α π μ ν) :
    ((files (parameters.output_directory ++ "restart.mesh") = none
          ∨ files (parameters.output_directory ++ "restart.resume.z") = none) →
        ∃ message, resume_from_snapshot env parameters files sim = .threw message sim)
      ∧ (∀ resume err, files (parameters.output_directory ++ "restart.resume.z") = some resume →
          env.uncompress (istream_read resume.data (read_compression_header env resume 3))
              (read_compression_header env resume 1) = .error err →
          (resume_from_snapshot env parameters files sim).is_returned = false) := by
  constructor
  · intro hmissing
    unfold resume_from_snapshot
    cases hmesh : files (parameters.output_directory ++ "restart.mesh") with
    | none => exact ⟨_, rfl⟩
    | some mesh =>
      rcases hmissing with hm | hr
      · rw [hmesh] at hm
        cases hm
      · simp only [hr]
        exact ⟨_, rfl⟩
  · intro resume err hr hz
    unfold resume_from_snapshot
    cases hmesh : files (parameters.output_directory ++ "restart.mesh") with
    | none => rfl
    | some mesh =>
      simp only [hr]
      cases hl : env.triangulation_load mesh
          (files (parameters.output_directory ++ "restart.mesh" ++ ".info")) with
      | none => rfl
      | some t =>
        simp only [hz]
        rfl

/-- Witness for C16: resuming in the empty directory throws and leaves the
simulator as it was; resuming from a snapshot whose `restart.resume.z` was
truncated does not return. -/
theorem resume_from_snapshot_fails_loudly_witness :
    (∃ message, resume_from_snapshot stored_collaborators fresh_run_parameters empty_disk.files
        (simulator_at_snapshot 0) = .threw message (simulator_at_snapshot 0))
      ∧ (resume_from_snapshot stored_collaborators fresh_run_parameters
          (create_snapshot stored_collaborators fresh_run_parameters truncated_write
            (simulator_at_snapshot 1) empty_disk).state.files
          (simulator_at_snapshot 0)).is_returned = false :=
  ⟨(resume_from_snapshot_fails_loudly stored_collaborators fresh_run_parameters
      empty_disk.files (simulator_at_snapshot 0)).1 (Or.inl rfl),
    (resume_from_snapshot_fails_loudly stored_collaborators fresh_run_parameters
      (create_snapshot stored_collaborators fresh_run_parameters truncated_write
        (simulator_at_snapshot 1) empty_disk).state.files (simulator_at_snapshot 0)).2
      { header := [1], data := [] } (-3)
      (by
        simp [create_snapshot, previous_snapshot_exists, fresh_run_parameters, empty_disk,
          no_faults, truncated_write, Outcome.state])
      rfl⟩

/-! ## Advection fields -/

/-- C17 (as stated, refuted): the public constructor called without a field
index, and `composition` called with `numbers::invalid_unsigned_int`, build a
composition-tagged value that carries the invalid index; in a build without
assertions the constructor also builds a temperature-tagged value that carries
the index 3. -/
theorem advection_field_invariant_broken :
    (∀ debug, AdvectionField.construct_default debug FieldType.compositional_field
        = some ⟨FieldType.compositional_field, invalid_unsigned_int⟩)
      ∧ (∀ debug, AdvectionField.composition debug invalid_unsigned_int
        = some ⟨FieldType.compositional_field, invalid_unsigned_int⟩)
      ∧ AdvectionField.construct false FieldType.temperature_field 3
        = some ⟨FieldType.temperature_field, 3⟩
      ∧ (3 : ℕ) ≠ invalid_unsigned_int := by
  refine ⟨fun debug => ?_, fun debug => ?_, rfl, by decide⟩
  · simp [AdvectionField.construct_default, AdvectionField.construct]
  · simp [AdvectionField.composition, AdvectionField.construct]

/-- C17 (amended): `temperature ()` builds the temperature-tagged value with the
invalid index; `composition (i)` builds the composition-tagged value that
carries `i`, a real field index when `i` is not the invalid index; and in a
build with assertions every temperature-tagged value the constructor builds
carries the invalid index. -/
theorem advection_field_invariant (debug : Bool) :
    AdvectionField.temperature debug
        = some ⟨FieldType.temperature_field, invalid_unsigned_int⟩
      ∧ (∀ i, AdvectionField.composition debug i = some ⟨FieldType.compositional_field, i⟩)
      ∧ (∀ i field, i ≠ invalid_unsigned_int →
          AdvectionField.composition debug i = some field →
          field.field_type = FieldType.compositional_field
            ∧ field.compositional_variable ≠ invalid_unsigned_int)
      ∧ (∀ field_type i field, AdvectionField.construct true field_type i = some field →
          field.field_type = FieldType.temperature_field →
          field.compositional_variable = invalid_unsigned_int) := by
  have hcomp : ∀ i, AdvectionField.composition debug i
      = some ⟨FieldType.compositional_field, i⟩ := by
    intro i
    simp [AdvectionField.composition, AdvectionField.construct]
  refine ⟨?_, hcomp, fun i field hi hf => ?_, fun field_type i field hf ht => ?_⟩
  · simp [AdvectionField.temperature, AdvectionField.construct_default,
      AdvectionField.construct]
  · rw [hcomp i] at hf
    cases hf
    exact ⟨rfl, hi⟩
  · unfold AdvectionField.construct at hf
    split_ifs at hf with hc
    cases hf
    simp only at ht
    by_contra hne
    exact hc ⟨rfl, ht, hne⟩

/-- Witness for C17 (amended): `composition (2)` in a debug build. -/
theorem advection_field_invariant_witness :
    (⟨FieldType.compositional_field, 2⟩ : AdvectionField).field_type
        = FieldType.compositional_field
      ∧ (⟨FieldType.compositional_field, 2⟩ : AdvectionField).compositional_variable
        ≠ invalid_unsigned_int :=
  (advection_field_invariant true).2.2.1 2 ⟨FieldType.compositional_field, 2⟩ (by decide) rfl

/-- C18: `field_index` is 0 for `temperature ()` and `i + 1` for `composition (i)`
when `i + 1` is an `unsigned int`, that is when `i` is not the invalid index; so
for `n < 2^32` compositional fields the indices of the `n + 1` advection fields
are the numbers `0, ..., n` in this order, pairwise different. -/
theorem field_index_spec (debug : Bool) :
    (AdvectionField.temperature debug).map AdvectionField.field_index = some 0
      ∧ (∀ i, i + 1 < 2 ^ 32 →
          (AdvectionField.composition debug i).map AdvectionField.field_index = some (i + 1))
      ∧ (∀ n, n < 2 ^ 32 →
          (advection_fields debug n).map (Option.map AdvectionField.field_index)
              = (List.range (n + 1)).map some
            ∧ ((advection_fields debug n).map
                (Option.map AdvectionField.field_index)).Nodup) := by
  have htemp : (AdvectionField.temperature debug).map AdvectionField.field_index = some 0 := by
    simp [AdvectionField.temperature, AdvectionField.construct_default,
      AdvectionField.construct, AdvectionField.field_index, AdvectionField.is_temperature]
  have hcomp : ∀ i, i + 1 < 2 ^ 32 →
      (AdvectionField.composition debug i).map AdvectionField.field_index = some (i + 1) := by
    intro i hi
    have hmod : (i + 1) % 4294967296 = i + 1 := Nat.mod_eq_of_lt (by norm_num at hi; exact hi)
    simp [AdvectionField.composition, AdvectionField.construct, AdvectionField.field_index,
      AdvectionField.is_temperature, hmod]
  have hlist : ∀ n, n < 2 ^ 32 →
      (advection_fields debug n).map (Option.map AdvectionField.field_index)
        = (List.range (n + 1)).map some := by
    intro n hn
    unfold advection_fields
    rw [List.map_cons, htemp, List.map_map, List.range_succ_eq_map, List.map_cons,
      List.map_map]
    congr 1
    apply List.map_congr_left
    intro i hi
    have hi2 : i + 1 < 2 ^ 32 := by
      have := List.mem_range.mp hi
      omega
    simpa using hcomp i hi2
  refine ⟨htemp, hcomp, fun n hn => ⟨hlist n hn, ?_⟩⟩
  rw [hlist n hn]
  exact (List.nodup_range _).map (Option.some_injective _)

/-- Witness for C18: with two compositional fields the indices are 0, 1, 2. -/
theorem field_index_spec_witness :
    (advection_fields true 2).map (Option.map AdvectionField.field_index)
      = [some 0, some 1, some 2] :=
  ((field_index_spec true).2.2 2 (by norm_num)).1

/-! ## Nonlinear solver scheme and pressure right-hand side -/

/-- The outer iteration started at iteration `start` stops at the first
iteration from `start` on that passes the convergence test, when the budget
reaches that far. -/
theorem picard_outer_iteration_first {α : Type} [LinearOrderedField α] (tolerance : α)
    (residuals : ℕ → List α) (budget start k : ℕ) (h1 : start ≤ k) (h2 : k ≤ start + budget)
    (hk : residuals_converged tolerance (residuals 0) (residuals k) = true)
    (hfirst : ∀ j, start ≤ j → j < k →
      residuals_converged tolerance (residuals 0) (residuals j) = false) :
    picard_outer_iteration tolerance residuals budget start = (k, true) := by
  induction budget generalizing start with
  | zero =>
    have hks : k = start := by omega
    subst hks
    simp [picard_outer_iteration, hk]
  | succ budget ih =>
    unfold picard_outer_iteration
    by_cases hs : residuals_converged tolerance (residuals 0) (residuals start) = true
    · have hks : k = start := by
        by_contra hne
        have hlt : start < k := lt_of_le_of_ne h1 (Ne.symm hne)
        rw [hfirst start (le_refl _) hlt] at hs
        exact absurd hs (by simp)
      rw [if_pos hs, hks]
    · rw [if_neg hs]
      have hne : start ≠ k := by
        intro he
        rw [he] at hs
        exact hs hk
      exact ih (start + 1) (by omega) (by omega)
        (fun j hj hjk => hfirst j (by omega) hjk)

/-- C19: the outer iteration of the iterated schemes stops at the first iteration
at which every residual, divided by its initial-iteration value, is below the
relative tolerance, and reports `converged = true` (when the budget reaches that
far); with initial residuals `[1, 1]`, tolerance `1/1000` and residuals that
halve in every iteration this is after exactly 10 iterations, and
`(1/2)^10 < 1/1000 ≤ (1/2)^9`. -/
theorem solve_iterated_advection_and_stokes_spec :
    (∀ (α : Type) [LinearOrderedField α] (max_nonlinear_iterations : ℕ) (tolerance : α)
        (residuals : ℕ → List α) (k : ℕ), k ≤ max_nonlinear_iterations →
        residuals_converged tolerance (residuals 0) (residuals k) = true →
        (∀ j, j < k → residuals_converged tolerance (residuals 0) (residuals j) = false) →
        solve_iterated_advection_and_stokes max_nonlinear_iterations tolerance residuals
          = (k, true))
      ∧ (∀ max_nonlinear_iterations, 10 ≤ max_nonlinear_iterations →
        solve_iterated_advection_and_stokes max_nonlinear_iterations (1 / 1000 : ℚ)
            (fun k => [1 * (1 / 2) ^ k, 1 * (1 / 2) ^ k])
          = (10, true))
      ∧ ((1 / 2 : ℚ) ^ 10 < 1 / 1000 ∧ (1 / 1000 : ℚ) ≤ (1 / 2) ^ 9) := by
  have hgen : ∀ (α : Type) [LinearOrderedField α] (max_nonlinear_iterations : ℕ)
      (tolerance : α) (residuals : ℕ → List α) (k : ℕ), k ≤ max_nonlinear_iterations →
      residuals_converged tolerance (residuals 0) (residuals k) = true →
      (∀ j, j < k → residuals_converged tolerance (residuals 0) (residuals j) = false) →
      solve_iterated_advection_and_stokes max_nonlinear_iterations tolerance residuals
        = (k, true) := by
    intro α _ max_nonlinear_iterations tolerance residuals k hk hc hfirst
    exact picard_outer_iteration_first tolerance residuals max_nonlinear_iterations 0 k
      (Nat.zero_le _) (by omega) hc (fun j _ hj => hfirst j hj)
  refine ⟨hgen, fun max_nonlinear_iterations hmax => ?_, by norm_num, by norm_num⟩
  apply hgen ℚ max_nonlinear_iterations _ _ 10 hmax
  · norm_num [residuals_converged]
  · intro j hj
    interval_cases j <;> norm_num [residuals_converged]

/-- Witness for C19: the scenario with a budget of 50 iterations. -/
theorem solve_iterated_advection_and_stokes_spec_witness :
    solve_iterated_advection_and_stokes 50 (1 / 1000 : ℚ)
        (fun k => [1 * (1 / 2) ^ k, 1 * (1 / 2) ^ k])
      = (10, true) :=
  solve_iterated_advection_and_stokes_spec.2.1 50 (by norm_num)

/-- The sum of `F_i + c * h_i` over two vectors of the same length. -/
theorem sum_zipWith_add_mul {α : Type} [LinearOrderedField α] (c : α) (F h : List α)
    (hlen : F.length = h.length) :
    (List.zipWith (fun F h => F + c * h) F h).sum = F.sum + c * h.sum := by
  induction F generalizing h with
  | nil =>
    cases h with
    | nil => simp
    | cons y h => simp at hlen
  | cons x F ih =>
    cases h with
    | nil => simp at hlen
    | cons y h =>
      simp only [List.length_cons, add_left_inj] at hlen
      simp only [List.zipWith_cons_cons, List.sum_cons, ih h hlen]
      ring

/-- C20: for a continuous pressure in a block of its own,
`make_pressure_rhs_compatible` replaces every entry `F_i` of the pressure block
by `F_i - (sum_j F_j / global_volume) * h_i`, `h` being
`pressure_shape_function_integrals`; when the `h_i` add up to `global_volume`
the new pressure block adds up to zero.  The block is not empty, `h` has its
length, and the volume of the domain is positive. -/
theorem make_pressure_rhs_compatible_spec {α : Type} [LinearOrderedField α]
    (block_index_velocities block_index_pressure : ℕ) (global_volume : α)
    (pressure_shape_function_integrals vector : List α)
    (hblock : block_index_velocities ≠ block_index_pressure)
    (hne : vector ≠ [])
    (hlen : vector.length = pressure_shape_function_integrals.length)
    (hvol : 0 < global_volume) :
    make_pressure_rhs_compatible false false block_index_velocities block_index_pressure
        global_volume pressure_shape_function_integrals vector
      = some (List.zipWith (fun F h => F - vector.sum / global_volume * h) vector
          pressure_shape_function_integrals)
      ∧ (pressure_shape_function_integrals.sum = global_volume →
        ∃ corrected,
          make_pressure_rhs_compatible false false block_index_velocities block_index_pressure
            global_volume pressure_shape_function_integrals vector = some corrected
          ∧ corrected.sum = 0) := by
  have hn : (vector.length : α) ≠ 0 := by
    have : vector.length ≠ 0 := fun h => hne (List.length_eq_zero.mp h)
    exact_mod_cast this
  have hint : mean_value vector * (vector.length : α) = vector.sum := by
    unfold mean_value
    exact div_mul_cancel₀ _ hn
  have hfun : (fun F h : α => F + -vector.sum / global_volume * h)
      = fun F h : α => F - vector.sum / global_volume * h := by
    funext F h
    ring
  have heq : make_pressure_rhs_compatible false false block_index_velocities
      block_index_pressure global_volume pressure_shape_function_integrals vector
      = some (List.zipWith (fun F h => F - vector.sum / global_volume * h) vector
          pressure_shape_function_integrals) := by
    unfold make_pressure_rhs_compatible
    rw [if_pos ⟨rfl, rfl, hblock⟩]
    simp only [hint, hfun]
  refine ⟨heq, fun hsum => ⟨_, heq, ?_⟩⟩
  rw [← hfun, sum_zipWith_add_mul _ _ _ hlen, hsum]
  field_simp

/-- Witness for C20: the pressure block `[3, 1, 2]` with `h = [1, 2, 1]` and the
volume 4 becomes `[3/2, -2, 1/2]`, which adds up to 0. -/
theorem make_pressure_rhs_compatible_spec_witness :
    make_pressure_rhs_compatible false false 0 1 (4 : ℚ) [1, 2, 1] [3, 1, 2]
        = some [3 - (3 + (1 + (2 + 0))) / 4 * 1, 1 - (3 + (1 + (2 + 0))) / 4 * 2,
            2 - (3 + (1 + (2 + 0))) / 4 * 1]
      ∧ ∃ corrected, make_pressure_rhs_compatible false false 0 1 (4 : ℚ) [1, 2, 1] [3, 1, 2]
          = some corrected ∧ corrected.sum = 0 :=
  have h := make_pressure_rhs_compatible_spec 0 1 (4 : ℚ) [1, 2, 1] [3, 1, 2] (by decide)
    (by simp) rfl (by norm_num)
  ⟨h.1, h.2 (by norm_num)⟩

/-! ## Material models, postprocessors and mesh refinement -/

/-- A running sum is the start value plus the sum of the list. -/
theorem foldl_add_eq_sum {α : Type} [LinearOrderedField α] (l : List α) (a : α) :
    l.foldl (fun sum x => sum + x) a = a + l.sum := by
  induction l generalizing a with
  | nil => simp
  | cons x l ih => rw [List.foldl_cons, ih, List.sum_cons, add_assoc]

/-- The sum of a list divided entry by entry. -/
theorem sum_map_div {α : Type} [LinearOrderedField α] (l : List α) (c : α) :
    (l.map fun x => x / c).sum = l.sum / c := by
  induction l with
  | nil => simp
  | cons x l ih => rw [List.map_cons, List.sum_cons, ih, List.sum_cons, add_div]

/-- An entry of a list of non-negative numbers is at most their sum. -/
theorem le_sum_of_mem_of_nonneg {α : Type} [LinearOrderedField α] (l : List α)
    (h : ∀ x ∈ l, 0 ≤ x) (x : α) (hx : x ∈ l) : x ≤ l.sum := by
  induction l with
  | nil => simp at hx
  | cons y l ih =>
    have hy : 0 ≤ y := h y (List.mem_cons_self _ _)
    have hl : ∀ z ∈ l, 0 ≤ z := fun z hz => h z (List.mem_cons_of_mem _ hz)
    have hsum : 0 ≤ l.sum := List.sum_nonneg hl
    rw [List.sum_cons]
    rcases List.mem_cons.mp hx with rfl | hx
    · linarith
    · have := ih hl hx
      linarith

/-- C23: `compute_volume_fractions` returns `n + 1` fractions for `n` fields, each
within `[0, 1]`, that add up to 1.  When the clipped fields add up to at least 1
the background fraction is 0 and every field has its clipped value divided by
that sum; otherwise the background fraction is 1 minus the sum and every field
has its clipped value. -/
theorem compute_volume_fractions_spec {α : Type} [LinearOrderedField α]
    (compositional_fields : List α) :
    (compute_volume_fractions compositional_fields).length = compositional_fields.length + 1
      ∧ (∀ f ∈ compute_volume_fractions compositional_fields, 0 ≤ f ∧ f ≤ 1)
      ∧ (compute_volume_fractions compositional_fields).sum = 1
      ∧ (1 ≤ (compositional_fields.map fun x => min (max x 0) 1).sum →
          compute_volume_fractions compositional_fields
            = 0 :: (compositional_fields.map fun x => min (max x 0) 1).map fun x =>
                x / (compositional_fields.map fun x => min (max x 0) 1).sum)
      ∧ ((compositional_fields.map fun x => min (max x 0) 1).sum < 1 →
          compute_volume_fractions compositional_fields
            = (1 - (compositional_fields.map fun x => min (max x 0) 1).sum)
                :: compositional_fields.map fun x => min (max x 0) 1) := by
  have hclip : ∀ x ∈ compositional_fields.map (fun x => min (max x 0) 1), 0 ≤ x ∧ x ≤ 1 := by
    intro x hx
    obtain ⟨y, -, rfl⟩ := List.mem_map.mp hx
    exact ⟨le_min (le_max_right _ _) zero_le_one, min_le_right _ _⟩
  have hnonneg : 0 ≤ (compositional_fields.map fun x => min (max x 0) 1).sum :=
    List.sum_nonneg fun x hx => (hclip x hx).1
  have hdef : compute_volume_fractions compositional_fields
      = if (compositional_fields.map fun x => min (max x 0) 1).sum ≥ 1 then
          0 :: (compositional_fields.map fun x => min (max x 0) 1).map fun x =>
            x / (compositional_fields.map fun x => min (max x 0) 1).sum
        else
          (1 - (compositional_fields.map fun x => min (max x 0) 1).sum)
            :: compositional_fields.map fun x => min (max x 0) 1 := by
    unfold compute_volume_fractions
    simp only [foldl_add_eq_sum, zero_add]
  by_cases hs : (compositional_fields.map fun x => min (max x 0) 1).sum ≥ 1
  · have hpos : (0 : α) < (compositional_fields.map fun x => min (max x 0) 1).sum :=
      lt_of_lt_of_le zero_lt_one hs
    rw [hdef, if_pos hs]
    refine ⟨by simp, ?_, ?_, fun _ => rfl, fun h => absurd hs (not_le.mpr h)⟩
    · intro f hf
      rcases List.mem_cons.mp hf with rfl | hf
      · exact ⟨le_refl _, zero_le_one⟩
      · obtain ⟨x, hx, rfl⟩ := List.mem_map.mp hf
        refine ⟨div_nonneg (hclip x hx).1 hnonneg, ?_⟩
        rw [div_le_one hpos]
        exact le_sum_of_mem_of_nonneg _ (fun z hz => (hclip z hz).1) x hx
    · rw [List.sum_cons, sum_map_div, zero_add, div_self hpos.ne.symm]
  · rw [hdef, if_neg hs]
    have hlt : (compositional_fields.map fun x => min (max x 0) 1).sum < 1 := not_le.mp hs
    refine ⟨by simp, ?_, ?_, fun h => absurd h hs, fun _ => rfl⟩
    · intro f hf
      rcases List.mem_cons.mp hf with rfl | hf
      · constructor <;> linarith
      · exact hclip f hf
    · rw [List.sum_cons]
      ring

/-- Witness for C23: the fields 0.5, 1.5 and -1 are clipped to 0.5, 1 and 0, which
add up to 1.5; the fractions are 0, 1/3, 2/3 and 0. -/
theorem compute_volume_fractions_spec_witness :
    compute_volume_fractions ([1 / 2, 3 / 2, -1] : List ℚ)
      = 0 :: ([1 / 2, 3 / 2, -1].map fun x : ℚ => min (max x 0) 1).map fun x =>
          x / ([1 / 2, 3 / 2, -1].map fun x : ℚ => min (max x 0) 1).sum :=
  (compute_volume_fractions_spec ([1 / 2, 3 / 2, -1] : List ℚ)).2.2.2.1 (by norm_num)

/-- C24 (as stated, refuted): with surface solidus 1300, depletion solidus change
200, pressure 0 and depletion -3/2 the source takes `max (-300, -200) = -200`, so
the solidus is 1100 and the melt fraction at 1350 is `250 / 500`; with the
solidus `1300 - 300` of the claim it would be `350 / 500`. -/
theorem melt_fraction_ignores_strong_depletion :
    (⟨1300, 0, 200⟩ : MeltGlobal ℚ).melt_fraction 1350 0 (-3 / 2) = 1 / 2
      ∧ max 0 (min 1 (((1350 : ℚ) - (1300 + 0 * 0 + 200 * (-3 / 2)))
          / ((1300 + 0 * 0 + 200 * (-3 / 2) + 500) - (1300 + 0 * 0 + 200 * (-3 / 2)))))
        = 7 / 10
      ∧ (⟨1300, 0, 200⟩ : MeltGlobal ℚ).melt_fraction 1350 0 (-3 / 2)
        ≠ max 0 (min 1 (((1350 : ℚ) - (1300 + 0 * 0 + 200 * (-3 / 2)))
            / ((1300 + 0 * 0 + 200 * (-3 / 2) + 500) - (1300 + 0 * 0 + 200 * (-3 / 2))))) := by
  have h1 : (⟨1300, 0, 200⟩ : MeltGlobal ℚ).melt_fraction 1350 0 (-3 / 2) = 1 / 2 := by
    norm_num [MeltGlobal.melt_fraction]
  have h2 : max 0 (min 1 (((1350 : ℚ) - (1300 + 0 * 0 + 200 * (-3 / 2)))
      / ((1300 + 0 * 0 + 200 * (-3 / 2) + 500) - (1300 + 0 * 0 + 200 * (-3 / 2)))))
      = 7 / 10 := by
    norm_num
  refine ⟨h1, h2, ?_⟩
  rw [h1, h2]
  norm_num

/-- C24 (amended): `melt_fraction (T, p, C)` is `(T - T_sol) / (T_liq - T_sol)`
clamped to `[0, 1]`, with `T_sol = surface_solidus + pressure_solidus_change * p
+ max (depletion_solidus_change * C, -200)` and `T_liq = T_sol + 500`. -/
theorem melt_fraction_spec {α : Type} [LinearOrderedField α] (model : MeltGlobal α)
    (temperature pressure depletion : α) :
    model.melt_fraction temperature pressure depletion
      = max 0 (min 1
          ((temperature
              - (model.surface_solidus + model.pressure_solidus_change * pressure
                  + max (model.depletion_solidus_change * depletion) (-200)))
            / ((model.surface_solidus + model.pressure_solidus_change * pressure
                  + max (model.depletion_solidus_change * depletion) (-200) + 500)
                - (model.surface_solidus + model.pressure_solidus_change * pressure
                  + max (model.depletion_solidus_change * depletion) (-200))))) := by
  unfold MeltGlobal.melt_fraction
  simp only
  generalize model.surface_solidus + model.pressure_solidus_change * pressure
    + max (model.depletion_solidus_change * depletion) (-200) = Ts
  have hden : Ts + 500 - Ts = 500 := by ring
  rw [hden]
  by_cases h1 : temperature < Ts
  · rw [if_pos h1]
    have hneg : (temperature - Ts) / 500 ≤ 0 :=
      div_nonpos_of_nonpos_of_nonneg (by linarith) (by norm_num)
    rw [min_eq_right (le_trans hneg zero_le_one), max_eq_left hneg]
  · rw [if_neg h1]
    have hnn : 0 ≤ (temperature - Ts) / 500 := div_nonneg (by linarith) (by norm_num)
    by_cases h2 : temperature > Ts + 500
    · rw [if_pos h2]
      have hge : 1 ≤ (temperature - Ts) / 500 := by
        rw [le_div_iff₀ (by norm_num)]
        linarith
      rw [min_eq_left hge, max_eq_right zero_le_one]
    · rw [if_neg h2]
      have hle : (temperature - Ts) / 500 ≤ 1 := by
        rw [div_le_iff₀ (by norm_num)]
        linarith
      rw [min_eq_right hle, max_eq_right hnn]

/-- The factor `magic` of `set_last_output_time` is larger than 1. -/
theorem one_lt_magic {α : Type} [LinearOrderedField α] :
    (1 : α) < 1 + 2 * numeric_limits_double_epsilon := by
  unfold numeric_limits_double_epsilon
  have : (0 : α) < 1 / 2 ^ 52 := by positivity
  linarith

/-- C25 (as stated, refuted): with `last_output_time = 0`, `output_interval = 1`
and `current_time = 1` one interval has passed and is counted, but the new
`last_output_time` is `1 / (1 + 2 * epsilon)`, which lies strictly between 0 and
1: the advance is not a whole number of output intervals. -/
theorem set_last_output_time_not_whole_intervals :
    DepthAverage.set_last_output_time (1 : ℚ) 0 1 = 1 / (1 + 2 * (1 / 2 ^ 52))
      ∧ Visualization.set_last_output_time (1 : ℚ) 0 1 = 1 / (1 + 2 * (1 / 2 ^ 52))
      ∧ ∀ n : ℤ, DepthAverage.set_last_output_time (1 : ℚ) 0 1 ≠ 0 + (n : ℚ) * 1 := by
  have hfloor : ⌊((1 : ℚ) - 0) / 1 * (1 + 2 * (1 / 2 ^ 52))⌋ = 1 := by
    rw [Int.floor_eq_iff]
    constructor <;> norm_num
  have h1 : DepthAverage.set_last_output_time (1 : ℚ) 0 1 = 1 / (1 + 2 * (1 / 2 ^ 52)) := by
    unfold DepthAverage.set_last_output_time numeric_limits_double_epsilon
    rw [if_pos one_pos]
    simp only [hfloor]
    norm_num
  have h2 : Visualization.set_last_output_time (1 : ℚ) 0 1 = 1 / (1 + 2 * (1 / 2 ^ 52)) := by
    unfold Visualization.set_last_output_time numeric_limits_double_epsilon
    rw [if_pos one_pos]
    simp only [hfloor]
    norm_num
  refine ⟨h1, h2, fun n hn => ?_⟩
  rw [h1] at hn
  have hpos : (0 : ℚ) < 1 / (1 + 2 * (1 / 2 ^ 52)) := by norm_num
  have hlt : (1 : ℚ) / (1 + 2 * (1 / 2 ^ 52)) < 1 := by norm_num
  rw [hn, zero_add, mul_one] at hpos hlt
  have h0 : (0 : ℤ) < n := by exact_mod_cast hpos
  have h3 : n < (1 : ℤ) := by exact_mod_cast hlt
  omega

/-- The two functions `set_last_output_time` are the same function. -/
theorem Visualization_set_last_output_time_eq {α : Type} [LinearOrderedField α] [FloorRing α]
    (output_interval last_output_time current_time : α) :
    Visualization.set_last_output_time output_interval last_output_time current_time
      = DepthAverage.set_last_output_time output_interval last_output_time current_time := rfl

/-- What `set_last_output_time` does for a positive interval. -/
theorem DepthAverage_set_last_output_time_bounds {α : Type} [LinearOrderedField α]
    [FloorRing α] (output_interval last_output_time current_time : α)
    (hint : 0 < output_interval) (hcur : last_output_time ≤ current_time) :
    DepthAverage.set_last_output_time output_interval last_output_time current_time
        = last_output_time
          + (⌊(current_time - last_output_time) / output_interval
                * (1 + 2 * numeric_limits_double_epsilon)⌋ : α)
            * (output_interval / (1 + 2 * numeric_limits_double_epsilon))
      ∧ ⌊(current_time - last_output_time) / output_interval⌋
        ≤ ⌊(current_time - last_output_time) / output_interval
            * (1 + 2 * numeric_limits_double_epsilon)⌋
      ∧ DepthAverage.set_last_output_time output_interval last_output_time current_time
        ≤ current_time
      ∧ current_time
        < DepthAverage.set_last_output_time output_interval last_output_time current_time
          + output_interval := by
  have hm : (1 : α) < 1 + 2 * numeric_limits_double_epsilon := one_lt_magic
  have hm0 : (0 : α) < 1 + 2 * numeric_limits_double_epsilon := lt_trans zero_lt_one hm
  have hx : 0 ≤ (current_time - last_output_time) / output_interval :=
    div_nonneg (by linarith) hint.le
  have hdef : DepthAverage.set_last_output_time output_interval last_output_time current_time
      = last_output_time
        + (⌊(current_time - last_output_time) / output_interval
              * (1 + 2 * numeric_limits_double_epsilon)⌋ : α)
          * (output_interval / (1 + 2 * numeric_limits_double_epsilon)) := by
    unfold DepthAverage.set_last_output_time
    rw [if_pos hint]
    simp only [mul_div_assoc]
  have hfl := Int.floor_le ((current_time - last_output_time) / output_interval
    * (1 + 2 * numeric_limits_double_epsilon))
  have hfl2 := Int.lt_floor_add_one ((current_time - last_output_time) / output_interval
    * (1 + 2 * numeric_limits_double_epsilon))
  have hcI : current_time - last_output_time
      = (current_time - last_output_time) / output_interval * output_interval :=
    (div_mul_cancel₀ _ hint.ne.symm).symm
  have hIm : 0 < output_interval / (1 + 2 * numeric_limits_double_epsilon) := div_pos hint hm0
  have hIm2 : output_interval / (1 + 2 * numeric_limits_double_epsilon) < output_interval :=
    div_lt_self hint hm
  refine ⟨hdef, ?_, ?_, ?_⟩
  · apply Int.floor_le_floor
    calc (current_time - last_output_time) / output_interval
        = (current_time - last_output_time) / output_interval * 1 := (mul_one _).symm
      _ ≤ (current_time - last_output_time) / output_interval
            * (1 + 2 * numeric_limits_double_epsilon) := mul_le_mul_of_nonneg_left hm.le hx
  · rw [hdef]
    generalize (⌊(current_time - last_output_time) / output_interval
      * (1 + 2 * numeric_limits_double_epsilon)⌋ : α) = n at hfl hfl2
    generalize (current_time - last_output_time) / output_interval = x at hfl hfl2 hcI hx
    have h1 : n * (output_interval / (1 + 2 * numeric_limits_double_epsilon))
        ≤ x * output_interval := by
      rw [mul_div_assoc', div_le_iff₀ hm0]
      calc n * output_interval ≤ x * (1 + 2 * numeric_limits_double_epsilon) * output_interval :=
            mul_le_mul_of_nonneg_right hfl hint.le
        _ = x * output_interval * (1 + 2 * numeric_limits_double_epsilon) := by ring
    linarith
  · rw [hdef]
    generalize (⌊(current_time - last_output_time) / output_interval
      * (1 + 2 * numeric_limits_double_epsilon)⌋ : α) = n at hfl hfl2
    generalize (current_time - last_output_time) / output_interval = x at hfl hfl2 hcI hx
    have h1 : x * output_interval
        < (n + 1) * (output_interval / (1 + 2 * numeric_limits_double_epsilon)) := by
      rw [mul_div_assoc', lt_div_iff₀ hm0]
      calc x * output_interval * (1 + 2 * numeric_limits_double_epsilon)
          = x * (1 + 2 * numeric_limits_double_epsilon) * output_interval := by ring
        _ < (n + 1) * output_interval := mul_lt_mul_of_pos_right hfl2 hint
    have h2 : (n + 1) * (output_interval / (1 + 2 * numeric_limits_double_epsilon))
        = n * (output_interval / (1 + 2 * numeric_limits_double_epsilon))
          + output_interval / (1 + 2 * numeric_limits_double_epsilon) := by ring
    linarith

/-- C25 (amended): in exact arithmetic, with `output_interval > 0` and
`current_time ≥ last_output_time`, both functions `set_last_output_time` advance
`last_output_time` by `n * output_interval / magic`, where `magic = 1 + 2 *
epsilon` and `n = floor ((current_time - last_output_time) / output_interval *
magic)` is at least the whole number of output intervals that have passed, so
that afterwards `last_output_time ≤ current_time < last_output_time +
output_interval`; with `output_interval ≤ 0` they leave it unchanged. -/
theorem set_last_output_time_spec {α : Type} [LinearOrderedField α] [FloorRing α]
    (output_interval last_output_time current_time : α) :
    (0 < output_interval → last_output_time ≤ current_time →
        (DepthAverage.set_last_output_time output_interval last_output_time current_time
            = last_output_time
              + (⌊(current_time - last_output_time) / output_interval
                    * (1 + 2 * numeric_limits_double_epsilon)⌋ : α)
                * (output_interval / (1 + 2 * numeric_limits_double_epsilon))
          ∧ ⌊(current_time - last_output_time) / output_interval⌋
            ≤ ⌊(current_time - last_output_time) / output_interval
                * (1 + 2 * numeric_limits_double_epsilon)⌋
          ∧ DepthAverage.set_last_output_time output_interval last_output_time current_time
            ≤ current_time
          ∧ current_time
            < DepthAverage.set_last_output_time output_interval last_output_time current_time
              + output_interval)
        ∧ Visualization.set_last_output_time output_interval last_output_time current_time
          = DepthAverage.set_last_output_time output_interval last_output_time current_time)
      ∧ (output_interval ≤ 0 →
        DepthAverage.set_last_output_time output_interval last_output_time current_time
            = last_output_time
          ∧ Visualization.set_last_output_time output_interval last_output_time current_time
            = last_output_time) := by
  refine ⟨fun hint hcur => ⟨DepthAverage_set_last_output_time_bounds _ _ _ hint hcur, rfl⟩,
    fun hint => ?_⟩
  unfold DepthAverage.set_last_output_time Visualization.set_last_output_time
  rw [if_neg (not_lt.mpr hint)]
  exact ⟨rfl, rfl⟩

/-- Witness for C25 (amended): interval 2, last output at 1, current time 6; the
new `last_output_time` is at most 6 and more than 4. -/
theorem set_last_output_time_spec_witness :
    DepthAverage.set_last_output_time (2 : ℚ) 1 6 ≤ 6
      ∧ (6 : ℚ) < DepthAverage.set_last_output_time (2 : ℚ) 1 6 + 2
      ∧ DepthAverage.set_last_output_time (-1 : ℚ) 1 6 = 1 :=
  have h := set_last_output_time_spec (2 : ℚ) 1 6
  have k := set_last_output_time_spec (-1 : ℚ) 1 6
  ⟨(h.1 (by norm_num) (by norm_num)).1.2.2.1, (h.1 (by norm_num) (by norm_num)).1.2.2.2,
    (k.2 (by norm_num)).1⟩

/-- The `while` loop of `maybe_refine_mesh` removes the leading entries below the
limit, and raises the level and refines once for each of them. -/
theorem additional_refinement_loop_eq {α σ : Type} [LinearOrderedField α]
    (refine_mesh : ℕ → σ → σ) (limit : α) (times : List α) (level : ℕ) (mesh : σ)
    (hlevel : level + (times.takeWhile fun t => decide (t < limit)).length < 2 ^ 32) :
    additional_refinement_loop refine_mesh limit times level mesh
      = (times.dropWhile fun t => decide (t < limit),
         level + (times.takeWhile fun t => decide (t < limit)).length,
         (List.range (times.takeWhile fun t => decide (t < limit)).length).foldl
           (fun m i => refine_mesh (level + i + 1) m) mesh) := by
  induction times generalizing level mesh with
  | nil => simp [additional_refinement_loop]
  | cons t times ih =>
    unfold additional_refinement_loop
    by_cases ht : t < limit
    · have htake : ((t :: times).takeWhile fun t => decide (t < limit))
          = t :: times.takeWhile fun t => decide (t < limit) := by
        simp [List.takeWhile_cons, ht]
      have hdrop : ((t :: times).dropWhile fun t => decide (t < limit))
          = times.dropWhile fun t => decide (t < limit) := by
        simp [List.dropWhile_cons, ht]
      rw [htake, List.length_cons] at hlevel
      have hmod : (level + 1) % 2 ^ 32 = level + 1 := Nat.mod_eq_of_lt (by omega)
      rw [if_pos ht, hmod, ih (level + 1) _ (by omega), htake, hdrop, List.length_cons,
        List.range_succ_eq_map, List.foldl_cons, List.foldl_map]
      simp only [Prod.mk.injEq, true_and]
      constructor
      · omega
      · congr 1
        funext m i
        congr 1
        omega
    · have htake : ((t :: times).takeWhile fun t => decide (t < limit)) = [] := by
        simp [List.takeWhile_cons, ht]
      have hdrop : ((t :: times).dropWhile fun t => decide (t < limit)) = t :: times := by
        simp [List.dropWhile_cons, ht]
      rw [if_neg ht, htake, hdrop]
      simp

/-- C27: `maybe_refine_mesh` is a total function (its loop runs once for each
entry it removes).  It removes from `additional_refinement_times` exactly the
leading entries smaller than `time + new_time_step`, up to the first entry that
is not, leaves the rest of the list as it is, and raises `max_refinement_level`
by one and refines for each removed entry; when it removes no entry,
`max_refinement_level` is unchanged.  The level stays an `unsigned int`. -/
theorem maybe_refine_mesh_spec {α σ : Type} [LinearOrderedField α]
    (refine_mesh : ℕ → σ → σ) (additional_refinement_times : List α)
    (adaptive_refinement_interval : ℕ) (time : α) (timestep_number : ℕ) (new_time_step : α)
    (max_refinement_level : ℕ) (mesh : σ)
    (hlevel : max_refinement_level
        + (additional_refinement_times.takeWhile fun t =>
            decide (t < time + new_time_step)).length < 2 ^ 32) :
    (maybe_refine_mesh refine_mesh additional_refinement_times adaptive_refinement_interval
          time timestep_number new_time_step max_refinement_level mesh).1
        = additional_refinement_times.dropWhile (fun t => decide (t < time + new_time_step))
      ∧ (additional_refinement_times.takeWhile fun t => decide (t < time + new_time_step))
          ++ (maybe_refine_mesh refine_mesh additional_refinement_times
              adaptive_refinement_interval time timestep_number new_time_step
              max_refinement_level mesh).1
        = additional_refinement_times
      ∧ (maybe_refine_mesh refine_mesh additional_refinement_times adaptive_refinement_interval
          time timestep_number new_time_step max_refinement_level mesh).2.1
        = max_refinement_level
          + (additional_refinement_times.takeWhile fun t =>
              decide (t < time + new_time_step)).length
      ∧ ((additional_refinement_times.takeWhile fun t =>
            decide (t < time + new_time_step)) ≠ [] →
          (maybe_refine_mesh refine_mesh additional_refinement_times
              adaptive_refinement_interval time timestep_number new_time_step
              max_refinement_level mesh).2.2
            = (List.range (additional_refinement_times.takeWhile fun t =>
                  decide (t < time + new_time_step)).length).foldl
                (fun m i => refine_mesh (max_refinement_level + i + 1) m) mesh)
      ∧ ((additional_refinement_times.takeWhile fun t =>
            decide (t < time + new_time_step)) = [] →
          (maybe_refine_mesh refine_mesh additional_refinement_times
              adaptive_refinement_interval time timestep_number new_time_step
              max_refinement_level mesh).2.1
            = max_refinement_level) := by
  have hloop := additional_refinement_loop_eq refine_mesh (time + new_time_step)
    additional_refinement_times max_refinement_level mesh hlevel
  have key : (maybe_refine_mesh refine_mesh additional_refinement_times
        adaptive_refinement_interval time timestep_number new_time_step
        max_refinement_level mesh).1
      = additional_refinement_times.dropWhile (fun t => decide (t < time + new_time_step))
      ∧ (maybe_refine_mesh refine_mesh additional_refinement_times
        adaptive_refinement_interval time timestep_number new_time_step
        max_refinement_level mesh).2.1
      = max_refinement_level
        + (additional_refinement_times.takeWhile fun t =>
            decide (t < time + new_time_step)).length
      ∧ ((additional_refinement_times.takeWhile fun t =>
            decide (t < time + new_time_step)) ≠ [] →
          (maybe_refine_mesh refine_mesh additional_refinement_times
              adaptive_refinement_interval time timestep_number new_time_step
              max_refinement_level mesh).2.2
            = (List.range (additional_refinement_times.takeWhile fun t =>
                  decide (t < time + new_time_step)).length).foldl
                (fun m i => refine_mesh (max_refinement_level + i + 1) m) mesh) := by
    unfold maybe_refine_mesh
    cases additional_refinement_times with
    | nil =>
      have hcond : ¬ (([] : List α).length > 0
          ∧ (([] : List α).head?.any fun front => decide (front < time + new_time_step))
            = true) := by
        simp
      rw [if_neg hcond]
      split_ifs <;> simp
    | cons t times =>
      by_cases ht : t < time + new_time_step
      · have hcond : (t :: times).length > 0
            ∧ ((t :: times).head?.any fun front => decide (front < time + new_time_step))
              = true := by
          simp [ht]
        rw [if_pos hcond, hloop]
        exact ⟨rfl, rfl, fun _ => rfl⟩
      · have hcond : ¬ ((t :: times).length > 0
            ∧ ((t :: times).head?.any fun front => decide (front < time + new_time_step))
              = true) := by
          simp [ht]
        have htake : ((t :: times).takeWhile fun t => decide (t < time + new_time_step))
            = [] := by
          simp [List.takeWhile_cons, ht]
        have hdrop : ((t :: times).dropWhile fun t => decide (t < time + new_time_step))
            = t :: times := by
          simp [List.dropWhile_cons, ht]
        rw [if_neg hcond, htake, hdrop]
        split_ifs <;> simp
  refine ⟨key.1, ?_, key.2.1, key.2.2, fun h => ?_⟩
  · rw [key.1]
    exact List.takeWhile_append_dropWhile _ _
  · rw [key.2.1, h]
    rfl

/-- Witness for C27: at time 10 with a step of 1 the entries 3 and 7 of
`[3, 7, 12, 5]` are removed, and the level 4 becomes 6 after refinements to the
levels 5 and 6 (the mesh is the list of the levels refined to, last first). -/
theorem maybe_refine_mesh_spec_witness :
    maybe_refine_mesh (fun level (mesh : List ℕ) => level :: mesh) ([3, 7, 12, 5] : List ℚ) 0
        10 2 1 4 []
      = ([12, 5], 6, [6, 5]) := by
  have h := maybe_refine_mesh_spec (fun level (mesh : List ℕ) => level :: mesh)
    ([3, 7, 12, 5] : List ℚ) 0 10 2 1 4 [] (by norm_num [List.takeWhile])
  have htake : (([3, 7, 12, 5] : List ℚ).takeWhile fun t => decide (t < 10 + 1)) = [3, 7] := by
    norm_num [List.takeWhile]
  have hdrop : (([3, 7, 12, 5] : List ℚ).dropWhile fun t => decide (t < 10 + 1)) = [12, 5] := by
    norm_num [List.dropWhile]
  obtain ⟨h1, -, h3, h4, -⟩ := h
  rw [htake] at h3 h4
  rw [hdrop] at h1
  have h5 := h4 (by simp)
  ext1
  · exact h1
  · ext1
    · exact h3
    · rw [h5]
      rfl

/-! ## The limiter of discontinuous Galerkin solutions -/

/-- The loop over `j` leaves an index alone that is not a degree of freedom of
the cell. -/
theorem limit_cell_dofs_of_not_mem {α : Type} [LinearOrderedField α] (theta average : α)
    (solution : ℕ → α) (local_dof_indices : List ℕ) (distributed_solution : ℕ → α) (idx : ℕ)
    (hidx : idx ∉ local_dof_indices) :
    limit_cell_dofs theta average solution local_dof_indices distributed_solution idx
      = distributed_solution idx := by
  unfold limit_cell_dofs
  induction local_dof_indices generalizing distributed_solution with
  | nil => rfl
  | cons j rest ih =>
    rw [List.foldl_cons, ih _ (fun h => hidx (List.mem_cons_of_mem _ h))]
    exact Function.update_noteq (fun h => hidx (by rw [h]; exact List.mem_cons_self _ _)) _ _

/-- The loop over `j` writes the limited value at every degree of freedom of the
cell. -/
theorem limit_cell_dofs_of_mem {α : Type} [LinearOrderedField α] (theta average : α)
    (solution : ℕ → α) (local_dof_indices : List ℕ) (distributed_solution : ℕ → α) (idx : ℕ)
    (hidx : idx ∈ local_dof_indices) :
    limit_cell_dofs theta average solution local_dof_indices distributed_solution idx
      = limited_solution_value theta (solution idx) average := by
  induction local_dof_indices generalizing distributed_solution with
  | nil => cases hidx
  | cons j rest ih =>
    by_cases hrest : idx ∈ rest
    · exact ih _ hrest
    · have hj : idx = j := by
        rcases List.mem_cons.mp hidx with h | h
        · exact h
        · exact absurd h hrest
      have h := limit_cell_dofs_of_not_mem theta average solution rest
        (Function.update distributed_solution j
          (limited_solution_value theta (solution j) average)) idx hrest
      unfold limit_cell_dofs at h ⊢
      rw [List.foldl_cons, h, hj]
      exact Function.update_same _ _ _

/-- A cell leaves an index alone that is not one of its degrees of freedom. -/
theorem limit_cell_of_not_mem {α : Type} [LinearOrderedField α]
    (min_solution_exact_global max_solution_exact_global : α) (solution : ℕ → α)
    (distributed_solution : ℕ → α) (cell : DGCell α) (idx : ℕ)
    (hidx : idx ∉ cell.local_dof_indices) :
    limit_cell min_solution_exact_global max_solution_exact_global solution
        distributed_solution cell idx
      = distributed_solution idx := by
  unfold limit_cell
  split_ifs
  · exact limit_cell_dofs_of_not_mem _ _ _ _ _ _ hidx
  · rfl
  · rfl

/-- The loop over the cells writes the limited value of a troubled cell at its
degrees of freedom, when no other cell shares them. -/
theorem foldl_limit_cell_of_troubled {α : Type} [LinearOrderedField α]
    (min_solution_exact_global max_solution_exact_global : α) (solution : ℕ → α)
    (cell : DGCell α) (idx : ℕ)
    (howned : cell.is_locally_owned = true)
    (htroubled : min_solution_local solution cell < min_solution_exact_global
      ∨ max_solution_local solution cell > max_solution_exact_global)
    (hidx : idx ∈ cell.local_dof_indices)
    (cells : List (DGCell α)) (distributed_solution : ℕ → α)
    (hDG : ∀ other ∈ cells, idx ∈ other.local_dof_indices → other = cell)
    (hcell : cell ∈ cells ∨ distributed_solution idx
      = limited_solution_value
          (theta min_solution_exact_global max_solution_exact_global solution cell)
          (solution idx) (local_solution_average solution cell)) :
    cells.foldl (limit_cell min_solution_exact_global max_solution_exact_global solution)
        distributed_solution idx
      = limited_solution_value
          (theta min_solution_exact_global max_solution_exact_global solution cell)
          (solution idx) (local_solution_average solution cell) := by
  induction cells generalizing distributed_solution with
  | nil =>
    rcases hcell with h | h
    · cases h
    · exact h
  | cons c cs ih =>
    rw [List.foldl_cons]
    apply ih _ (fun other hother => hDG other (List.mem_cons_of_mem _ hother))
    by_cases hc : idx ∈ c.local_dof_indices
    · have hcc : c = cell := hDG c (List.mem_cons_self _ _) hc
      right
      rw [hcc]
      unfold limit_cell
      rw [if_pos howned, if_pos htroubled]
      exact limit_cell_dofs_of_mem _ _ _ _ _ _ hidx
    · rcases hcell with h | h
      · rcases List.mem_cons.mp h with h | h
        · exact absurd hidx (h ▸ hc)
        · exact Or.inl h
      · right
        rw [limit_cell_of_not_mem _ _ _ _ _ _ hc]
        exact h

/-- The average of `troubled_solution` on `troubled_cell`. -/
theorem local_solution_average_troubled :
    local_solution_average troubled_solution troubled_cell = 1 / 2 := by
  norm_num [local_solution_average, local_area, get_function_value, troubled_cell,
    troubled_solution]

/-- A loop that adds one term for each entry of a list computes a sum. -/
theorem foldl_add_map_eq_sum {α β : Type} [LinearOrderedField α] (f : β → α) (l : List β)
    (a : α) : l.foldl (fun sum x => sum + f x) a = a + (l.map f).sum := by
  induction l generalizing a with
  | nil => simp
  | cons x l ih => rw [List.foldl_cons, ih, List.map_cons, List.sum_cons, add_assoc]

/-- The finite-element function of limited coefficients at a point where the
shape functions are as many as the coefficients. -/
theorem get_function_value_limited {α : Type} [LinearOrderedField α] (theta average : α)
    (solution limited : ℕ → α) (local_dof_indices : List ℕ) (shape_value : List α)
    (hlimited : ∀ idx ∈ local_dof_indices,
      limited idx = limited_solution_value theta (solution idx) average)
    (hlength : shape_value.length = local_dof_indices.length) :
    get_function_value limited local_dof_indices shape_value
      = theta * get_function_value solution local_dof_indices shape_value
        + (1 - theta) * average * shape_value.sum := by
  unfold get_function_value
  induction local_dof_indices generalizing shape_value with
  | nil =>
    cases shape_value with
    | nil => simp
    | cons phi rest => simp at hlength
  | cons j dofs ih =>
    cases shape_value with
    | nil => simp at hlength
    | cons phi rest =>
      rw [List.zipWith_cons_cons, List.sum_cons, List.zipWith_cons_cons, List.sum_cons,
        List.sum_cons,
        ih rest (fun idx hidx => hlimited idx (List.mem_cons_of_mem _ hidx))
          (by simpa using hlength),
        hlimited j (List.mem_cons_self _ _)]
      unfold limited_solution_value
      ring

/-- The cell average of limited coefficients is the cell average, whatever
the factor `theta`. -/
theorem local_solution_average_limited {α : Type} [LinearOrderedField α] (theta : α)
    (solution limited : ℕ → α) (cell : DGCell α)
    (harea : local_area cell ≠ 0)
    (hunity : ∀ q ∈ cell.fe_values_0,
      q.shape_value.length = cell.local_dof_indices.length ∧ q.shape_value.sum = 1)
    (hlimited : ∀ idx ∈ cell.local_dof_indices,
      limited idx
        = limited_solution_value theta (solution idx) (local_solution_average solution cell)) :
    local_solution_average limited cell = local_solution_average solution cell := by
  have hsum : ∀ (a : α) (points : List (FEValuesPoint α)),
      (∀ q ∈ points,
        q.shape_value.length = cell.local_dof_indices.length ∧ q.shape_value.sum = 1) →
      (∀ idx ∈ cell.local_dof_indices,
        limited idx = limited_solution_value theta (solution idx) a) →
      (points.map fun q =>
          get_function_value limited cell.local_dof_indices q.shape_value * q.JxW).sum
        = theta * (points.map fun q =>
            get_function_value solution cell.local_dof_indices q.shape_value * q.JxW).sum
          + (1 - theta) * a * (points.map fun q => q.JxW).sum := by
    intro a points hpoints ha
    induction points with
    | nil => simp
    | cons q points ih =>
      rw [List.map_cons, List.sum_cons, List.map_cons, List.sum_cons, List.map_cons,
        List.sum_cons, ih (fun p hp => hpoints p (List.mem_cons_of_mem _ hp)),
        get_function_value_limited theta a solution limited cell.local_dof_indices
          q.shape_value ha (hpoints q (List.mem_cons_self _ _)).1,
        (hpoints q (List.mem_cons_self _ _)).2]
      ring
  have harea_eq : local_area cell = (cell.fe_values_0.map fun q => q.JxW).sum := by
    unfold local_area
    rw [foldl_add_map_eq_sum, zero_add]
  have h := hsum (local_solution_average solution cell) cell.fe_values_0 hunity hlimited
  have hold : local_solution_average solution cell
      = (cell.fe_values_0.map fun q =>
          get_function_value solution cell.local_dof_indices q.shape_value * q.JxW).sum
        / local_area cell := by
    unfold local_solution_average
    rw [foldl_add_map_eq_sum, zero_add]
  have hnew : local_solution_average limited cell
      = (cell.fe_values_0.map fun q =>
          get_function_value limited cell.local_dof_indices q.shape_value * q.JxW).sum
        / local_area cell := by
    unfold local_solution_average
    rw [foldl_add_map_eq_sum, zero_add]
  rw [hnew, h, ← harea_eq]
  generalize (cell.fe_values_0.map fun q =>
    get_function_value solution cell.local_dof_indices q.shape_value * q.JxW).sum = S at hold
  rw [hold]
  field_simp
  ring

/-- The loop over the cells leaves alone the degrees of freedom of a cell that
is not owned or not troubled, when no other cell shares them. -/
theorem foldl_limit_cell_of_untroubled {α : Type} [LinearOrderedField α]
    (min_solution_exact_global max_solution_exact_global : α) (solution : ℕ → α)
    (cell : DGCell α) (idx : ℕ)
    (hcell : ¬ (cell.is_locally_owned = true
      ∧ (min_solution_local solution cell < min_solution_exact_global
        ∨ max_solution_local solution cell > max_solution_exact_global)))
    (cells : List (DGCell α)) (distributed_solution : ℕ → α)
    (hDG : ∀ other ∈ cells, idx ∈ other.local_dof_indices → other = cell) :
    cells.foldl (limit_cell min_solution_exact_global max_solution_exact_global solution)
        distributed_solution idx
      = distributed_solution idx := by
  induction cells generalizing distributed_solution with
  | nil => rfl
  | cons c cs ih =>
    rw [List.foldl_cons, ih _ (fun other hother => hDG other (List.mem_cons_of_mem _ hother))]
    by_cases hc : idx ∈ c.local_dof_indices
    · rw [hDG c (List.mem_cons_self _ _) hc]
      unfold limit_cell
      by_cases howned : cell.is_locally_owned = true
      · rw [if_pos howned, if_neg (fun h => hcell ⟨howned, h⟩)]
      · rw [if_neg howned]
    · exact limit_cell_of_not_mem _ _ _ _ _ _ hc

/-- C26: the limiter keeps the cell average.  For a cell with positive weights
`JxW` at its Gauss points, where the shape functions of the field sum to one,
the average over the cell of the values `theta * (v - a) + a` that the loop
over `j` writes is the average `a` of the values `v`, for every factor `theta`;
and so the average over the cell after `apply_limiter_to_dg_solutions` is the
average before, when the degrees of freedom of the cell lie in the block of the
field and no other cell shares them. -/
theorem limiter_keeps_cell_average {α : Type} [LinearOrderedField α] (solution : ℕ → α)
    (cell : DGCell α) (hne : cell.fe_values_0 ≠ [])
    (hpos : ∀ q ∈ cell.fe_values_0, 0 < q.JxW)
    (hunity : ∀ q ∈ cell.fe_values_0,
      q.shape_value.length = cell.local_dof_indices.length ∧ q.shape_value.sum = 1) :
    (∀ (theta : α) (distributed_solution : ℕ → α),
        local_solution_average
            (limit_cell_dofs theta (local_solution_average solution cell) solution
              cell.local_dof_indices distributed_solution) cell
          = local_solution_average solution cell)
      ∧ ∀ (min_solution_exact_global max_solution_exact_global : α) (in_block : ℕ → Bool)
          (cells : List (DGCell α)), cell ∈ cells →
          (∀ idx ∈ cell.local_dof_indices, in_block idx = true
            ∧ ∀ other ∈ cells, idx ∈ other.local_dof_indices → other = cell) →
          local_solution_average
              (apply_limiter_to_dg_solutions min_solution_exact_global
                max_solution_exact_global in_block cells solution) cell
            = local_solution_average solution cell := by
  have harea : local_area cell ≠ 0 := by
    unfold local_area
    rw [foldl_add_map_eq_sum, zero_add]
    refine (List.sum_pos _ ?_ ?_).ne'
    · intro w hw
      obtain ⟨q, hq, rfl⟩ := List.mem_map.mp hw
      exact hpos q hq
    · simpa using hne
  refine ⟨fun t distributed_solution => ?_, ?_⟩
  · exact local_solution_average_limited t solution _ cell harea hunity
      (fun idx hidx => limit_cell_dofs_of_mem _ _ _ _ _ _ hidx)
  · intro min_solution_exact_global max_solution_exact_global in_block cells hcell hdofs
    by_cases htroubled : cell.is_locally_owned = true
      ∧ (min_solution_local solution cell < min_solution_exact_global
        ∨ max_solution_local solution cell > max_solution_exact_global)
    · refine local_solution_average_limited
        (theta min_solution_exact_global max_solution_exact_global solution cell)
        solution _ cell harea hunity (fun idx hidx => ?_)
      unfold apply_limiter_to_dg_solutions
      simp only [(hdofs idx hidx).1, if_true]
      exact foldl_limit_cell_of_troubled _ _ _ _ _ htroubled.1 htroubled.2 hidx cells _
        (hdofs idx hidx).2 (Or.inl hcell)
    · refine local_solution_average_limited 1 solution _ cell harea hunity (fun idx hidx => ?_)
      unfold apply_limiter_to_dg_solutions
      simp only [(hdofs idx hidx).1, if_true]
      rw [foldl_limit_cell_of_untroubled _ _ _ _ _ htroubled cells _ (hdofs idx hidx).2]
      simp [limited_solution_value, (hdofs idx hidx).1]

/-- Witness for C26: on `troubled_cell` the average 1/2 of `troubled_solution`
is kept by the factor 5 and by the limiter with the bounds 0 and 1. -/
theorem limiter_keeps_cell_average_witness :
    local_solution_average
        (limit_cell_dofs 5 (local_solution_average troubled_solution troubled_cell)
          troubled_solution troubled_cell.local_dof_indices troubled_solution) troubled_cell
        = 1 / 2
      ∧ local_solution_average
          (apply_limiter_to_dg_solutions 0 1 (fun _ => true) [troubled_cell] troubled_solution)
          troubled_cell
        = 1 / 2 := by
  obtain ⟨h1, h2⟩ := limiter_keeps_cell_average troubled_solution troubled_cell
    (by simp [troubled_cell]) (by norm_num [troubled_cell]) (by norm_num [troubled_cell])
  have h3 := h1 5 troubled_solution
  have h4 := h2 0 1 (fun _ => true) [troubled_cell] (List.mem_singleton.mpr rfl)
    (fun idx _ => ⟨rfl, fun other hother _ => List.mem_singleton.mp hother⟩)
  exact ⟨h3.trans local_solution_average_troubled, h4.trans local_solution_average_troubled⟩

/-! ## The pressure normalization -/

/-- The sums of a quadrature over two lists of points. -/
theorem quadrature_sums_append {α : Type} [LinearOrderedField α] (a b : List (α × α)) :
    quadrature_sums (a ++ b) = quadrature_sums a + quadrature_sums b := by
  simp [quadrature_sums]

/-- The sums of a quadrature over no point. -/
theorem quadrature_sums_nil {α : Type} [LinearOrderedField α] :
    quadrature_sums ([] : List (α × α)) = 0 := by
  simp [quadrature_sums]

/-- The loop over `q` adds the sums of the quadrature of the pressure. -/
theorem pressure_quadrature_loop_eq {α : Type} [LinearOrderedField α] (vector : ℕ → α)
    (pressure_dof_indices : List ℕ) (points : List (FEValuesPoint α)) (my : α × α) :
    pressure_quadrature_loop vector pressure_dof_indices points my
      = my + quadrature_sums (points.map fun q =>
          (get_function_value vector pressure_dof_indices q.shape_value, q.JxW)) := by
  unfold pressure_quadrature_loop
  induction points generalizing my with
  | nil => rw [List.foldl_nil, List.map_nil, quadrature_sums_nil, add_zero]
  | cons q points ih =>
    rw [List.foldl_cons, ih, List.map_cons, ← List.singleton_append, quadrature_sums_append,
      ← add_assoc]
    congr 1
    simp only [quadrature_sums, List.map_cons, List.map_nil, List.sum_cons, List.sum_nil,
      add_zero]
    rfl

/-- A loop over the cells that adds the sums of a quadrature on every owned
cell adds the sums of the quadrature over all owned cells. -/
theorem foldl_owned_cells_eq {α : Type} [LinearOrderedField α]
    (step : α × α → PressureCell α → α × α) (points : PressureCell α → List (α × α))
    (hstep : ∀ my cell, step my cell
      = if cell.is_locally_owned then my + quadrature_sums (points cell) else my)
    (cells : List (PressureCell α)) (my : α × α) :
    cells.foldl step my
      = my + quadrature_sums
          ((cells.filter fun cell => cell.is_locally_owned).flatMap points) := by
  induction cells generalizing my with
  | nil => rw [List.foldl_nil, List.filter_nil, List.flatMap_nil, quadrature_sums_nil, add_zero]
  | cons cell cells ih =>
    rw [List.foldl_cons, ih, hstep]
    by_cases howned : cell.is_locally_owned = true
    · rw [if_pos howned, List.filter_cons_of_pos howned, List.flatMap_cons,
        quadrature_sums_append, add_assoc]
    · rw [if_neg howned, List.filter_cons_of_neg howned]

/-- The loop over the faces of a cell adds the sums of the quadrature over its
faces of the surface. -/
theorem foldl_faces_eq {α : Type} [LinearOrderedField α] (ops : MathOps α) (dim : ℕ)
    (vector : ℕ → α) (pressure_dof_indices : List ℕ) (faces : List (PressureFace α))
    (my : α × α) :
    faces.foldl
        (fun my face =>
          if is_surface_face ops dim face then
            pressure_quadrature_loop vector pressure_dof_indices face.fe_face_values my
          else my)
        my
      = my + quadrature_sums
          (((faces.filter (is_surface_face ops dim)).flatMap fun face =>
              face.fe_face_values).map fun q =>
            (get_function_value vector pressure_dof_indices q.shape_value, q.JxW)) := by
  induction faces generalizing my with
  | nil =>
    rw [List.foldl_nil, List.filter_nil, List.flatMap_nil, List.map_nil, quadrature_sums_nil,
      add_zero]
  | cons face faces ih =>
    rw [List.foldl_cons, ih]
    by_cases hface : is_surface_face ops dim face = true
    · rw [if_pos hface, List.filter_cons_of_pos hface, List.flatMap_cons, List.map_append,
        quadrature_sums_append, pressure_quadrature_loop_eq, add_assoc]
    · rw [if_neg hface, List.filter_cons_of_neg hface]

/-- The integrals of the branch `"volume"` on one process. -/
theorem volume_integrals_eq {α : Type} [LinearOrderedField α] (vector : ℕ → α)
    (cells : List (PressureCell α)) :
    volume_integrals vector cells
      = quadrature_sums (pressure_points volume_quadrature [cells] vector) := by
  unfold volume_integrals pressure_points
  rw [foldl_owned_cells_eq _
    (fun cell => (volume_quadrature cell).map fun q =>
      (get_function_value vector cell.pressure_dof_indices q.shape_value, q.JxW))
    (fun my cell => by
      simp only [pressure_quadrature_loop_eq, volume_quadrature])]
  simp

/-- The integrals of the branch `"surface"` on one process. -/
theorem surface_integrals_eq {α : Type} [LinearOrderedField α] (ops : MathOps α) (dim : ℕ)
    (vector : ℕ → α) (cells : List (PressureCell α)) :
    surface_integrals ops dim vector cells
      = quadrature_sums (pressure_points (surface_quadrature ops dim) [cells] vector) := by
  unfold surface_integrals pressure_points
  rw [foldl_owned_cells_eq _
    (fun cell => (surface_quadrature ops dim cell).map fun q =>
      (get_function_value vector cell.pressure_dof_indices q.shape_value, q.JxW))
    (fun my cell => by
      simp only [foldl_faces_eq, surface_quadrature])]
  simp

/-- The sum over the processes of the sums of their quadratures is the sum of
the quadrature over the cells that the processes own. -/
theorem MPI_sum_eq {α : Type} [LinearOrderedField α]
    (quadrature : PressureCell α → List (FEValuesPoint α))
    (processes : List (List (PressureCell α))) (vector : ℕ → α) :
    MPI_sum (processes.map fun cells =>
        quadrature_sums (pressure_points quadrature [cells] vector))
      = quadrature_sums (pressure_points quadrature processes vector) := by
  have h : ∀ (temp : α × α),
      (processes.map fun cells =>
          quadrature_sums (pressure_points quadrature [cells] vector)).foldl
          (fun temp my_temp => (temp.1 + my_temp.1, temp.2 + my_temp.2)) temp
        = temp + quadrature_sums (pressure_points quadrature processes vector) := by
    induction processes with
    | nil =>
      intro temp
      simp [pressure_points, quadrature_sums_nil]
    | cons cells processes ih =>
      intro temp
      rw [List.map_cons, List.foldl_cons, ih]
      have hsplit : pressure_points quadrature (cells :: processes) vector
          = pressure_points quadrature [cells] vector
            ++ pressure_points quadrature processes vector := by
        simp [pressure_points]
      rw [hsplit, quadrature_sums_append, ← add_assoc]
      rfl
  unfold MPI_sum
  rw [h]
  exact zero_add _

/-- The loop over `j` of `normalize_pressure` writes the adjusted value at every
pressure degree of freedom of the cell, and keeps an adjusted value. -/
theorem foldl_update_adjusted {α : Type} [LinearOrderedField α] (pressure_adjustment : α)
    (vector : ℕ → α) (idx : ℕ) (pressure_dof_indices : List ℕ) (distributed_vector : ℕ → α)
    (h : idx ∈ pressure_dof_indices
      ∨ distributed_vector idx = vector idx + pressure_adjustment) :
    pressure_dof_indices.foldl
        (fun distributed_vector idx =>
          Function.update distributed_vector idx (vector idx + pressure_adjustment))
        distributed_vector idx
      = vector idx + pressure_adjustment := by
  induction pressure_dof_indices generalizing distributed_vector with
  | nil =>
    rcases h with h | h
    · cases h
    · exact h
  | cons j rest ih =>
    rw [List.foldl_cons]
    apply ih
    by_cases hj : idx = j
    · right
      rw [hj]
      exact Function.update_same _ _ _
    · rcases h with h | h
      · rcases List.mem_cons.mp h with h | h
        · exact absurd h hj
        · exact Or.inl h
      · right
        rw [Function.update_noteq hj]
        exact h

/-- The loop over the cells of one process writes the adjusted value at every
pressure degree of freedom of an owned cell, and keeps an adjusted value. -/
theorem adjust_pressure_dofs_adjusted {α : Type} [LinearOrderedField α]
    (pressure_adjustment : α) (vector : ℕ → α) (idx : ℕ) (cells : List (PressureCell α))
    (distributed_vector : ℕ → α)
    (h : (∃ cell ∈ cells, cell.is_locally_owned = true ∧ idx ∈ cell.pressure_dof_indices)
      ∨ distributed_vector idx = vector idx + pressure_adjustment) :
    adjust_pressure_dofs pressure_adjustment vector cells distributed_vector idx
      = vector idx + pressure_adjustment := by
  unfold adjust_pressure_dofs
  induction cells generalizing distributed_vector with
  | nil =>
    rcases h with ⟨cell, hcell, -⟩ | h
    · cases hcell
    · exact h
  | cons c cs ih =>
    rw [List.foldl_cons]
    apply ih
    by_cases hc : c.is_locally_owned = true
    · rw [if_pos hc]
      by_cases hidx : idx ∈ c.pressure_dof_indices
      · exact Or.inr (foldl_update_adjusted _ _ _ _ _ (Or.inl hidx))
      · rcases h with ⟨cell, hcell, howned, hmem⟩ | h
        · rcases List.mem_cons.mp hcell with hcc | hcc
          · exact absurd (hcc ▸ hmem) hidx
          · exact Or.inl ⟨cell, hcc, howned, hmem⟩
        · exact Or.inr (foldl_update_adjusted _ _ _ _ _ (Or.inr h))
    · rw [if_neg hc]
      rcases h with ⟨cell, hcell, howned, hmem⟩ | h
      · rcases List.mem_cons.mp hcell with hcc | hcc
        · exact absurd (hcc ▸ howned) hc
        · exact Or.inl ⟨cell, hcc, howned, hmem⟩
      · exact Or.inr h

/-- The loops of all processes write the adjusted value at every pressure
degree of freedom of a cell that its process owns. -/
theorem foldl_adjust_pressure_dofs_adjusted {α : Type} [LinearOrderedField α]
    (pressure_adjustment : α) (vector : ℕ → α) (idx : ℕ)
    (processes : List (List (PressureCell α))) (distributed_vector : ℕ → α)
    (h : (∃ cells ∈ processes, ∃ cell ∈ cells,
        cell.is_locally_owned = true ∧ idx ∈ cell.pressure_dof_indices)
      ∨ distributed_vector idx = vector idx + pressure_adjustment) :
    processes.foldl
        (fun distributed_vector cells =>
          adjust_pressure_dofs pressure_adjustment vector cells distributed_vector)
        distributed_vector idx
      = vector idx + pressure_adjustment := by
  induction processes generalizing distributed_vector with
  | nil =>
    rcases h with ⟨cells, hcells, -⟩ | h
    · cases hcells
    · exact h
  | cons cells processes ih =>
    rw [List.foldl_cons]
    apply ih
    rcases h with ⟨cells', hcells', hex⟩ | h
    · rcases List.mem_cons.mp hcells' with hcc | hcc
      · exact Or.inr (adjust_pressure_dofs_adjusted _ _ _ _ _ (Or.inl (hcc ▸ hex)))
      · exact Or.inl ⟨cells', hcc, hex⟩
    · exact Or.inr (adjust_pressure_dofs_adjusted _ _ _ _ _ (Or.inr h))

/-- The change of the first pressure degree of freedom of a cell keeps an
adjusted value. -/
theorem adjust_first_pressure_dof_keeps {α : Type} [LinearOrderedField α]
    (pressure_adjustment : α) (vector : ℕ → α) (idx : ℕ) (pressure_dof_indices : List ℕ)
    (distributed_vector : ℕ → α)
    (h : distributed_vector idx = vector idx + pressure_adjustment) :
    adjust_first_pressure_dof pressure_adjustment vector pressure_dof_indices
        distributed_vector idx
      = vector idx + pressure_adjustment := by
  cases pressure_dof_indices with
  | nil => exact h
  | cons first rest =>
    show Function.update distributed_vector first (vector first + pressure_adjustment) idx
      = vector idx + pressure_adjustment
    by_cases hf : idx = first
    · rw [hf]
      exact Function.update_same _ _ _
    · rw [Function.update_noteq hf]
      exact h

/-- The loop over the cells of one process writes the adjusted value at the
first pressure degree of freedom of every owned cell, and keeps an adjusted
value. -/
theorem adjust_first_pressure_dofs_adjusted {α : Type} [LinearOrderedField α]
    (pressure_adjustment : α) (vector : ℕ → α) (idx : ℕ) (cells : List (PressureCell α))
    (distributed_vector : ℕ → α)
    (h : (∃ cell ∈ cells, cell.is_locally_owned = true
        ∧ cell.pressure_dof_indices.head? = some idx)
      ∨ distributed_vector idx = vector idx + pressure_adjustment) :
    adjust_first_pressure_dofs pressure_adjustment vector cells distributed_vector idx
      = vector idx + pressure_adjustment := by
  unfold adjust_first_pressure_dofs
  induction cells generalizing distributed_vector with
  | nil =>
    rcases h with ⟨cell, hcell, -⟩ | h
    · cases hcell
    · exact h
  | cons c cs ih =>
    rw [List.foldl_cons]
    apply ih
    rcases h with ⟨cell, hcell, howned, hhead⟩ | h
    · rcases List.mem_cons.mp hcell with hcc | hcc
      · right
        rw [← hcc, if_pos howned]
        cases hdofs : cell.pressure_dof_indices with
        | nil => rw [hdofs] at hhead; cases hhead
        | cons first rest =>
          rw [hdofs] at hhead
          have hf : first = idx := by simpa using hhead
          show Function.update distributed_vector first (vector first + pressure_adjustment)
            idx = vector idx + pressure_adjustment
          rw [hf]
          exact Function.update_same _ _ _
      · exact Or.inl ⟨cell, hcc, howned, hhead⟩
    · right
      split_ifs
      · exact adjust_first_pressure_dof_keeps _ _ _ _ _ h
      · exact h

/-- The loop over the cells of one process leaves alone an index that is not the
first pressure degree of freedom of an owned cell. -/
theorem adjust_first_pressure_dofs_unchanged {α : Type} [LinearOrderedField α]
    (pressure_adjustment : α) (vector : ℕ → α) (idx : ℕ) (cells : List (PressureCell α))
    (distributed_vector : ℕ → α)
    (h : ∀ cell ∈ cells, cell.is_locally_owned = true →
      cell.pressure_dof_indices.head? ≠ some idx) :
    adjust_first_pressure_dofs pressure_adjustment vector cells distributed_vector idx
      = distributed_vector idx := by
  unfold adjust_first_pressure_dofs
  induction cells generalizing distributed_vector with
  | nil => rfl
  | cons c cs ih =>
    rw [List.foldl_cons, ih _ (fun cell hcell => h cell (List.mem_cons_of_mem _ hcell))]
    split_ifs with hc
    · have hhead := h c (List.mem_cons_self _ _) hc
      cases hdofs : c.pressure_dof_indices with
      | nil => rfl
      | cons first rest =>
        rw [hdofs] at hhead
        show Function.update distributed_vector first (vector first + pressure_adjustment)
          idx = distributed_vector idx
        exact Function.update_noteq (fun hf => hhead (by rw [hf]; rfl)) _ _
    · rfl

/-- The loops of all processes write the adjusted value at the first pressure
degree of freedom of every cell that its process owns. -/
theorem foldl_adjust_first_pressure_dofs_adjusted {α : Type} [LinearOrderedField α]
    (pressure_adjustment : α) (vector : ℕ → α) (idx : ℕ)
    (processes : List (List (PressureCell α))) (distributed_vector : ℕ → α)
    (h : (∃ cells ∈ processes, ∃ cell ∈ cells,
        cell.is_locally_owned = true ∧ cell.pressure_dof_indices.head? = some idx)
      ∨ distributed_vector idx = vector idx + pressure_adjustment) :
    processes.foldl
        (fun distributed_vector cells =>
          adjust_first_pressure_dofs pressure_adjustment vector cells distributed_vector)
        distributed_vector idx
      = vector idx + pressure_adjustment := by
  induction processes generalizing distributed_vector with
  | nil =>
    rcases h with ⟨cells, hcells, -⟩ | h
    · cases hcells
    · exact h
  | cons cells processes ih =>
    rw [List.foldl_cons]
    apply ih
    rcases h with ⟨cells', hcells', hex⟩ | h
    · rcases List.mem_cons.mp hcells' with hcc | hcc
      · exact Or.inr (adjust_first_pressure_dofs_adjusted _ _ _ _ _ (Or.inl (hcc ▸ hex)))
      · exact Or.inl ⟨cells', hcc, hex⟩
    · exact Or.inr (adjust_first_pressure_dofs_adjusted _ _ _ _ _ (Or.inr h))

/-- The loops of all processes leave alone an index that is not the first
pressure degree of freedom of a cell that its process owns. -/
theorem foldl_adjust_first_pressure_dofs_unchanged {α : Type} [LinearOrderedField α]
    (pressure_adjustment : α) (vector : ℕ → α) (idx : ℕ)
    (processes : List (List (PressureCell α))) (distributed_vector : ℕ → α)
    (h : ∀ cells ∈ processes, ∀ cell ∈ cells, cell.is_locally_owned = true →
      cell.pressure_dof_indices.head? ≠ some idx) :
    processes.foldl
        (fun distributed_vector cells =>
          adjust_first_pressure_dofs pressure_adjustment vector cells distributed_vector)
        distributed_vector idx
      = distributed_vector idx := by
  induction processes generalizing distributed_vector with
  | nil => rfl
  | cons cells processes ih =>
    rw [List.foldl_cons, ih _ (fun cells' hcells' => h cells' (List.mem_cons_of_mem _ hcells'))]
    exact adjust_first_pressure_dofs_unchanged _ _ _ _ _ (h cells (List.mem_cons_self _ _))

/-- The pressure at a point where the shape functions are as many as the
pressure degrees of freedom, after a constant is added to each of them. -/
theorem get_function_value_add_const {α : Type} [LinearOrderedField α]
    (pressure_adjustment : α) (vector adjusted : ℕ → α) (pressure_dof_indices : List ℕ)
    (shape_value : List α)
    (hadjusted : ∀ idx ∈ pressure_dof_indices, adjusted idx = vector idx + pressure_adjustment)
    (hlength : shape_value.length = pressure_dof_indices.length) :
    get_function_value adjusted pressure_dof_indices shape_value
      = get_function_value vector pressure_dof_indices shape_value
        + pressure_adjustment * shape_value.sum := by
  unfold get_function_value
  induction pressure_dof_indices generalizing shape_value with
  | nil =>
    cases shape_value with
    | nil => simp
    | cons phi rest => simp at hlength
  | cons j dofs ih =>
    cases shape_value with
    | nil => simp at hlength
    | cons phi rest =>
      rw [List.zipWith_cons_cons, List.sum_cons, List.zipWith_cons_cons, List.sum_cons,
        List.sum_cons,
        ih rest (fun idx hidx => hadjusted idx (List.mem_cons_of_mem _ hidx))
          (by simpa using hlength),
        hadjusted j (List.mem_cons_self _ _)]
      ring

/-- The pressure at a point depends only on the pressure degrees of freedom of
the cell. -/
theorem get_function_value_congr {α : Type} [LinearOrderedField α]
    (vector adjusted : ℕ → α) (pressure_dof_indices : List ℕ) (shape_value : List α)
    (hadjusted : ∀ idx ∈ pressure_dof_indices, adjusted idx = vector idx) :
    get_function_value adjusted pressure_dof_indices shape_value
      = get_function_value vector pressure_dof_indices shape_value := by
  unfold get_function_value
  induction pressure_dof_indices generalizing shape_value with
  | nil => simp
  | cons j dofs ih =>
    cases shape_value with
    | nil => simp
    | cons phi rest =>
      rw [List.zipWith_cons_cons, List.sum_cons, List.zipWith_cons_cons, List.sum_cons,
        ih rest (fun idx hidx => hadjusted idx (List.mem_cons_of_mem _ hidx)),
        hadjusted j (List.mem_cons_self _ _)]

/-- The pressure at a point where the first shape function is one, after a
constant is added to the first pressure degree of freedom only. -/
theorem get_function_value_add_first {α : Type} [LinearOrderedField α]
    (pressure_adjustment : α) (vector adjusted : ℕ → α) (pressure_dof_indices : List ℕ)
    (shape_value : List α) (hdofs : pressure_dof_indices ≠ [])
    (hshape : shape_value.head? = some 1)
    (hfirst : ∀ first ∈ pressure_dof_indices.head?,
      adjusted first = vector first + pressure_adjustment)
    (htail : ∀ idx ∈ pressure_dof_indices.tail, adjusted idx = vector idx) :
    get_function_value adjusted pressure_dof_indices shape_value
      = get_function_value vector pressure_dof_indices shape_value + pressure_adjustment := by
  cases pressure_dof_indices with
  | nil => exact absurd rfl hdofs
  | cons first tail =>
    cases shape_value with
    | nil => cases hshape
    | cons phi rest =>
      have hphi : phi = 1 := by simpa using hshape
      have h := get_function_value_congr vector adjusted tail rest htail
      unfold get_function_value at h ⊢
      rw [List.zipWith_cons_cons, List.sum_cons, List.zipWith_cons_cons, List.sum_cons, h,
        hfirst first (by simp), hphi]
      ring

/-- The mean of values that are all raised by a constant is raised by the
constant. -/
theorem weighted_mean_map_add {α : Type} [LinearOrderedField α] (points : List (α × α))
    (c : α) (hweight : (points.map fun p => p.2).sum ≠ 0) :
    weighted_mean (points.map fun p => (p.1 + c, p.2)) = weighted_mean points + c := by
  have h1 : ∀ points : List (α × α),
      ((points.map fun p => (p.1 + c, p.2)).map fun p => p.1 * p.2).sum
        = (points.map fun p => p.1 * p.2).sum + c * (points.map fun p => p.2).sum := by
    intro points
    induction points with
    | nil => simp
    | cons p points ih =>
      simp only [List.map_cons, List.sum_cons] at ih ⊢
      rw [ih]
      ring
  have h2 : ((points.map fun p => (p.1 + c, p.2)).map fun p => p.2).sum
      = (points.map fun p => p.2).sum := by
    rw [List.map_map]
    rfl
  unfold weighted_mean
  rw [h1, h2, add_div, mul_div_assoc, div_self hweight, mul_one]

/-- Equal functions on the entries of a list give equal concatenations. -/
theorem flatMap_congr_of_mem {β γ : Type} (l : List β) (f g : β → List γ)
    (h : ∀ x ∈ l, f x = g x) : l.flatMap f = l.flatMap g := by
  induction l with
  | nil => rfl
  | cons x l ih =>
    rw [List.flatMap_cons, List.flatMap_cons, h x (List.mem_cons_self _ _),
      ih (fun y hy => h y (List.mem_cons_of_mem _ hy))]

/-- The values of the pressure at the quadrature points of the owned cells are
all raised by a constant when they are so on each owned cell. -/
theorem pressure_points_add {α : Type} [LinearOrderedField α]
    (quadrature : PressureCell α → List (FEValuesPoint α))
    (processes : List (List (PressureCell α))) (vector adjusted : ℕ → α) (c : α)
    (h : ∀ cells ∈ processes, ∀ cell ∈ cells, cell.is_locally_owned = true →
      ∀ q ∈ quadrature cell,
        get_function_value adjusted cell.pressure_dof_indices q.shape_value
          = get_function_value vector cell.pressure_dof_indices q.shape_value + c) :
    pressure_points quadrature processes adjusted
      = (pressure_points quadrature processes vector).map fun p => (p.1 + c, p.2) := by
  unfold pressure_points
  rw [List.map_flatMap]
  refine flatMap_congr_of_mem _ _ _ (fun cells hcells => ?_)
  rw [List.map_flatMap]
  refine flatMap_congr_of_mem _ _ _ (fun cell hcell => ?_)
  rw [List.map_map]
  refine List.map_congr_left (fun q hq => ?_)
  have howned : cell.is_locally_owned = true := by
    simpa using (List.mem_filter.mp hcell).2
  show (_, _) = (_, _)
  rw [h cells hcells cell (List.mem_filter.mp hcell).1 howned q hq]

/-- The part of `normalize_pressure` that changes the vector raises the pressure
by the adjustment at every quadrature point of the owned cells: in the first
two branches when the pressure shape functions sum to one (and, in the first,
the pressure degrees of freedom lie in the pressure block), in the third when
the first pressure shape function is one and the first pressure degree of
freedom of a cell is no other degree of freedom of a cell. -/
theorem add_pressure_adjustment_points {α : Type} [LinearOrderedField α]
    (parameters : PressureParameters α) (in_pressure_block : ℕ → Bool)
    (processes : List (List (PressureCell α))) (vector : ℕ → α) (pressure_adjustment : α)
    (quadrature : PressureCell α → List (FEValuesPoint α))
    (hQ : parameters.use_locally_conservative_discretization = false →
      (∀ cells ∈ processes, ∀ cell ∈ cells, cell.is_locally_owned = true →
        ∀ q ∈ quadrature cell,
          q.shape_value.length = cell.pressure_dof_indices.length ∧ q.shape_value.sum = 1)
      ∧ (parameters.block_index_velocities ≠ parameters.block_index_pressure
          ∧ parameters.include_melt_transport = false →
        ∀ cells ∈ processes, ∀ cell ∈ cells, cell.is_locally_owned = true →
          ∀ idx ∈ cell.pressure_dof_indices, in_pressure_block idx = true))
    (hDGP : parameters.use_locally_conservative_discretization = true →
      ∀ cells ∈ processes, ∀ cell ∈ cells, cell.is_locally_owned = true →
        cell.pressure_dof_indices ≠ []
        ∧ (∀ q ∈ quadrature cell, q.shape_value.head? = some 1)
        ∧ ∀ other_cells ∈ processes, ∀ other ∈ other_cells, other.is_locally_owned = true →
            ∀ first ∈ other.pressure_dof_indices.head?,
              first ∉ cell.pressure_dof_indices.tail) :
    pressure_points quadrature processes
        (add_pressure_adjustment parameters in_pressure_block processes vector
          pressure_adjustment)
      = (pressure_points quadrature processes vector).map fun p =>
          (p.1 + pressure_adjustment, p.2) := by
  refine pressure_points_add _ _ _ _ _ (fun cells hcells cell hcell howned q hq => ?_)
  unfold add_pressure_adjustment
  by_cases hlc : parameters.use_locally_conservative_discretization = false
  · obtain ⟨hunity, hblock⟩ := hQ hlc
    obtain ⟨hlength, hsum⟩ := hunity cells hcells cell hcell howned q hq
    rw [if_pos hlc]
    by_cases hsep : parameters.block_index_velocities ≠ parameters.block_index_pressure
        ∧ parameters.include_melt_transport = false
    · rw [if_pos hsep,
        get_function_value_add_const pressure_adjustment vector _ _ _
          (fun idx hidx => by
            simp only [hblock hsep cells hcells cell hcell howned idx hidx, if_true])
          hlength,
        hsum, mul_one]
    · rw [if_neg hsep,
        get_function_value_add_const pressure_adjustment vector _ _ _
          (fun idx hidx =>
            foldl_adjust_pressure_dofs_adjusted _ _ _ _ _
              (Or.inl ⟨cells, hcells, cell, hcell, howned, hidx⟩))
          hlength,
        hsum, mul_one]
  · have hlc' : parameters.use_locally_conservative_discretization = true := by
      simpa using hlc
    obtain ⟨hdofs, hshape, hother⟩ := hDGP hlc' cells hcells cell hcell howned
    rw [if_neg hlc]
    refine get_function_value_add_first pressure_adjustment vector _ _ _ hdofs (hshape q hq)
      (fun first hfirst =>
        foldl_adjust_first_pressure_dofs_adjusted _ _ _ _ _
          (Or.inl ⟨cells, hcells, cell, hcell, howned, by simpa using hfirst⟩))
      (fun idx hidx => ?_)
    refine foldl_adjust_first_pressure_dofs_unchanged _ _ _ _ _
      (fun other_cells hother_cells other hother_mem hother_owned hhead => ?_)
    exact hother other_cells hother_cells other hother_mem hother_owned idx
      (by simpa using hhead) hidx

/-- The result of `normalize_pressure` for the normalization `"volume"`. -/
theorem normalize_pressure_of_volume {α : Type} [LinearOrderedField α] (ops : MathOps α)
    (dim : ℕ) (parameters : PressureParameters α) (in_pressure_block : ℕ → Bool)
    (processes : List (List (PressureCell α))) (vector : ℕ → α)
    (hvolume : parameters.pressure_normalization = "volume") :
    normalize_pressure ops dim parameters in_pressure_block processes vector
      = some (0 - weighted_mean (pressure_points volume_quadrature processes vector),
          add_pressure_adjustment parameters in_pressure_block processes vector
            (0 - weighted_mean (pressure_points volume_quadrature processes vector))) := by
  have hmap : processes.map (volume_integrals vector)
      = processes.map fun cells =>
          quadrature_sums (pressure_points volume_quadrature [cells] vector) :=
    List.map_congr_left (fun cells _ => volume_integrals_eq vector cells)
  have hadj : -(quadrature_sums (pressure_points volume_quadrature processes vector)).1
        / (quadrature_sums (pressure_points volume_quadrature processes vector)).2
      = 0 - weighted_mean (pressure_points volume_quadrature processes vector) := by
    unfold weighted_mean quadrature_sums
    rw [neg_div, zero_sub]
  unfold normalize_pressure
  rw [hvolume, if_neg (by decide), if_neg (by decide), if_pos rfl]
  simp only [if_neg (show ¬ ("volume" = "surface") by decide)]
  rw [hmap, MPI_sum_eq, hadj]

/-- The result of `normalize_pressure` for the normalization `"surface"`. -/
theorem normalize_pressure_of_surface {α : Type} [LinearOrderedField α] (ops : MathOps α)
    (dim : ℕ) (parameters : PressureParameters α) (in_pressure_block : ℕ → Bool)
    (processes : List (List (PressureCell α))) (vector : ℕ → α)
    (hsurface : parameters.pressure_normalization = "surface") :
    normalize_pressure ops dim parameters in_pressure_block processes vector
      = some (parameters.surface_pressure
            - weighted_mean (pressure_points (surface_quadrature ops dim) processes vector),
          add_pressure_adjustment parameters in_pressure_block processes vector
            (parameters.surface_pressure
              - weighted_mean
                  (pressure_points (surface_quadrature ops dim) processes vector))) := by
  have hmap : processes.map (surface_integrals ops dim vector)
      = processes.map fun cells =>
          quadrature_sums (pressure_points (surface_quadrature ops dim) [cells] vector) :=
    List.map_congr_left (fun cells _ => surface_integrals_eq ops dim vector cells)
  have hadj : -(quadrature_sums
          (pressure_points (surface_quadrature ops dim) processes vector)).1
        / (quadrature_sums (pressure_points (surface_quadrature ops dim) processes vector)).2
        + parameters.surface_pressure
      = parameters.surface_pressure
        - weighted_mean (pressure_points (surface_quadrature ops dim) processes vector) := by
    unfold weighted_mean quadrature_sums
    rw [neg_div]
    ring
  unfold normalize_pressure
  rw [hsurface, if_neg (by decide), if_pos rfl]
  simp only [if_pos]
  rw [hmap, MPI_sum_eq, hadj]

/-- C21: `normalize_pressure` with the normalization `"no"` returns 0 and leaves
the vector as it is.  With the normalization `"volume"` (target 0, mean over the
quadrature points of the owned cells) or `"surface"` (target
`parameters.surface_pressure`, mean over the quadrature points of the faces of
the surface of the owned cells) it returns the target minus the
quadrature-weighted mean of the pressure, adds that adjustment to the pressure
at every quadrature point, and so the mean of the new pressure is the target.
The weights must not sum to zero, and the finite element must be the one of
the branch taken: pressure shape functions that sum to one (and pressure degrees
of freedom in the pressure block, where the whole block is changed), or, for the
locally conservative discretization, a first pressure shape function that is
one and a first pressure degree of freedom that is no other degree of freedom
of a cell. -/
theorem normalize_pressure_spec {α : Type} [LinearOrderedField α] (ops : MathOps α) (dim : ℕ)
    (parameters : PressureParameters α) (in_pressure_block : ℕ → Bool)
    (processes : List (List (PressureCell α))) (vector : ℕ → α) :
    (parameters.pressure_normalization = "no" →
        normalize_pressure ops dim parameters in_pressure_block processes vector
          = some (0, vector))
      ∧ ∀ (quadrature : PressureCell α → List (FEValuesPoint α)) (target : α),
          (parameters.pressure_normalization = "volume" ∧ quadrature = volume_quadrature
              ∧ target = 0
            ∨ parameters.pressure_normalization = "surface"
              ∧ quadrature = surface_quadrature ops dim
              ∧ target = parameters.surface_pressure) →
          ((pressure_points quadrature processes vector).map fun p => p.2).sum ≠ 0 →
          (parameters.use_locally_conservative_discretization = false →
            (∀ cells ∈ processes, ∀ cell ∈ cells, cell.is_locally_owned = true →
              ∀ q ∈ quadrature cell,
                q.shape_value.length = cell.pressure_dof_indices.length
                  ∧ q.shape_value.sum = 1)
            ∧ (parameters.block_index_velocities ≠ parameters.block_index_pressure
                ∧ parameters.include_melt_transport = false →
              ∀ cells ∈ processes, ∀ cell ∈ cells, cell.is_locally_owned = true →
                ∀ idx ∈ cell.pressure_dof_indices, in_pressure_block idx = true)) →
          (parameters.use_locally_conservative_discretization = true →
            ∀ cells ∈ processes, ∀ cell ∈ cells, cell.is_locally_owned = true →
              cell.pressure_dof_indices ≠ []
              ∧ (∀ q ∈ quadrature cell, q.shape_value.head? = some 1)
              ∧ ∀ other_cells ∈ processes, ∀ other ∈ other_cells,
                  other.is_locally_owned = true →
                  ∀ first ∈ other.pressure_dof_indices.head?,
                    first ∉ cell.pressure_dof_indices.tail) →
          ∃ adjusted : ℕ → α,
            normalize_pressure ops dim parameters in_pressure_block processes vector
                = some (target - weighted_mean (pressure_points quadrature processes vector),
                    adjusted)
              ∧ pressure_points quadrature processes adjusted
                = (pressure_points quadrature processes vector).map (fun p =>
                    (p.1 + (target
                      - weighted_mean (pressure_points quadrature processes vector)), p.2))
              ∧ weighted_mean (pressure_points quadrature processes adjusted) = target := by
  constructor
  · intro hno
    unfold normalize_pressure
    rw [if_pos hno]
  · intro quadrature target hcase hweight hQ hDGP
    have hpoints := add_pressure_adjustment_points parameters in_pressure_block processes
      vector (target - weighted_mean (pressure_points quadrature processes vector))
      quadrature hQ hDGP
    refine ⟨add_pressure_adjustment parameters in_pressure_block processes vector
      (target - weighted_mean (pressure_points quadrature processes vector)), ?_, hpoints, ?_⟩
    · rcases hcase with ⟨hnorm, hquad, htarget⟩ | ⟨hnorm, hquad, htarget⟩
      · rw [hquad, htarget]
        exact normalize_pressure_of_volume ops dim parameters in_pressure_block processes
          vector hnorm
      · rw [hquad, htarget]
        exact normalize_pressure_of_surface ops dim parameters in_pressure_block processes
          vector hnorm
    · rw [hpoints, weighted_mean_map_add _ _ hweight]
      ring

/-- The quadrature points of the surface of `two_processes` with the values of
`linear_pressure`. -/
theorem pressure_points_two_processes :
    pressure_points (surface_quadrature two_dimensional_ops 2) two_processes linear_pressure
      = [(1, 1)] := by
  norm_num [pressure_points, surface_quadrature, is_surface_face, two_processes, surface_cell,
    bottom_cell, two_dimensional_ops, linear_pressure, get_function_value, List.filter,
    List.flatMap]

/-- Witness for C21: two processes normalize `linear_pressure` to the surface
pressure 5; its mean over the surface is 1, the adjustment is 4, and the mean
over the surface afterwards is 5. -/
theorem normalize_pressure_spec_witness :
    ∃ adjusted : ℕ → ℚ,
      normalize_pressure two_dimensional_ops 2 surface_parameters (fun _ => true)
          two_processes linear_pressure
        = some (4, adjusted)
      ∧ weighted_mean
          (pressure_points (surface_quadrature two_dimensional_ops 2) two_processes adjusted)
        = 5 := by
  have hmean : (5 : ℚ) - weighted_mean
      (pressure_points (surface_quadrature two_dimensional_ops 2) two_processes
        linear_pressure) = 4 := by
    rw [pressure_points_two_processes]
    norm_num [weighted_mean]
  obtain ⟨adjusted, h1, -, h3⟩ :=
    (normalize_pressure_spec two_dimensional_ops 2 surface_parameters (fun _ => true)
      two_processes linear_pressure).2 (surface_quadrature two_dimensional_ops 2) 5
      (Or.inr ⟨rfl, rfl, rfl⟩)
      (by rw [pressure_points_two_processes]; norm_num)
      (fun _ => ⟨by
        norm_num [two_processes, surface_cell, bottom_cell, surface_quadrature,
          is_surface_face, two_dimensional_ops, List.filter, List.flatMap],
        fun _ _ _ _ _ _ _ _ => rfl⟩)
      (fun h => by cases h)
  rw [hmean] at h1
  exact ⟨adjusted, h1, h3⟩

end Aspect
